import Mathlib

/-!
fctwallet2: wallet entries, staged transactions, commits and the transaction
listing.

A shallow embedding of `scwallet/walletentry.go`, of the transaction commands
of `WalletApp/transactions.go`, of `Wallet/commit.go` and of
`Wallet/Utility/transactionlist.go`, with the properties of their
natural-language specification stated over it.

Modelling conventions.

* A Go `[]byte` is a `List (Fin 256)`; its capacity is taken equal to its
  length, and a nil slice and an empty slice are the same list.
* A Go call that can return an error value or abort with a run-time panic
  yields a `Res`; a method with a pointer receiver also yields the receiver
  as the call leaves it, whatever the outcome.
* Packages the files import (`factoid`, `constants`, `primitives`, the wallet
  and the key-value store) are not part of the sources: their operations are
  fields of a record the definitions take as an argument.
-/

namespace FctWallet

/-- A byte. -/
abbrev Byte := Fin 256

/-- A byte slice. -/
abbrev Bytes := List Byte

/-- Outcome of a Go call: a normal return, a returned `error`, or a panic. -/
inductive Res (α : Type) where
  | ok : α → Res α
  | err : String → Res α
  | panic : String → Res α
deriving DecidableEq, Repr

/-- The call returned normally. -/
def Res.isOk {α : Type} : Res α → Bool
  | .ok _ => true
  | _ => false

/-- The call returned an `error` value (it did not panic). -/
def Res.isErr {α : Type} : Res α → Bool
  | .err _ => true
  | _ => false

/-- The call aborted with a panic. -/
def Res.isPanic {α : Type} : Res α → Bool
  | .panic _ => true
  | _ => false

/-- Modelled from the spec: `constants.ADDRESS_LENGTH`, the fixed length of an
address and of a public key, declared in the imported constants package. -/
def ADDRESS_LENGTH : Nat := 32

/-- Modelled from the spec: `constants.PRIVATE_LENGTH`, the fixed length of a
private-key record (secret scalar followed by the public key), declared in the
imported constants package. -/
def PRIVATE_LENGTH : Nat := 64

/-- Go `make([]byte, n, n)`: `n` zero bytes. -/
def make (n : Nat) : Bytes := List.replicate n 0

/-- Go `copy(dst, src)`: the first `min (len dst) (len src)` bytes of `dst` are
overwritten with those of `src`; the result is `dst` afterwards. -/
def copy (dst src : Bytes) : Bytes := src.take dst.length ++ dst.drop src.length

/-- Go `binary.BigEndian.Uint16` on a two-byte slice. -/
def Uint16 (hi lo : Byte) : Nat := hi.val * 256 + lo.val

/-- Go `binary.Write(&out, binary.BigEndian, uint16(n))`: the conversion to
`uint16` keeps `n` modulo `2^16`. -/
def writeUint16 (n : Nat) : Bytes :=
  [Fin.ofNat ((n % 65536) / 256), Fin.ofNat ((n % 65536) % 256)]

/-- Go `byte(n)` for a length `n`: `n` modulo `2^8`. -/
def byte (n : Nat) : Byte := Fin.ofNat (n % 256)

/-- The operations `walletentry.go` takes from the imported `factoid` and
`primitives` packages, over the type `R` of spending conditions (the values
behind `interfaces.IRCD`) and the type `H` of hashes (`interfaces.IHash`). -/
structure Factoid (R H : Type) where
  /-- The single-key condition over a public key: `NewRCD_1(pu)`. -/
  NewRCD_1 : Bytes → R
  /-- Looks ahead in the data and creates the right condition: `CreateRCD(data)`. -/
  CreateRCD : Bytes → Res R
  /-- The condition after `rcd.UnmarshalBinaryData(data)` and what the call returns. -/
  rcdUnmarshalBinaryData : R → Bytes → R × Res Bytes
  /-- What `rcd.MarshalBinary()` returns. -/
  rcdMarshalBinary : R → Res Bytes
  /-- What `rcd.GetAddress()` returns. -/
  rcdGetAddress : R → Res H
  /-- The hash made from given bytes: `primitives.NewHash(b)`. -/
  NewHash : Bytes → H

/-- The struct `WalletEntry`. The fields `public` and `private` of the source
are `pubKeys` and `privKeys`; a nil `rcd` is `none`. -/
structure WalletEntry (R : Type) where
  addrtype : String
  name : Bytes
  rcd : Option R
  pubKeys : List Bytes
  privKeys : List Bytes
deriving DecidableEq, Repr

/-- The value `new(WalletEntry)`: every field zero. -/
def WalletEntry.New {R : Type} : WalletEntry R :=
  { addrtype := "", name := [], rcd := none, pubKeys := [], privKeys := [] }

/-- The values an `interfaces.IBlock` can hold as far as `IsEqual` tells them
apart: a pointer to a wallet entry, or a block of another type. -/
inductive IBlock (R : Type) where
  | walletEntry : WalletEntry R → IBlock R
  | other : IBlock R

section walletentry

variable {R H : Type}

/-- `WalletEntry.GetName`. -/
def GetName (w : WalletEntry R) : Bytes := w.name

/-- `WalletEntry.GetType`. -/
def GetType (w : WalletEntry R) : String := w.addrtype

/-- `WalletEntry.SetType`: panics on any string but "ec" and "fct". -/
def SetType (w : WalletEntry R) (addrtype : String) : WalletEntry R × Res Unit :=
  if addrtype = "ec" ∨ addrtype = "fct" then
    ({ w with addrtype := addrtype }, .ok ())
  else
    (w, .panic "Invalid type passed to SetType()")

/-- `WalletEntry.SetRCD`. -/
def SetRCD (w : WalletEntry R) (rcd : Option R) : WalletEntry R :=
  { w with rcd := rcd }

/-- `WalletEntry.GetRCD`. -/
def GetRCD (w : WalletEntry R) : Option R := w.rcd

/-- `WalletEntry.SetName`. -/
def SetName (w : WalletEntry R) (name : Bytes) : WalletEntry R :=
  { w with name := name }

/-- `WalletEntry.GetAddress`. -/
def GetAddress (F : Factoid R H) (w1 : WalletEntry R) : Res H :=
  match w1.rcd with
  | none => .err "Should never happen. Missing the rcd block"
  | some rcd =>
    if w1.addrtype = "fct" then
      F.rcdGetAddress rcd
    else
      match w1.pubKeys with
      | [] => .err "No Public Key for WalletEntry"
      | public0 :: _ => .ok (F.NewHash public0)

/-- The loop of `IsEqual` from index `i` on, over the keys of `w1` still to
visit: `w2.public[i]` panics when `i` is not an index of `w2.public`. -/
def isEqualLoop (w1 : WalletEntry R) (public2 : List Bytes) :
    Nat → List Bytes → Res (List (WalletEntry R))
  | _, [] => .ok []
  | i, p :: rest =>
    match public2[i]? with
    | none => .panic "index out of range"
    | some q => if q ≠ p then .ok [w1] else isEqualLoop w1 public2 (i + 1) rest

/-- `WalletEntry.IsEqual`: the empty list (Go nil) reports equality, the list
holding `w1` reports a difference. -/
def IsEqual (w1 : WalletEntry R) (w : IBlock R) : Res (List (WalletEntry R)) :=
  match w with
  | .other => .ok [w1]
  | .walletEntry w2 =>
    if GetType w1 ≠ GetType w2 then .ok [w1]
    else isEqualLoop w1 w2.pubKeys 0 w1.pubKeys

/-- `WalletEntry.MarshalBinary` after the kind byte has been written to `out`
(lines 179-194). -/
def marshalBody (F : Factoid R H) (w : WalletEntry R) (out : Bytes) : Res Bytes :=
  let out := out ++ writeUint16 w.name.length
  let out := out ++ w.name
  match w.rcd with
  | none => .panic "nil pointer dereference"
  | some rcd =>
    match F.rcdMarshalBinary rcd with
    | .err e => .err e
    | .panic p => .panic p
    | .ok data =>
      let out := out ++ data
      let out := out ++ [byte w.pubKeys.length]
      let out := out ++ w.pubKeys.flatten
      let out := out ++ [byte w.privKeys.length]
      let out := out ++ w.privKeys.flatten
      .ok out

/-- `WalletEntry.MarshalBinary`. -/
def MarshalBinary (F : Factoid R H) (w : WalletEntry R) : Res Bytes :=
  if w.addrtype = "fct" then marshalBody F w [0]
  else if w.addrtype = "ec" then marshalBody F w [1]
  else .panic "Address type not set"

/-- The two key loops of `UnmarshalBinaryData`, with `n` slots still to fill
after the slots in `filled`: each turn makes a slot of `ADDRESS_LENGTH` zero
bytes, copies `data[:ADDRESS_LENGTH]` into it and advances `data`. Slicing a
shorter `data` panics, leaving the slot zeroed and the later slots nil. -/
def readKeys : Nat → List Bytes → Bytes → List Bytes × Res Bytes
  | 0, filled, data => (filled, .ok data)
  | n + 1, filled, data =>
    if ADDRESS_LENGTH ≤ data.length then
      readKeys n (filled ++ [copy (make ADDRESS_LENGTH) (data.take ADDRESS_LENGTH)])
        (data.drop ADDRESS_LENGTH)
    else
      (filled ++ make ADDRESS_LENGTH :: List.replicate n [],
        .panic "slice bounds out of range")

/-- Lines 145-160 of `UnmarshalBinaryData`: the public keys, then the private
keys, each list behind its one-byte count. -/
def unmarshalKeys (w : WalletEntry R) (data : Bytes) : WalletEntry R × Res Bytes :=
  match data with
  | [] => (w, .panic "index out of range")
  | blen :: data =>
    match readKeys blen.val [] data with
    | (pubs, .err e) => ({ w with pubKeys := pubs }, .err e)
    | (pubs, .panic p) => ({ w with pubKeys := pubs }, .panic p)
    | (pubs, .ok data) =>
      let w := { w with pubKeys := pubs }
      match data with
      | [] => (w, .panic "index out of range")
      | blen :: data =>
        match readKeys blen.val [] data with
        | (privs, r) => ({ w with privKeys := privs }, r)

/-- Lines 137-143 of `UnmarshalBinaryData`: the condition is created from the
data when the entry has none, then decodes itself. -/
def unmarshalRCD (F : Factoid R H) (w : WalletEntry R) (data : Bytes) :
    WalletEntry R × Res Bytes :=
  match (match w.rcd with
    | none => F.CreateRCD data
    | some rcd => .ok rcd) with
  | .err e => (w, .err e)
  | .panic p => (w, .panic p)
  | .ok rcd =>
    match F.rcdUnmarshalBinaryData rcd data with
    | (rcd, r) => ({ w with rcd := some rcd }, r)

/-- Lines 120-143 of `UnmarshalBinaryData`: the kind byte, the name behind its
two-byte length, and the condition. -/
def unmarshalHead (F : Factoid R H) (w : WalletEntry R) (data : Bytes) :
    WalletEntry R × Res Bytes :=
  match data with
  | [] => (w, .panic "index out of range")
  | b0 :: data =>
    if b0.val > 1 then (w, .err "Invalid type byte")
    else
      let w := { w with addrtype := if b0 = 0 then "fct" else "ec" }
      match data with
      | hi :: lo :: data =>
        let siz := Uint16 hi lo
        if siz ≤ data.length then
          let n := copy (make siz) (data.take siz)
          let data := data.drop siz
          let w := { w with name := n }
          unmarshalRCD F w data
        else (w, .panic "slice bounds out of range")
      | _ => (w, .panic "slice bounds out of range")

/-- `WalletEntry.UnmarshalBinaryData`: the entry as the call leaves it, and
what the call returns (the data left over, an error, or a panic). -/
def UnmarshalBinaryData (F : Factoid R H) (w : WalletEntry R) (data : Bytes) :
    WalletEntry R × Res Bytes :=
  match unmarshalHead F w data with
  | (w, .err e) => (w, .err e)
  | (w, .panic p) => (w, .panic p)
  | (w, .ok data) => unmarshalKeys w data

/-- `WalletEntry.UnmarshalBinary`. -/
def UnmarshalBinary (F : Factoid R H) (w : WalletEntry R) (data : Bytes) :
    WalletEntry R × Res Unit :=
  match UnmarshalBinaryData F w data with
  | (w, .ok _) => (w, .ok ())
  | (w, .err e) => (w, .err e)
  | (w, .panic p) => (w, .panic p)

/-- `WalletEntry.AddKey`. The parameters `public` and `private` of the source are
`pub` and `priv`; the panic message is given without the two keys it prints. -/
def AddKey (F : Factoid R H) (w : WalletEntry R) (pub priv : Bytes) :
    WalletEntry R × Res Unit :=
  if pub.length ≠ ADDRESS_LENGTH ∨
      (priv.length ≠ ADDRESS_LENGTH ∧ priv.length ≠ PRIVATE_LENGTH) then
    (w, .panic "Bad Keys presented to AddKey.  Should not happen.")
  else
    let pu := copy (make ADDRESS_LENGTH) pub
    let pr := make PRIVATE_LENGTH
    let pr := copy (pr.take 32) priv ++ pr.drop 32
    let pr := pr.take 32 ++ copy (pr.drop 32) pub
    ({ w with pubKeys := w.pubKeys ++ [pu], privKeys := w.privKeys ++ [pr],
              rcd := some (F.NewRCD_1 pu) }, .ok ())

/-- `WalletEntry.GetKey`. -/
def GetKey (we : WalletEntry R) (i : Nat) : Res Bytes :=
  match we.pubKeys[i]? with
  | some k => .ok k
  | none => .panic "index out of range"

/-- `WalletEntry.GetPrivKey`. -/
def GetPrivKey (we : WalletEntry R) (i : Nat) : Res Bytes :=
  match we.privKeys[i]? with
  | some k => .ok k
  | none => .panic "index out of range"

end walletentry

/-- Entries whose key pairs were built with `AddKey`: an entry without keys,
changed by accepted `AddKey` calls and by the setters. -/
inductive KeysAdded {R H : Type} (F : Factoid R H) : WalletEntry R → Prop where
  | empty (w : WalletEntry R) : w.pubKeys = [] → w.privKeys = [] → KeysAdded F w
  | addKey (w : WalletEntry R) (pub priv : Bytes) : KeysAdded F w →
      (AddKey F w pub priv).2 = .ok () → KeysAdded F (AddKey F w pub priv).1
  | setName (w : WalletEntry R) (name : Bytes) : KeysAdded F w → KeysAdded F (SetName w name)
  | setRCD (w : WalletEntry R) (rcd : Option R) : KeysAdded F w → KeysAdded F (SetRCD w rcd)
  | setType (w : WalletEntry R) (addrtype : String) : KeysAdded F w →
      (SetType w addrtype).2 = .ok () → KeysAdded F (SetType w addrtype).1

/-- Entries reachable from `new(WalletEntry)` by `AddKey`, `SetName`, `SetRCD`
and `SetType` calls that return. -/
inductive ReachableBySetters {R H : Type} (F : Factoid R H) : WalletEntry R → Prop where
  | new : ReachableBySetters F WalletEntry.New
  | addKey (w : WalletEntry R) (pub priv : Bytes) : ReachableBySetters F w →
      (AddKey F w pub priv).2 = .ok () → ReachableBySetters F (AddKey F w pub priv).1
  | setName (w : WalletEntry R) (name : Bytes) :
      ReachableBySetters F w → ReachableBySetters F (SetName w name)
  | setRCD (w : WalletEntry R) (rcd : Option R) :
      ReachableBySetters F w → ReachableBySetters F (SetRCD w rcd)
  | setType (w : WalletEntry R) (addrtype : String) : ReachableBySetters F w →
      (SetType w addrtype).2 = .ok () → ReachableBySetters F (SetType w addrtype).1

/-- Entries reachable from `new(WalletEntry)` by the state-changing operations:
those of `ReachableBySetters`, and `UnmarshalBinary` on an input it accepts. -/
inductive Reachable {R H : Type} (F : Factoid R H) : WalletEntry R → Prop where
  | new : Reachable F WalletEntry.New
  | addKey (w : WalletEntry R) (pub priv : Bytes) : Reachable F w →
      (AddKey F w pub priv).2 = .ok () → Reachable F (AddKey F w pub priv).1
  | setName (w : WalletEntry R) (name : Bytes) : Reachable F w → Reachable F (SetName w name)
  | setRCD (w : WalletEntry R) (rcd : Option R) : Reachable F w → Reachable F (SetRCD w rcd)
  | setType (w : WalletEntry R) (addrtype : String) : Reachable F w →
      (SetType w addrtype).2 = .ok () → Reachable F (SetType w addrtype).1
  | unmarshalBinary (w : WalletEntry R) (data : Bytes) : Reachable F w →
      (UnmarshalBinary F w data).2 = .ok () → Reachable F (UnmarshalBinary F w data).1

/-! ## A concrete instance of the imported operations -/

/-- Modelled from the spec: hashes and addresses as symbolic values, either made
from given bytes (`primitives.NewHash`) or the hash of an encoding. The hash
function itself is in the imported `primitives` package. -/
inductive Hash where
  | NewHash : Bytes → Hash
  | Sha : Bytes → Hash
deriving DecidableEq, Repr

/-- Modelled from the spec: the spending conditions, a closed set of variants
with at least the single-key variant holding one public key. The type is in the
imported `factoid` package. -/
inductive RCD where
  | RCD_1 : Bytes → RCD
deriving DecidableEq, Repr

/-- Modelled from the spec: the operations of the imported `factoid` package on
the single-key condition. Its encoding is self-describing: the type byte 1, then
the public key; its address is the hash of itself. -/
def specFactoid : Factoid RCD Hash where
  NewRCD_1 := RCD.RCD_1
  CreateRCD data :=
    match data with
    | [] => .panic "index out of range"
    | t :: _ =>
      if t = 1 then .ok (RCD.RCD_1 (make ADDRESS_LENGTH))
      else .panic "Bad Data encountered by CreateRCD"
  rcdUnmarshalBinaryData r data :=
    match data with
    | [] => (r, .err "Data source too short")
    | t :: data =>
      if t ≠ 1 then (r, .err "Bad type byte")
      else if data.length < ADDRESS_LENGTH then (r, .err "Data source too short")
      else (RCD.RCD_1 (data.take ADDRESS_LENGTH), .ok (data.drop ADDRESS_LENGTH))
  rcdMarshalBinary r :=
    match r with
    | .RCD_1 k => .ok (1 :: k)
  rcdGetAddress r :=
    match r with
    | .RCD_1 k => .ok (Hash.Sha (1 :: k))
  NewHash := Hash.NewHash

/-! ## The transaction commands of `WalletApp/transactions.go` -/

/-- The buckets of the key-value store the commands address (`fct.DB_BUILD_TRANS`
for the transactions under construction, `fct.W_NAME` for the credentials by
name, `fct.W_ADDRESS_PUB_KEY` for the credentials by address). -/
inductive Bucket where
  | DB_BUILD_TRANS
  | W_NAME
  | W_ADDRESS_PUB_KEY
deriving DecidableEq, Repr

/-- The values the store holds behind `fct.IBlock`: a transaction, a wallet
entry, or a block of another type. -/
inductive Stored (T R : Type) where
  | transaction : T → Stored T R
  | walletEntry : WalletEntry R → Stored T R
  | other : Stored T R
deriving DecidableEq

/-- Modelled from the spec: the persistent store collaborator, an opaque keyed
store with namespaces, `get` and `put`; an absent key reads as nil. Its
implementation is in the imported `factoid` packages. `GetRaw` hands out the
stored object itself, so a transaction changed in place is changed in the store. -/
structure DB (T R : Type) where
  raw : Bucket → Bytes → Option (Stored T R)

/-- Go `[]byte(s)` for a string `s`. -/
def goBytes (s : String) : Bytes :=
  (s.toList.flatMap String.utf8EncodeChar).map fun b => Fin.ofNat b.toNat

/-- Go `len(s)` for a string `s`: its length in bytes. -/
def len (s : String) : Nat := s.utf8ByteSize

/-- Modelled from the spec: `db.GetRaw(bucket, key)`. -/
def GetRaw {T R : Type} (db : DB T R) (bucket : Bucket) (key : Bytes) :
    Option (Stored T R) :=
  db.raw bucket key

/-- Modelled from the spec: `db.PutRaw(bucket, key, value)`; putting nil clears
the key. -/
def PutRaw {T R : Type} (db : DB T R) (bucket : Bucket) (key : Bytes)
    (value : Option (Stored T R)) : DB T R :=
  { raw := fun b k => if b = bucket ∧ k = key then value else db.raw b k }

/-- Modelled from the spec: the package variable `badHexChar`, declared in
another file of the package: a pattern matching any character that is not a
hexadecimal digit. `badHexChar s` is `badHexChar.FindStringIndex(s) != nil`. -/
def badHexChar (s : String) : Bool :=
  s.toList.any fun c =>
    !(('0' ≤ c ∧ c ≤ '9') ∨ ('a' ≤ c ∧ c ≤ 'f') ∨ ('A' ≤ c ∧ c ≤ 'F'))

/-- Go `uint64(b)` for an `int64` value `b`. -/
def uint64 (b : Int) : Nat := (b % 2 ^ 64).toNat

/-- The operations `transactions.go` takes from the imported `fct` package,
from `strconv` and from the wallet `state.GetFS().GetWallet()`, over the type
`T` of transactions (`fct.ITransaction`) and the type `H` of addresses
(`fct.IAddress`); a nil address is `none`. The wallet operations change the
transaction in place: they yield it as the call leaves it, with what the call
returns. -/
structure Fct (T R H : Type) where
  ValidateFUserStr : String → Bool
  ValidateECUserStr : String → Bool
  ConvertUserStrToAddress : String → Bytes
  NewAddress : Bytes → H
  /-- The converted amount and the error `fct.ConvertFixedPoint` returns. -/
  ConvertFixedPoint : String → String × Option String
  /-- The value and the error `strconv.ParseInt(s, 10, 64)` returns. -/
  ParseInt : String → Int × Option String
  ConvertFctAddressToUserStr : Option H → Res String
  ConvertECAddressToUserStr : Option H → Res String
  CreateTransaction : Nat → T
  AddInput : DB T R → T → Option H → Nat → T × Res Unit
  AddOutput : DB T R → T → Option H → Nat → T × Res Unit
  AddECOutput : DB T R → T → Option H → Nat → T × Res Unit

section transactions

variable {T R H : Type}

/-- `NewTransaction.Execute`, with `timeMilli` what `GetTimeMilli()` returns:
the store as the command leaves it, and what the command returns. -/
def NewTransaction.Execute (E : Fct T R H) (timeMilli : Nat) (db : DB T R)
    (args : List String) : DB T R × Res Unit :=
  match args with
  | [_, key] =>
    match GetRaw db .DB_BUILD_TRANS (goBytes key) with
    | some _ => (db, .err ("Duplicate key: '" ++ key ++ "'"))
    | none =>
      let t := E.CreateTransaction timeMilli
      (PutRaw db .DB_BUILD_TRANS (goBytes key) (some (.transaction t)), .ok ())
  | _ => (db, .err "Invalid Parameters")

/-- Lines 102-125 of `AddInput.Execute`, the same in `AddOutput.Execute` and in
`AddECOutput.Execute` but for the validation function: the address `addr` that
the reference `adr` resolves to. It stays nil when `adr` is 64 hexadecimal
characters. -/
def resolve (E : Fct T R H) (F : Factoid R H) (validate : String → Bool)
    (db : DB T R) (adr : String) : Res (Option H) :=
  if !validate adr then
    if len adr ≠ 64 then
      if len adr > 32 then
        .err ("Invalid Name.  Name is too long: " ++ toString (len adr) ++ " characters")
      else
        match GetRaw db .W_NAME (goBytes adr) with
        | some we =>
          match we with
          | .walletEntry we2 =>
            match GetAddress F we2 with
            | .ok addr => .ok (some addr)
            | .err _ => .panic "nil pointer dereference"
            | .panic p => .panic p
          | _ => .panic "interface conversion"
        | none => .err "Name is undefined."
    else
      if badHexChar adr then
        .err ("Invalid Name.  Name is too long: " ++ toString (len adr) ++ " characters")
      else .ok none
  else
    .ok (some (E.NewAddress (E.ConvertUserStrToAddress adr)))

/-- The body the three commands `AddInput`, `AddOutput` and `AddECOutput` share
(lines 87-137, 171-221, 255-305), over what differs between them: the validation
function, the wallet operation and the function rendering the address for the
message printed last. The variable `trans` of the source is `tr`. -/
def addExecute (E : Fct T R H) (F : Factoid R H) (validate : String → Bool)
    (walletOp : DB T R → T → Option H → Nat → T × Res Unit)
    (toUserStr : Option H → Res String)
    (db : DB T R) (args : List String) : DB T R × Res Unit :=
  match args with
  | [_, key, adr, amt] =>
    match GetRaw db .DB_BUILD_TRANS (goBytes key) with
    | some (.transaction tr) =>
      match resolve E F validate db adr with
      | .err e => (db, .err e)
      | .panic p => (db, .panic p)
      | .ok addr =>
        let amount := (E.ConvertFixedPoint amt).1
        let bamount := (E.ParseInt amount).1
        match walletOp db tr addr (uint64 bamount) with
        | (tr, r) =>
          let db := PutRaw db .DB_BUILD_TRANS (goBytes key) (some (.transaction tr))
          match r with
          | .err e => (db, .err e)
          | .panic p => (db, .panic p)
          | .ok _ =>
            match toUserStr addr with
            | .panic p => (db, .panic p)
            | _ => (db, .ok ())
    | _ => (db, .err "Unknown Transaction")
  | _ => (db, .err "Invalid Parameters")

/-- `AddInput.Execute`. -/
def AddInput.Execute (E : Fct T R H) (F : Factoid R H) (db : DB T R)
    (args : List String) : DB T R × Res Unit :=
  addExecute E F E.ValidateFUserStr E.AddInput E.ConvertFctAddressToUserStr db args

/-- `AddOutput.Execute`. -/
def AddOutput.Execute (E : Fct T R H) (F : Factoid R H) (db : DB T R)
    (args : List String) : DB T R × Res Unit :=
  addExecute E F E.ValidateFUserStr E.AddOutput E.ConvertFctAddressToUserStr db args

/-- `AddECOutput.Execute`. -/
def AddECOutput.Execute (E : Fct T R H) (F : Factoid R H) (db : DB T R)
    (args : List String) : DB T R × Res Unit :=
  addExecute E F E.ValidateECUserStr E.AddECOutput E.ConvertECAddressToUserStr db args

end transactions

/-- Modelled from the spec: the transaction under construction, with its
timestamp, inputs, outputs and entry-credit outputs, each an address with an
amount. The type is in the imported `factoid` package. -/
structure Transaction where
  milliTimestamp : Nat
  inputs : List (Option Hash × Nat)
  outputs : List (Option Hash × Nat)
  ecOutputs : List (Option Hash × Nat)
deriving DecidableEq, Repr

/-- The number a string of decimal digits denotes; none for any other string. -/
def parseDigits (s : String) : Option Nat :=
  match s.toList with
  | [] => none
  | cs => cs.foldl (fun acc c =>
      match acc with
      | some n => if c.isDigit then some (10 * n + (c.toNat - 48)) else none
      | none => none) (some 0)

/-- Modelled from the spec: the operations of the imported `fct` package and of
the wallet. No string is a well-formed encoded address, amounts are plain
decimal numbers, a new transaction is empty and stamped with the given time, and
the wallet operations append the address with the amount. -/
def specFct : Fct Transaction RCD Hash where
  ValidateFUserStr := fun _ => false
  ValidateECUserStr := fun _ => false
  ConvertUserStrToAddress := goBytes
  NewAddress := Hash.NewHash
  ConvertFixedPoint := fun s => (s, none)
  ParseInt := fun s =>
    match parseDigits s with
    | some n => (n, none)
    | none => (0, some "invalid syntax")
  ConvertFctAddressToUserStr := fun a =>
    match a with
    | none => .panic "nil pointer dereference"
    | some _ => .ok "FA"
  ConvertECAddressToUserStr := fun a =>
    match a with
    | none => .panic "nil pointer dereference"
    | some _ => .ok "EC"
  CreateTransaction := fun t =>
    { milliTimestamp := t, inputs := [], outputs := [], ecOutputs := [] }
  AddInput := fun _ t a n => ({ t with inputs := t.inputs ++ [(a, n)] }, .ok ())
  AddOutput := fun _ t a n => ({ t with outputs := t.outputs ++ [(a, n)] }, .ok ())
  AddECOutput := fun _ t a n => ({ t with ecOutputs := t.ecOutputs ++ [(a, n)] }, .ok ())

/-- The store holding nothing. -/
def emptyDB : DB Transaction RCD := { raw := fun _ _ => none }

/-- The entry of kind entry_credit without keys: `new(WalletEntry)` after
`SetType("ec")`. -/
def ecEntry : WalletEntry RCD := (SetType WalletEntry.New "ec").1

/-- A public key: 32 bytes of value 1. -/
def pub1 : Bytes := List.replicate 32 1

/-- A private key in its long form: 64 bytes of value 2. -/
def priv2 : Bytes := List.replicate 64 2

/-- The entry of kind entry_credit with one key pair: `ecEntry` after
`AddKey(pub1, priv2)`. -/
def oneKeyEntry : WalletEntry RCD := (AddKey specFactoid ecEntry pub1 priv2).1

/-- What is asked of one of the three commands `AddInput`, `AddOutput` and
`AddECOutput`, given as `exec` with its validation function and its wallet
operation, on every store and every four arguments. An ABSENT key, a reference
that is too long for a name, and a name without credential each give a returned
error and the store unchanged; on an OPEN key, a name with a credential whose
`GetAddress` yields an address makes the wallet operation run on the staged
transaction with that address. -/
def RejectsUnresolved {T R H : Type} (E : Fct T R H) (F : Factoid R H)
    (validate : String → Bool) (walletOp : DB T R → T → Option H → Nat → T × Res Unit)
    (exec : DB T R → List String → DB T R × Res Unit) : Prop :=
  ∀ (db : DB T R) (cmd key adr amt : String),
    (GetRaw db .DB_BUILD_TRANS (goBytes key) = none →
      exec db [cmd, key, adr, amt] = (db, .err "Unknown Transaction")) ∧
    (validate adr = false → len adr ≠ 64 → len adr > 32 →
      (exec db [cmd, key, adr, amt]).1 = db ∧
        (exec db [cmd, key, adr, amt]).2.isErr = true) ∧
    (validate adr = false → len adr ≤ 32 → GetRaw db .W_NAME (goBytes adr) = none →
      (exec db [cmd, key, adr, amt]).1 = db ∧
        (exec db [cmd, key, adr, amt]).2.isErr = true) ∧
    (∀ (tr : T) (we : WalletEntry R) (addr : H),
      GetRaw db .DB_BUILD_TRANS (goBytes key) = some (.transaction tr) →
      validate adr = false → len adr ≤ 32 →
      GetRaw db .W_NAME (goBytes adr) = some (.walletEntry we) →
      GetAddress F we = .ok addr →
      (exec db [cmd, key, adr, amt]).1 = PutRaw db .DB_BUILD_TRANS (goBytes key)
        (some (.transaction (walletOp db tr (some addr)
          (uint64 (E.ParseInt (E.ConvertFixedPoint amt).1).1)).1)))

/-- The store in which the transaction "tx1" has been started at time 1000. -/
def startedDB : DB Transaction RCD :=
  (NewTransaction.Execute specFct 1000 emptyDB ["NewTransaction", "tx1"]).1

/-- The store `startedDB` with the one-key entry stored under the name "bob". -/
def namedDB : DB Transaction RCD :=
  PutRaw startedDB .W_NAME (goBytes "bob") (some (.walletEntry oneKeyEntry))

/-- A reference of 64 hexadecimal characters: 64 times the digit 7. -/
def hexRef : String := String.mk (List.replicate 64 '7')

/-- What one of the commands `AddInput`, `AddOutput` and `AddECOutput` returns
once the wallet operation has returned `r`, with `s` the outcome of rendering
the address for the message printed last (lines 130-136): the error of the
wallet operation, else a panic of the rendering, else nil. -/
def addOutcome (r : Res Unit) (s : Res String) : Res Unit :=
  match r with
  | .err e => .err e
  | .panic p => .panic p
  | .ok _ =>
    match s with
    | .panic p => .panic p
    | _ => .ok ()

/-! ## The commands `Sign` and `Submit` of `WalletApp/transactions.go` -/

/-- What `http.Post` returns: a response, with its status code, or an error. -/
inductive PostResult where
  | response : Nat → PostResult
  | failed : String → PostResult
deriving DecidableEq, Repr

/-- The operations `Sign.Execute` and `Submit.Execute` take from the wallet
`state.GetFS().GetWallet()`, from the transaction and from `net/http`, over the
type `T` of transactions. `Validate` and `ValidateSignatures` read the
transaction; `SignInputs` changes it in place and yields it as the call leaves
it, with what the call returns; `Post url body` is what the node answers. -/
structure Signer (T R : Type) where
  Validate : DB T R → Nat → T → Res Unit
  SignInputs : DB T R → T → T × Res Bool
  ValidateSignatures : DB T R → T → Res Unit
  MarshalBinary : T → Res Bytes
  Post : String → String → PostResult

/-- The lower-case hexadecimal digit of a value below 16. -/
def hexDigit (n : Nat) : Char :=
  if n < 10 then Char.ofNat (48 + n) else Char.ofNat (87 + n)

/-- Go `hex.EncodeToString`. -/
def hexEncode (data : Bytes) : String :=
  String.mk (data.flatMap fun b => [hexDigit (b.val / 16), hexDigit (b.val % 16)])

section signing

variable {T R : Type}

/-- `Sign.Execute`: the store as the command leaves it, and what the command
returns. The transaction `SignInputs` has changed in place is the one the store
holds under the key, whether or not the command goes on to put it. -/
def Sign.Execute (S : Signer T R) (db : DB T R) (args : List String) : DB T R × Res Unit :=
  match args with
  | [_, key] =>
    match GetRaw db .DB_BUILD_TRANS (goBytes key) with
    | some (.transaction tr) =>
      match S.Validate db 1 tr with
      | .err e => (db, .err e)
      | .panic p => (db, .panic p)
      | .ok _ =>
        match S.SignInputs db tr with
        | (tr, r) =>
          let db := PutRaw db .DB_BUILD_TRANS (goBytes key) (some (.transaction tr))
          match r with
          | .err e => (db, .err e)
          | .panic p => (db, .panic p)
          | .ok false => (db, .err "Error signing the transaction")
          | .ok true =>
            (PutRaw db .DB_BUILD_TRANS (goBytes key) (some (.transaction tr)), .ok ())
    | _ => (db, .err "Invalid Parameters")
  | _ => (db, .err "Invalid Parameters")

/-- `Submit.Execute`, with `server` what `state.GetServer()` returns: the store
as the command leaves it, the posts it made (address and body), and what it
returns. `json.Marshal` of a struct holding one string does not fail. -/
def Submit.Execute (S : Signer T R) (server : String) (db : DB T R) (args : List String) :
    DB T R × List (String × String) × Res Unit :=
  match args with
  | [_, key] =>
    match GetRaw db .DB_BUILD_TRANS (goBytes key) with
    | some (.transaction tr) =>
      match S.Validate db 1 tr with
      | .err e => (db, [], .err e)
      | .panic p => (db, [], .panic p)
      | .ok _ =>
        match S.ValidateSignatures db tr with
        | .err e => (db, [], .err e)
        | .panic p => (db, [], .panic p)
        | .ok _ =>
          match S.MarshalBinary tr with
          | .err e => (db, [], .err e)
          | .panic p => (db, [], .panic p)
          | .ok data =>
            let transdata := hexEncode data
            let j := "\x7b\"Transaction\":\"" ++ transdata ++ "\"\x7d"
            let url := "http://" ++ server ++ "/v1/factoid-submit/"
            match S.Post url j with
            | .failed _ => (db, [(url, j)], .err "Error coming back from server ")
            | .response _ =>
              (PutRaw db .DB_BUILD_TRANS (goBytes key) none, [(url, j)], .ok ())
    | _ => (db, [], .err "Invalid Parameters")
  | _ => (db, [], .err "Invalid Parameters")

end signing

/-- Modelled from the spec: a transaction under construction together with the
mark that its inputs carry signatures. -/
structure SignedTransaction where
  tx : Transaction
  signed : Bool
deriving DecidableEq, Repr

/-- The sum of the amounts of a list of inputs or outputs. -/
def total (l : List (Option Hash × Nat)) : Nat := (l.map Prod.snd).sum

/-- Modelled from the spec: the wallet and the node as `Sign` and `Submit` use
them, given how the node answers a post. Structural validation is fee
sufficiency, with a minimum fee of 1: outputs plus fee must not exceed inputs.
Signing marks the transaction, and the signatures are acceptable when it is
marked. -/
def specSigner (answer : PostResult) : Signer SignedTransaction RCD where
  Validate := fun _ _ t =>
    if total t.tx.outputs + total t.tx.ecOutputs + 1 ≤ total t.tx.inputs then .ok ()
    else .err "The inputs do not cover the outputs and the fee"
  SignInputs := fun _ t => ({ t with signed := true }, .ok true)
  ValidateSignatures := fun _ t =>
    if t.signed then .ok () else .err "An input is not signed"
  MarshalBinary := fun t => .ok [byte t.tx.milliTimestamp]
  Post := fun _ _ => answer

/-- An unsigned transaction paying 5 from an input of 10. -/
def paying : SignedTransaction :=
  { tx := { milliTimestamp := 7, inputs := [(some (Hash.NewHash pub1), 10)],
            outputs := [(some (Hash.NewHash pub1), 5)], ecOutputs := [] },
    signed := false }

/-- The store holding the transaction `paying` under "tx1". -/
def payingDB : DB SignedTransaction RCD :=
  PutRaw { raw := fun _ _ => none } .DB_BUILD_TRANS (goBytes "tx1") (some (.transaction paying))

/-- The store `payingDB` after `Sign` on "tx1". -/
def signedDB : DB SignedTransaction RCD :=
  (Sign.Execute (specSigner (.response 200)) payingDB ["Sign", "tx1"]).1

/-! ## The transaction listing of `Wallet/Utility/transactionlist.go` -/

/-- What the listing reads of a transaction (`fct.ITransaction`), over the type
`T` of transactions: the address bytes `GetAddress().Bytes()` of its inputs, of
its outputs and of its entry-credit outputs, in order, and its text. -/
structure TransView (T : Type) where
  GetInputs : T → List Bytes
  GetOutputs : T → List Bytes
  GetECOutputs : T → List Bytes
  String : T → String

/-- The node as the listing reads it through the imported `factom` package:
the key of the directory block head, and the raw block behind a reference. -/
structure Node where
  GetDBlockHead : Res String
  GetRaw : String → Res Bytes

/-- What the listing takes from the imported `common` and `block` packages,
over the types `D` of directory blocks, `FB` of factoid blocks and `T` of
transactions: decoding into a new block (`UnmarshalBinary`), the bytes of the
previous key of a directory block's header, the chain bytes and key bytes of each
of its entries, and the transactions of a factoid block. -/
structure Blocks (D FB T : Type) where
  UnmarshalDBlock : Bytes → Res D
  PrevKeyMR : D → Bytes
  DBEntries : D → List (Bytes × Bytes)
  FACTOID_CHAINID : Bytes
  ZERO_HASH : Bytes
  newFBlock : FB
  UnmarshalFBlock : Bytes → Res FB
  GetTransactions : FB → List T

/-- The package variables of `transactionlist.go`. -/
structure Scanner (D FB : Type) where
  DirectoryBlocks : List D
  FactoidBlocks : List FB
  DBHead : Bytes
  DBHeadStr : String
  DBHeadLast : Bytes
deriving DecidableEq, Repr

/-- The value of a hexadecimal digit. -/
def hexVal (c : Char) : Option Nat :=
  if '0' ≤ c ∧ c ≤ '9' then some (c.toNat - 48)
  else if 'a' ≤ c ∧ c ≤ 'f' then some (c.toNat - 87)
  else if 'A' ≤ c ∧ c ≤ 'F' then some (c.toNat - 55)
  else none

/-- Go `hex.DecodeString` on the characters of a string: the bytes decoded
before the first invalid character or the odd end, and the error if any. -/
def decodePairs : List Char → Bytes × Option String
  | [] => ([], none)
  | [c] =>
    match hexVal c with
    | none => ([], some "encoding/hex: invalid byte")
    | some _ => ([], some "encoding/hex: odd length hex string")
  | p :: q :: rest =>
    match hexVal p, hexVal q with
    | some a, some b =>
      match decodePairs rest with
      | (bytes, e) => (Fin.ofNat (a * 16 + b) :: bytes, e)
    | _, _ => ([], some "encoding/hex: invalid byte")

/-- Go `hex.DecodeString`. -/
def hexDecode (s : String) : Bytes × Option String := decodePairs s.toList

section listing

variable {D FB T : Type}

/-- The package variables as the file initialises them. -/
def Scanner.init (B : Blocks D FB T) : Scanner D FB :=
  { DirectoryBlocks := [], FactoidBlocks := [], DBHead := B.ZERO_HASH, DBHeadStr := "",
    DBHeadLast := B.ZERO_HASH }

/-- `getDBHead`: the variables as the call leaves them, and what it returns. An
error of the node or of the decoding is a panic. -/
def getDBHead (N : Node) (s : Scanner D FB) : Scanner D FB × Res Bool :=
  match N.GetDBlockHead with
  | .err e => (s, .panic e)
  | .panic p => (s, .panic p)
  | .ok keyMR =>
    if keyMR ≠ s.DBHeadStr then
      let s := { s with DBHeadStr := keyMR }
      match hexDecode keyMR with
      | (head, some e) => ({ s with DBHead := head }, .panic e)
      | (head, none) => ({ s with DBHead := head }, .ok true)
    else (s, .ok false)

/-- The first loop of `getAll` (lines 53-68), run for at most the given number
of turns from the reference `next`, with `last` the value of `DBHeadLast`: the
blocks `dbs` collected, the references fetched, and how the loop ends; `none`
when the turns run out. -/
def walkBack (N : Node) (B : Blocks D FB T) (last : Bytes) :
    Nat → String → List D → List String → Option (List D × List String × Res Unit)
  | 0, _, _, _ => none
  | fuel + 1, next, dbs, fetched =>
    let fetched := fetched ++ [next]
    match N.GetRaw next with
    | .err e => some (dbs, fetched, .panic e)
    | .panic p => some (dbs, fetched, .panic p)
    | .ok blk =>
      match B.UnmarshalDBlock blk with
      | .err e => some (dbs, fetched, .panic e)
      | .panic p => some (dbs, fetched, .panic p)
      | .ok db =>
        let dbs := dbs ++ [db]
        if B.PrevKeyMR db = last then some (dbs, fetched, .ok ())
        else walkBack N B last fuel (hexEncode (B.PrevKeyMR db)) dbs fetched

/-- The loop over the entries of a directory block (lines 76-91), from the
pointer `fb`, the count `fcnt` and the list `FactoidBlocks` it starts with: the
three as the loop leaves them, the references fetched, and how the loop ends.
The first entry of the Factoid chain is fetched and decoded, and the loop
breaks. -/
def findFactoid (N : Node) (B : Blocks D FB T) :
    List (Bytes × Bytes) → Option FB → Nat → List FB →
      Option FB × Nat × List FB × List String × Res Unit
  | [], fb, fcnt, fbs => (fb, fcnt, fbs, [], .ok ())
  | dbe :: rest, fb, fcnt, fbs =>
    if dbe.1 = B.FACTOID_CHAINID then
      let fcnt := fcnt + 1
      let hashstr := hexEncode dbe.2
      match N.GetRaw hashstr with
      | .err e => (fb, fcnt, fbs, [hashstr], .panic e)
      | .panic p => (fb, fcnt, fbs, [hashstr], .panic p)
      | .ok fdata =>
        match B.UnmarshalFBlock fdata with
        | .err e => (fb, fcnt, fbs, [hashstr], .panic e)
        | .panic p => (fb, fcnt, fbs, [hashstr], .panic p)
        | .ok decoded => (some decoded, fcnt, fbs ++ [decoded], [hashstr], .ok ())
    else findFactoid N B rest fb fcnt fbs

/-- `ProcessFB`. -/
def ProcessFB (_fb : FB) : Option String := none

/-- The second loop of `getAll` (lines 72-101) over the collected blocks, given
oldest first: the variables as the loop leaves them, the references fetched
added to `fetched`, and how the loop ends. The pointer `fb` starts as a new
block, never nil. -/
def replay (N : Node) (B : Blocks D FB T) :
    List D → Scanner D FB → List String → Scanner D FB × List String × Res Unit
  | [], s, fetched => (s, fetched, .ok ())
  | db :: rest, s, fetched =>
    let s := { s with DirectoryBlocks := s.DirectoryBlocks ++ [db] }
    match findFactoid N B (B.DBEntries db) (some B.newFBlock) 0 s.FactoidBlocks with
    | (fb, fcnt, fbs, got, r) =>
      let s := { s with FactoidBlocks := fbs }
      let fetched := fetched ++ got
      match r with
      | .err e => (s, fetched, .err e)
      | .panic p => (s, fetched, .panic p)
      | .ok _ =>
        match fb with
        | none => (s, fetched, .panic "Missing Factoid Block from a directory block")
        | some fb =>
          if fcnt > 1 then
            (s, fetched, .panic "More than one Factom Block found in a directory block.")
          else
            match ProcessFB fb with
            | some err => (s, fetched, .err err)
            | none => replay N B rest s fetched

/-- `getAll`, its first loop run for at most `fuel` turns: the variables as the
call leaves them, the references fetched in order, and what the call returns;
`none` when the turns run out. -/
def getAll (N : Node) (B : Blocks D FB T) (fuel : Nat) (s : Scanner D FB) :
    Option (Scanner D FB × List String × Res Unit) :=
  match walkBack N B s.DBHeadLast fuel s.DBHeadStr [] [] with
  | none => none
  | some (_, fetched, .err e) => some (s, fetched, .err e)
  | some (_, fetched, .panic p) => some (s, fetched, .panic p)
  | some (dbs, fetched, .ok _) =>
    let s := { s with DBHeadLast := s.DBHead }
    some (replay N B dbs.reverse s fetched)

/-- `refresh`. -/
def refresh (N : Node) (B : Blocks D FB T) (fuel : Nat) (s : Scanner D FB) :
    Option (Scanner D FB × List String × Res Unit) :=
  match getDBHead N s with
  | (s, .err e) => some (s, [], .err e)
  | (s, .panic p) => some (s, [], .panic p)
  | (s, .ok true) => getAll N B fuel s
  | (s, .ok false) => some (s, [], .ok ())

/-- `filtertransaction`. The three inner loops return true at the first equal
address; a nil list has length 0. -/
def filtertransaction (V : TransView T) (t : T) (addresses : List Bytes) : Bool :=
  if addresses.length = 0 then true
  else
    addresses.any fun adr =>
      (V.GetInputs t).any (fun a => decide (adr = a)) ||
      (V.GetOutputs t).any (fun a => decide (adr = a)) ||
      (V.GetECOutputs t).any (fun a => decide (adr = a))

/-- The loop over the transactions of a block (lines 151-161) from index `j`:
the buffer `out`, the flag `wrt` and the counter `transcnt` as the loop leaves
them. -/
def dumpBlock (V : TransView T) (addresses : List Bytes) :
    Nat → List T → String → Bool → Nat → String × Bool × Nat
  | _, [], out, wrt, transcnt => (out, wrt, transcnt)
  | j, t :: rest, out, wrt, transcnt =>
    if j ≠ 0 then
      if filtertransaction V t addresses then
        let out := out ++ ("Transaction " ++ toString transcnt ++ "\n")
        let out := out ++ (V.String t ++ "\n")
        dumpBlock V addresses (j + 1) rest out true (transcnt + 1)
      else dumpBlock V addresses (j + 1) rest out wrt (transcnt + 1)
    else dumpBlock V addresses (j + 1) rest out wrt transcnt

/-- The loop over `FactoidBlocks` (lines 145-166) from index `i`: the buffer
`ret` as the loop leaves it. -/
def dumpBlocks (B : Blocks D FB T) (V : TransView T) (addresses : List Bytes) :
    Nat → List FB → String → Nat → String
  | _, [], ret, _ => ret
  | i, fb :: rest, ret, transcnt =>
    if (B.GetTransactions fb).length > 1 then
      let out := "Transactions at block height " ++ toString i ++ "\n"
      match dumpBlock V addresses 0 (B.GetTransactions fb) out false transcnt with
      | (out, wrt, transcnt) =>
        dumpBlocks B V addresses (i + 1) rest (if wrt then ret ++ out else ret) transcnt
    else dumpBlocks B V addresses (i + 1) rest ret transcnt

/-- `DumpTransactions`, the first loop of `getAll` run for at most `fuel`
turns: the variables as the call leaves them, the references fetched, and the
report or the error returned. -/
def DumpTransactions (N : Node) (B : Blocks D FB T) (V : TransView T) (fuel : Nat)
    (addresses : List Bytes) (s : Scanner D FB) :
    Option (Scanner D FB × List String × Res String) :=
  match refresh N B fuel s with
  | none => none
  | some (s, fetched, .err e) => some (s, fetched, .err e)
  | some (s, fetched, .panic p) => some (s, fetched, .panic p)
  | some (s, fetched, .ok _) =>
    some (s, fetched, .ok (dumpBlocks B V addresses 0 s.FactoidBlocks "" 1))

/-- Following the previous-block references from the reference `ref`, the node
serves the directory blocks of `path`, each with its reference, newest first;
the last of them is the first whose previous key is `last`. -/
inductive ServesPath (N : Node) (B : Blocks D FB T) (last : Bytes) :
    String → List (String × D) → Prop where
  | tip (ref : String) (blk : Bytes) (db : D) : N.GetRaw ref = .ok blk →
      B.UnmarshalDBlock blk = .ok db → B.PrevKeyMR db = last →
      ServesPath N B last ref [(ref, db)]
  | step (ref : String) (blk : Bytes) (db : D) (rest : List (String × D)) :
      N.GetRaw ref = .ok blk → B.UnmarshalDBlock blk = .ok db → B.PrevKeyMR db ≠ last →
      ServesPath N B last (hexEncode (B.PrevKeyMR db)) rest →
      ServesPath N B last ref ((ref, db) :: rest)

/-- The directory block `db` has an entry of the Factoid chain, and the node
serves under the reference `ref` of the first such entry a block that decodes
to the factoid block `fb`. -/
def ServesFactoid (N : Node) (B : Blocks D FB T) (db : D) (ref : String) (fb : FB) : Prop :=
  ∃ (before after : List (Bytes × Bytes)) (keyMR fdata : Bytes),
    B.DBEntries db = before ++ (B.FACTOID_CHAINID, keyMR) :: after ∧
    (∀ dbe ∈ before, dbe.1 ≠ B.FACTOID_CHAINID) ∧
    ref = hexEncode keyMR ∧ N.GetRaw ref = .ok fdata ∧ B.UnmarshalFBlock fdata = .ok fb

/-- The texts of a list, one after the other. -/
def concat : List String → String
  | [] => ""
  | s :: rest => s ++ concat rest

/-- The transactions of a list with consecutive numbers from `n` on. -/
def numberFrom : Nat → List T → List (Nat × T)
  | _, [] => []
  | n, t :: rest => (n, t) :: numberFrom (n + 1) rest

/-- The report as the specification describes it, for one block: the
transactions of the block at index 1 and above are numbered from `n` on, and
those that pass the filter are shown. -/
def shown (V : TransView T) (addresses : List Bytes) (txs : List T) (n : Nat) :
    List (Nat × T) :=
  (numberFrom n (txs.drop 1)).filter fun p => filtertransaction V p.2 addresses

/-- The report as the specification describes it, for one block at index `i`:
nothing when no transaction of the block is shown, else the header with the
block height and, for each transaction shown, its number and its text. -/
def blockText (V : TransView T) (addresses : List Bytes) (i : Nat) (txs : List T)
    (n : Nat) : String :=
  if (shown V addresses txs n).isEmpty then ""
  else
    ("Transactions at block height " ++ toString i ++ "\n") ++
      concat ((shown V addresses txs n).map fun p =>
        ("Transaction " ++ toString p.1 ++ "\n") ++ (V.String p.2 ++ "\n"))

/-- The report as the specification describes it, for the blocks of a history
from index `i` on, when `n - 1` transactions at index 1 and above come before
them: the texts of the blocks in history order, the numbering running on from
block to block. -/
def specReport (B : Blocks D FB T) (V : TransView T) (addresses : List Bytes) :
    Nat → Nat → List FB → String
  | _, _, [] => ""
  | i, n, fb :: rest =>
    blockText V addresses i (B.GetTransactions fb) n ++
      specReport B V addresses (i + 1) (n + ((B.GetTransactions fb).drop 1).length) rest

/-- The transactions the report shows, each with the number printed for it, in
the order of the report. -/
def shownInReport (B : Blocks D FB T) (V : TransView T) (addresses : List Bytes) :
    Nat → List FB → List (Nat × T)
  | _, [] => []
  | n, fb :: rest =>
    shown V addresses (B.GetTransactions fb) n ++
      shownInReport B V addresses (n + ((B.GetTransactions fb).drop 1).length) rest

end listing

/-- The address bytes of an input or output of the modelled transactions. -/
def addressBytes : Option Hash → Bytes
  | none => []
  | some (.NewHash b) => b
  | some (.Sha b) => b

/-- Modelled from the spec: what the listing reads of the modelled
transactions. The text of a transaction is its timestamp. -/
def specView : TransView Transaction where
  GetInputs := fun t => t.inputs.map fun p => addressBytes p.1
  GetOutputs := fun t => t.outputs.map fun p => addressBytes p.1
  GetECOutputs := fun t => t.ecOutputs.map fun p => addressBytes p.1
  String := fun t => "tx " ++ toString t.milliTimestamp

/-- Modelled from the spec: a directory block, with the previous key of its
header and its entries, each a chain and a key. -/
structure DirectoryBlock where
  PrevKeyMR : Bytes
  DBEntries : List (Bytes × Bytes)
deriving DecidableEq, Repr

/-- Modelled from the spec: a factoid block, holding transactions. -/
structure FBlock where
  transactions : List Transaction
deriving DecidableEq, Repr

/-- Modelled from the spec: the block operations over tables that give the
block a raw block decodes to. The Factoid chain is 31 zero bytes and 0x0f, the
zero hash is 32 zero bytes. -/
def specBlocks (dblocks : List (Bytes × DirectoryBlock)) (fblocks : List (Bytes × FBlock)) :
    Blocks DirectoryBlock FBlock Transaction where
  UnmarshalDBlock := fun raw =>
    match dblocks.lookup raw with
    | some db => .ok db
    | none => .err "not a directory block"
  PrevKeyMR := fun db => db.PrevKeyMR
  DBEntries := fun db => db.DBEntries
  FACTOID_CHAINID := List.replicate 31 0 ++ [15]
  ZERO_HASH := List.replicate 32 0
  newFBlock := { transactions := [] }
  UnmarshalFBlock := fun raw =>
    match fblocks.lookup raw with
    | some fb => .ok fb
    | none => .err "not a factoid block"
  GetTransactions := fun fb => fb.transactions

/-- Modelled from the spec: a node with the given head that serves the raw
blocks of a table. -/
def specNode (head : String) (raw : List (String × Bytes)) : Node where
  GetDBlockHead := .ok head
  GetRaw := fun ref =>
    match raw.lookup ref with
    | some blk => .ok blk
    | none => .err "block not found"

/-- A transaction paying to the address `addr` at the time `stamp`. -/
def payTo (stamp : Nat) (addr : Bytes) : Transaction :=
  { milliTimestamp := stamp, inputs := [(some (.NewHash [1]), 9)],
    outputs := [(some (.NewHash addr), 8)], ecOutputs := [] }

/-- The Factoid chain of `specBlocks`. -/
def factoidChain : Bytes := List.replicate 31 0 ++ [15]

/-- The genesis directory block: no previous block, one entry of the Factoid
chain. -/
def dblock1 : DirectoryBlock :=
  { PrevKeyMR := List.replicate 32 0, DBEntries := [(factoidChain, [0xf1])] }

/-- The second directory block: an entry of another chain, then one entry of
the Factoid chain. -/
def dblock2 : DirectoryBlock :=
  { PrevKeyMR := [0xa1], DBEntries := [([7], [0xee]), (factoidChain, [0xf2])] }

/-- A directory block without entry of the Factoid chain. -/
def dblockNone : DirectoryBlock :=
  { PrevKeyMR := List.replicate 32 0, DBEntries := [([7], [0xee])] }

/-- A directory block with two entries of the Factoid chain. -/
def dblockTwo : DirectoryBlock :=
  { PrevKeyMR := List.replicate 32 0,
    DBEntries := [(factoidChain, [0xf1]), (factoidChain, [0xf2])] }

/-- The factoid block of `dblock1`: the administrative transaction and one
payment to the address 5. -/
def fblock1 : FBlock := { transactions := [payTo 10 [0], payTo 11 [5]] }

/-- The factoid block of `dblock2`: the administrative transaction, a payment
to the address 6 and a payment to the address 5. -/
def fblock2 : FBlock := { transactions := [payTo 20 [0], payTo 21 [6], payTo 22 [5]] }

/-- The block operations over the example blocks; the raw form of a block is
the byte of its key. -/
def exBlocks : Blocks DirectoryBlock FBlock Transaction :=
  specBlocks [([0xa1], dblock1), ([0xa2], dblock2), ([0xb1], dblockNone), ([0xc1], dblockTwo)]
    [([0xf1], fblock1), ([0xf2], fblock2)]

/-- The node whose head is the given reference and that serves the example
blocks. -/
def exNode (head : String) : Node :=
  specNode head [("a1", [0xa1]), ("a2", [0xa2]), ("b1", [0xb1]), ("c1", [0xc1]),
    ("f1", [0xf1]), ("f2", [0xf2])]

section numbering

variable {D FB T : Type}

/-- The number of transactions at index 1 and above in the given blocks,
whether or not a filter lets them pass. -/
def countBefore (B : Blocks D FB T) (blocks : List FB) : Nat :=
  (blocks.map fun fb => ((B.GetTransactions fb).drop 1).length).sum

/-- The sequence number as the specification describes it, for the transaction
at index `j`, 1 or more, of the block that comes after the blocks `before`: 1
plus the number of transactions at index 1 and above that come before it in the
whole history. -/
def seqNumber (B : Blocks D FB T) (before : List FB) (j : Nat) : Nat :=
  1 + (countBefore B before + (j - 1))

end numbering

/-! ## The commits of `Wallet/commit.go` -/

/-- What `commit.go` takes from outside the file, over the type `R` of spending
conditions: the field `Message` that `json.Unmarshal(data, in)` leaves in `in`
(its error is not looked at), the two tests `Utility.IsValidAddress` and
`Utility.IsValidHexAddress` of the package `Utility`, the address codec
`fct.ConvertUserStrToAddress`, the wallet's `SignCommit`, and what the node
answers to `http.Post`. -/
structure Committer (R : Type) where
  Message : Bytes → String
  IsValidAddress : String → Bool
  IsValidHexAddress : String → Bool
  ConvertUserStrToAddress : String → Bytes
  SignCommit : WalletEntry R → Bytes → Res Bytes
  Post : String → String → PostResult

/-- What a commit has done when it returns: the store as it leaves it, the
lookups it made in the store (bucket and key), the calls of `SignCommit` (entry
and message), the posts (address and body), and what it returns. -/
structure CommitOutcome (T R : Type) where
  db : DB T R
  lookups : List (Bucket × Bytes)
  signed : List (WalletEntry R × Bytes)
  posts : List (String × String)
  result : Res Unit

/-- Go `strings.HasPrefix`. -/
def startsWith (s p : String) : Bool := p.toList.isPrefixOf s.toList

section commit

variable {T R : Type}

/-- Lines 54-72 of `CommitChain`, the same in `CommitEntry` (lines 92-109) but
for the name of the JSON field and the address posted to: the type assertion
on the value found, the signature, and the post. The assertion panics on nil
and on a value that is no wallet entry. -/
def signAndPost (C : Committer R) (url field : String) (db : DB T R)
    (lookups : List (Bucket × Bytes)) (we : Option (Stored T R)) (msg : Bytes) :
    CommitOutcome T R :=
  match we with
  | some (.walletEntry entry) =>
    match C.SignCommit entry msg with
    | .err e =>
      { db := db, lookups := lookups, signed := [(entry, msg)], posts := [], result := .panic e }
    | .panic p =>
      { db := db, lookups := lookups, signed := [(entry, msg)], posts := [], result := .panic p }
    | .ok signed =>
      let j := "\x7b\"" ++ field ++ "\":\"" ++ hexEncode signed ++ "\"\x7d"
      match C.Post url j with
      | .failed _ =>
        { db := db, lookups := lookups, signed := [(entry, msg)], posts := [(url, j)],
          result := .err "Could not post to server:" }
      | .response _ =>
        { db := db, lookups := lookups, signed := [(entry, msg)], posts := [(url, j)],
          result := .ok () }
  | none =>
    { db := db, lookups := lookups, signed := [], posts := [],
      result := .panic "interface conversion: interface is nil, not wallet.IWalletEntry" }
  | some _ =>
    { db := db, lookups := lookups, signed := [], posts := [],
      result := .panic "interface conversion: not wallet.IWalletEntry" }

/-- `CommitChain`, with `server` the value of `ipaddressFD+portNumberFD` and
`db` the store `factoidState.GetDB()`. -/
def CommitChain (C : Committer R) (server : String) (db : DB T R) (name : String)
    (data : Bytes) : CommitOutcome T R :=
  match hexDecode (C.Message data) with
  | (_, some _) =>
    { db := db, lookups := [], signed := [], posts := [],
      result := .err "Could not decode message:" }
  | (msg, none) =>
    let found : List (Bucket × Bytes) × Option (Stored T R) :=
      if C.IsValidAddress name && startsWith name "EC" then
        let addr := C.ConvertUserStrToAddress name
        ([(.W_ADDRESS_PUB_KEY, addr)], GetRaw db .W_ADDRESS_PUB_KEY addr)
      else if C.IsValidHexAddress name then
        match hexDecode name with
        | (addr, none) => ([(.W_ADDRESS_PUB_KEY, addr)], GetRaw db .W_ADDRESS_PUB_KEY addr)
        | (_, some _) => ([], none)
      else
        ([(.W_NAME, goBytes name)], GetRaw db .W_NAME (goBytes name))
    match found.2 with
    | none =>
      { db := db, lookups := found.1, signed := [], posts := [],
        result := .err "Unknown address" }
    | some we =>
      signAndPost C ("http://" ++ server ++ "/v1/commit-chain") "CommitChainMsg" db found.1
        (some we) msg

/-- `CommitEntry`, with `server` the value of `ipaddressFD+portNumberFD` and
`db` the store `factoidState.GetDB()`. -/
def CommitEntry (C : Committer R) (server : String) (db : DB T R) (name : String)
    (data : Bytes) : CommitOutcome T R :=
  match hexDecode (C.Message data) with
  | (_, some _) =>
    { db := db, lookups := [], signed := [], posts := [],
      result := .err "Could not decode message:" }
  | (msg, none) =>
    let we := GetRaw db .W_NAME (goBytes name)
    signAndPost C ("http://" ++ server ++ "/v1/commit-entry/") "CommitEntryMsg" db
      [(.W_NAME, goBytes name)] we msg

/-- The one lookup the specification describes for `CommitChain`, chosen by the
shape of the text: an address string with the EC prefix by its decoded address
bytes, else a hexadecimal literal by its decoded bytes, else the text as a
name. -/
def chainLookup (C : Committer R) (name : String) : Bucket × Bytes :=
  if C.IsValidAddress name && startsWith name "EC" then
    (.W_ADDRESS_PUB_KEY, C.ConvertUserStrToAddress name)
  else if C.IsValidHexAddress name then (.W_ADDRESS_PUB_KEY, (hexDecode name).1)
  else (.W_NAME, goBytes name)

end commit

/-- Modelled from the spec: the collaborators of `commit.go`. The data is the
message itself, in hexadecimal; no text is a well-formed address string; a
valid hexadecimal address is a text of 64 hexadecimal characters; signing
yields the message behind the first public key of the entry. -/
def specCommitter (answer : PostResult) : Committer RCD where
  Message := fun data => String.mk (data.map fun b => Char.ofNat b.val)
  IsValidAddress := fun _ => false
  IsValidHexAddress := fun s => decide (len s = 64) && !badHexChar s
  ConvertUserStrToAddress := goBytes
  SignCommit := fun we msg =>
    match we.pubKeys with
    | [] => .panic "index out of range"
    | k :: _ => .ok (k ++ msg)
  Post := fun _ _ => answer

/-- The data of a commit whose message is the two hexadecimal characters "07". -/
def commitData : Bytes := [48, 55]

/-- The data of a commit whose message "zz" is not hexadecimal. -/
def badCommitData : Bytes := [122, 122]

/-! ## Properties of the wallet entry -/

section lemmas

variable {R H : Type}

theorem length_make (n : Nat) : (make n).length = n := by
  simp [make]

theorem copy_make (src : Bytes) : copy (make src.length) src = src := by
  simp [copy, make]

theorem copy_make_of_length {n : Nat} {src : Bytes} (h : src.length = n) :
    copy (make n) src = src := by
  subst h
  exact copy_make src

theorem addKey_accepted_iff (F : Factoid R H) (w : WalletEntry R) (pub priv : Bytes) :
    (AddKey F w pub priv).2 = .ok () ↔
      pub.length = ADDRESS_LENGTH ∧
        (priv.length = ADDRESS_LENGTH ∨ priv.length = PRIVATE_LENGTH) := by
  unfold AddKey
  split
  · rename_i h
    constructor
    · intro hc
      cases hc
    · intro hc
      rcases h with h | h
      · exact absurd hc.1 h
      · rcases hc.2 with h2 | h2
        · exact absurd h2 h.1
        · exact absurd h2 h.2
  · rename_i h
    constructor
    · intro _
      by_contra hc
      apply h
      by_cases hp : pub.length = ADDRESS_LENGTH
      · right
        constructor
        · intro h1
          exact hc ⟨hp, Or.inl h1⟩
        · intro h2
          exact hc ⟨hp, Or.inr h2⟩
      · left
        exact hp
    · intro _
      rfl

theorem addKey_rejected (F : Factoid R H) (w : WalletEntry R) (pub priv : Bytes)
    (h : pub.length ≠ ADDRESS_LENGTH ∨
      (priv.length ≠ ADDRESS_LENGTH ∧ priv.length ≠ PRIVATE_LENGTH)) :
    AddKey F w pub priv = (w, .panic "Bad Keys presented to AddKey.  Should not happen.") := by
  unfold AddKey
  rw [if_pos h]

theorem addKey_private_record (pub priv : Bytes) (hpub : pub.length = 32)
    (hpriv : 32 ≤ priv.length) :
    List.take 32 (copy (List.take 32 (make PRIVATE_LENGTH)) priv ++
        List.drop 32 (make PRIVATE_LENGTH)) ++
      copy (List.drop 32 (copy (List.take 32 (make PRIVATE_LENGTH)) priv ++
        List.drop 32 (make PRIVATE_LENGTH))) pub = priv.take 32 ++ pub := by
  have h1 : (List.take 32 (make PRIVATE_LENGTH)).length = 32 := by
    simp [make, PRIVATE_LENGTH]
  have h2 : copy (List.take 32 (make PRIVATE_LENGTH)) priv = priv.take 32 := by
    unfold copy
    rw [h1]
    have : List.drop priv.length (List.take 32 (make PRIVATE_LENGTH)) = [] := by
      apply List.drop_eq_nil_of_le
      omega
    rw [this, List.append_nil]
  have h3 : (priv.take 32).length = 32 := by
    simp
    exact hpriv
  rw [h2]
  have h4 : List.take 32 (List.take 32 priv ++ List.drop 32 (make PRIVATE_LENGTH))
      = List.take 32 priv := by
    rw [List.take_append_of_le_length (by omega)]
    simp
  have h5 : List.drop 32 (List.take 32 priv ++ List.drop 32 (make PRIVATE_LENGTH))
      = List.drop 32 (make PRIVATE_LENGTH) := by
    have := @List.drop_append _ (List.take 32 priv) (List.drop 32 (make PRIVATE_LENGTH)) 0
    rw [h3] at this
    simpa using this
  rw [h4, h5]
  congr 1
  have h6 : List.drop 32 (make PRIVATE_LENGTH) = make pub.length := by
    simp [make, PRIVATE_LENGTH, hpub]
  rw [h6]
  exact copy_make pub

theorem addKey_accepted_eq (F : Factoid R H) (w : WalletEntry R) (pub priv : Bytes)
    (h : (AddKey F w pub priv).2 = .ok ()) :
    (AddKey F w pub priv).1 =
      { w with pubKeys := w.pubKeys ++ [pub],
               privKeys := w.privKeys ++ [priv.take 32 ++ pub],
               rcd := some (F.NewRCD_1 pub) } := by
  have hacc := (addKey_accepted_iff F w pub priv).1 h
  have hpub : pub.length = 32 := hacc.1
  have hpriv : 32 ≤ priv.length := by
    rcases hacc.2 with h1 | h1
    · simp [ADDRESS_LENGTH] at h1
      omega
    · simp [PRIVATE_LENGTH] at h1
      omega
  have hno : ¬ (pub.length ≠ ADDRESS_LENGTH ∨
      (priv.length ≠ ADDRESS_LENGTH ∧ priv.length ≠ PRIVATE_LENGTH)) := by
    intro hc
    rw [addKey_rejected F w pub priv hc] at h
    cases h
  unfold AddKey
  rw [if_neg hno]
  simp only
  rw [addKey_private_record pub priv hpub hpriv]
  rw [copy_make_of_length (show pub.length = ADDRESS_LENGTH from hacc.1)]

theorem setType_keys (w : WalletEntry R) (addrtype : String) :
    (SetType w addrtype).1.pubKeys = w.pubKeys ∧
      (SetType w addrtype).1.privKeys = w.privKeys := by
  unfold SetType
  split <;> exact ⟨rfl, rfl⟩

theorem forall₂_concat {α β : Type} {P : α → β → Prop} {as : List α} {bs : List β}
    {a : α} {b : β} (h : List.Forall₂ P as bs) (hab : P a b) :
    List.Forall₂ P (as ++ [a]) (bs ++ [b]) := by
  induction h with
  | nil => exact List.Forall₂.cons hab List.Forall₂.nil
  | cons hd _ ih => exact List.Forall₂.cons hd ih

/-- In an entry whose key pairs were built with `AddKey`, every private-key
record is a 32-byte scalar followed by the public key at the same index. -/
theorem keysAdded_records (F : Factoid R H) (w : WalletEntry R) (h : KeysAdded F w) :
    List.Forall₂ (fun record key => ∃ scalar : Bytes, scalar.length = 32 ∧
      key.length = ADDRESS_LENGTH ∧ record = scalar ++ key) w.privKeys w.pubKeys := by
  induction h with
  | empty w hp hs =>
    rw [hp, hs]
    exact List.Forall₂.nil
  | addKey w pub priv _ hacc ih =>
    have hlen := (addKey_accepted_iff F w pub priv).1 hacc
    rw [addKey_accepted_eq F w pub priv hacc]
    apply forall₂_concat ih
    refine ⟨priv.take 32, ?_, hlen.1, rfl⟩
    rw [List.length_take]
    rcases hlen.2 with h1 | h1 <;> simp [ADDRESS_LENGTH, PRIVATE_LENGTH] at h1 <;> omega
  | setName w name _ ih => exact ih
  | setRCD w rcd _ ih => exact ih
  | setType w addrtype _ _ ih =>
    rw [(setType_keys w addrtype).1, (setType_keys w addrtype).2]
    exact ih

theorem reachableBySetters_lengths (F : Factoid R H) (w : WalletEntry R)
    (h : ReachableBySetters F w) : w.pubKeys.length = w.privKeys.length := by
  induction h with
  | new => rfl
  | addKey w pub priv _ hacc ih =>
    rw [addKey_accepted_eq F w pub priv hacc]
    simp [ih]
  | setName w name _ ih => exact ih
  | setRCD w rcd _ ih => exact ih
  | setType w addrtype _ _ ih =>
    rw [(setType_keys w addrtype).1, (setType_keys w addrtype).2]
    exact ih

/-- What an accepted run of a key loop has read: `n` keys of `ADDRESS_LENGTH`
bytes each, taken from the front of the data. -/
theorem readKeys_ok (n : Nat) (filled : List Bytes) (data : Bytes) (keys : List Bytes)
    (rest : Bytes) (h : readKeys n filled data = (keys, .ok rest)) :
    ∃ read : List Bytes, keys = filled ++ read ∧ read.length = n ∧
      (∀ k ∈ read, k.length = ADDRESS_LENGTH) ∧ data = read.flatten ++ rest := by
  induction n generalizing filled data with
  | zero =>
    simp only [readKeys, Prod.mk.injEq, Res.ok.injEq] at h
    exact ⟨[], by simp [h.1], rfl, by simp, by simp [h.2]⟩
  | succ n ih =>
    unfold readKeys at h
    split at h
    · rename_i hlen
      obtain ⟨read, hk, hn, hall, hd⟩ := ih _ _ h
      have hcopy : copy (make ADDRESS_LENGTH) (data.take ADDRESS_LENGTH)
          = data.take ADDRESS_LENGTH := by
        apply copy_make_of_length
        rw [List.length_take]
        omega
      rw [hcopy] at hk
      refine ⟨data.take ADDRESS_LENGTH :: read, ?_, ?_, ?_, ?_⟩
      · rw [hk, List.append_assoc]
        rfl
      · simp [hn]
      · intro k hkm
        rcases List.mem_cons.1 hkm with h1 | h1
        · rw [h1, List.length_take]
          omega
        · exact hall k h1
      · rw [List.flatten_cons, List.append_assoc, ← hd, List.take_append_drop]
    · simp only [Prod.mk.injEq] at h
      cases h.2

theorem length_flatten_of_forall (read : List Bytes)
    (h : ∀ k ∈ read, k.length = ADDRESS_LENGTH) :
    read.flatten.length = ADDRESS_LENGTH * read.length := by
  induction read with
  | nil => rfl
  | cons k ks ih =>
    rw [List.flatten_cons, List.length_append, List.length_cons,
      h k (List.mem_cons_self k ks), ih (fun x hx => h x (List.mem_cons_of_mem k hx))]
    ring

/-- What an accepted run of lines 145-160 has read: a count byte `P` and `P`
public keys, then a count byte `S` and `S` private keys of `ADDRESS_LENGTH`
bytes each. -/
theorem unmarshalKeys_ok (w w' : WalletEntry R) (data rest : Bytes)
    (h : unmarshalKeys w data = (w', .ok rest)) :
    ∃ (P S : Byte) (pubs privs : List Bytes),
      data = P :: (pubs.flatten ++ S :: (privs.flatten ++ rest)) ∧
      pubs.length = P.val ∧ privs.length = S.val ∧
      (∀ k ∈ pubs, k.length = ADDRESS_LENGTH) ∧
      (∀ k ∈ privs, k.length = ADDRESS_LENGTH) ∧
      w' = { w with pubKeys := pubs, privKeys := privs } := by
  unfold unmarshalKeys at h
  cases data with
  | nil =>
    simp only [Prod.mk.injEq] at h
    cases h.2
  | cons P data =>
    simp only at h
    cases hr : readKeys P.val [] data with
    | mk pubs r =>
      rw [hr] at h
      cases r with
      | err e =>
        simp only [Prod.mk.injEq] at h
        cases h.2
      | panic p =>
        simp only [Prod.mk.injEq] at h
        cases h.2
      | ok data2 =>
        simp only at h
        obtain ⟨read, hk, hn, hall, hd⟩ := readKeys_ok _ _ _ _ _ hr
        rw [List.nil_append] at hk
        subst hk
        cases data2 with
        | nil =>
          simp only [Prod.mk.injEq] at h
          cases h.2
        | cons S data3 =>
          simp only at h
          cases hr2 : readKeys S.val [] data3 with
          | mk privs r2 =>
            rw [hr2] at h
            simp only [Prod.mk.injEq] at h
            obtain ⟨hw, hres⟩ := h
            subst hres
            obtain ⟨read2, hk2, hn2, hall2, hd2⟩ := readKeys_ok _ _ _ _ _ hr2
            rw [List.nil_append] at hk2
            subst hk2
            refine ⟨P, S, pubs, privs, ?_, hn, hn2, hall, hall2, hw.symm⟩
            rw [hd, hd2]

theorem unmarshalBinaryData_ok (F : Factoid R H) (w w' : WalletEntry R) (data rest : Bytes)
    (h : UnmarshalBinaryData F w data = (w', .ok rest)) :
    ∃ (w1 : WalletEntry R) (data1 : Bytes), unmarshalHead F w data = (w1, .ok data1) ∧
      unmarshalKeys w1 data1 = (w', .ok rest) := by
  unfold UnmarshalBinaryData at h
  cases hh : unmarshalHead F w data with
  | mk w1 r =>
    rw [hh] at h
    cases r with
    | err e =>
      simp only [Prod.mk.injEq] at h
      cases h.2
    | panic p =>
      simp only [Prod.mk.injEq] at h
      cases h.2
    | ok data1 => exact ⟨w1, data1, rfl, h⟩

theorem unmarshalRCD_addrtype (F : Factoid R H) (w : WalletEntry R) (data : Bytes) :
    (unmarshalRCD F w data).1.addrtype = w.addrtype := by
  unfold unmarshalRCD
  split <;> rfl

theorem unmarshalKeys_addrtype (w : WalletEntry R) (data : Bytes) :
    (unmarshalKeys w data).1.addrtype = w.addrtype := by
  unfold unmarshalKeys
  split
  · rfl
  · split
    · rfl
    · rfl
    · split
      · rfl
      · split
        rfl

theorem unmarshalBinaryData_addrtype (F : Factoid R H) (w : WalletEntry R) (data : Bytes) :
    (UnmarshalBinaryData F w data).1.addrtype = (unmarshalHead F w data).1.addrtype := by
  unfold UnmarshalBinaryData
  split
  · rename_i h
    rw [h]
  · rename_i h
    rw [h]
  · rename_i h
    rw [h, unmarshalKeys_addrtype]

theorem unmarshalHead_addrtype (F : Factoid R H) (w : WalletEntry R) (b0 : Byte)
    (data : Bytes) (h : ¬ b0.val > 1) :
    (unmarshalHead F w (b0 :: data)).1.addrtype = if b0 = 0 then "fct" else "ec" := by
  unfold unmarshalHead
  simp only [if_neg h]
  split
  · split
    · rw [unmarshalRCD_addrtype]
    · rfl
  · rfl

theorem unmarshalBinary_ok (F : Factoid R H) (w : WalletEntry R) (data : Bytes)
    (h : (UnmarshalBinary F w data).2 = .ok ()) :
    ∃ rest, UnmarshalBinaryData F w data = ((UnmarshalBinary F w data).1, .ok rest) := by
  unfold UnmarshalBinary at h ⊢
  cases hu : UnmarshalBinaryData F w data with
  | mk w' r =>
    rw [hu] at h
    cases r with
    | ok rest => exact ⟨rest, rfl⟩
    | err e => cases h
    | panic p => cases h

/-- Every private key an accepted `UnmarshalBinary` leaves in the entry is
`ADDRESS_LENGTH` bytes long. -/
theorem unmarshalBinary_privKeys_length (F : Factoid R H) (w : WalletEntry R) (data : Bytes)
    (h : (UnmarshalBinary F w data).2 = .ok ()) :
    ∀ k ∈ (UnmarshalBinary F w data).1.privKeys, k.length = ADDRESS_LENGTH := by
  obtain ⟨rest, hd⟩ := unmarshalBinary_ok F w data h
  obtain ⟨w1, data1, _, hkeys⟩ := unmarshalBinaryData_ok F w _ data rest hd
  obtain ⟨P, S, pubs, privs, _, _, _, _, hall, hw⟩ := unmarshalKeys_ok w1 _ data1 rest hkeys
  rw [hw]
  exact hall

theorem addKey_private_length (F : Factoid R H) (w : WalletEntry R) (pub priv : Bytes)
    (h : (AddKey F w pub priv).2 = .ok ()) :
    (AddKey F w pub priv).1.privKeys = w.privKeys ++ [priv.take 32 ++ pub] ∧
      (priv.take 32 ++ pub).length = PRIVATE_LENGTH := by
  have hacc := (addKey_accepted_iff F w pub priv).1 h
  rw [addKey_accepted_eq F w pub priv h]
  refine ⟨rfl, ?_⟩
  rw [List.length_append, List.length_take, hacc.1]
  rcases hacc.2 with h1 | h1 <;> simp [ADDRESS_LENGTH, PRIVATE_LENGTH] at h1 ⊢ <;> omega

end lemmas

section claims

variable {R H : Type}

/-- C1 fails on the code: for every entry whose last key pair was built by an
accepted `AddKey`, and every input that `UnmarshalBinary` accepts on any entry,
in particular the bytes `MarshalBinary` returns for that entry, the private-key
list after `UnmarshalBinary` differs from the entry's list: the decoder reads
each private key as `ADDRESS_LENGTH` bytes, the record built by `AddKey` and
written by `MarshalBinary` is `PRIVATE_LENGTH` bytes long. -/
theorem C1_roundtrip_truncates_private_record (F : Factoid R H) (w fresh : WalletEntry R)
    (pub priv data : Bytes) (hacc : (AddKey F w pub priv).2 = .ok ())
    (_hm : MarshalBinary F (AddKey F w pub priv).1 = .ok data)
    (hu : (UnmarshalBinary F fresh data).2 = .ok ()) :
    (UnmarshalBinary F fresh data).1.privKeys ≠ (AddKey F w pub priv).1.privKeys := by
  intro heq
  have hall := unmarshalBinary_privKeys_length F fresh data hu
  have hrec := (addKey_private_length F w pub priv hacc)
  rw [heq, hrec.1] at hall
  have h32 := hall (priv.take 32 ++ pub) (by simp)
  rw [hrec.2] at h32
  simp [ADDRESS_LENGTH, PRIVATE_LENGTH] at h32

/-- Witness of `C1_roundtrip_truncates_private_record`, the failing input: the
entry of kind entry_credit with one key pair marshals, `UnmarshalBinary` on a
fresh entry accepts the bytes, and the private-key list it yields holds the
32-byte secret scalar alone instead of the 64-byte record. -/
theorem C1_roundtrip_truncates_private_record_witness :
    MarshalBinary specFactoid oneKeyEntry =
        .ok (1 :: 0 :: 0 :: 1 :: (pub1 ++ 1 :: pub1 ++ 1 :: List.replicate 32 2 ++ pub1)) ∧
      (UnmarshalBinary specFactoid WalletEntry.New
        (1 :: 0 :: 0 :: 1 :: (pub1 ++ 1 :: pub1 ++ 1 :: List.replicate 32 2 ++ pub1))).2
        = .ok () ∧
      oneKeyEntry.privKeys = [List.replicate 32 2 ++ List.replicate 32 1] ∧
      (UnmarshalBinary specFactoid WalletEntry.New
        (1 :: 0 :: 0 :: 1 :: (pub1 ++ 1 :: pub1 ++ 1 :: List.replicate 32 2 ++ pub1))).1.privKeys
        = [List.replicate 32 2] ∧
      (UnmarshalBinary specFactoid WalletEntry.New
        (1 :: 0 :: 0 :: 1 :: (pub1 ++ 1 :: pub1 ++ 1 :: List.replicate 32 2 ++ pub1))).1.privKeys
        ≠ oneKeyEntry.privKeys :=
  ⟨by decide, by decide, by decide, by decide,
    C1_roundtrip_truncates_private_record specFactoid ecEntry WalletEntry.New pub1 priv2
      (1 :: 0 :: 0 :: 1 :: (pub1 ++ 1 :: pub1 ++ 1 :: List.replicate 32 2 ++ pub1))
      (by decide) (by decide) (by decide)⟩

/-- C2: for every entry with a set address kind, a spending condition that
encodes itself, a name of at most 65535 bytes and at most 255 public and 255
private keys, `MarshalBinary` returns exactly: the kind byte (0 for factoid, 1
for entry_credit), the name length in two bytes big-endian, the name, the
condition's own encoding, the byte holding the public-key count, the public
keys, the byte holding the private-key count, and the private-key records; in an
entry whose key pairs were built with `AddKey` each record is a 32-byte secret
scalar followed by the public key at the same index. -/
theorem C2_marshal_wire_layout (F : Factoid R H) (w : WalletEntry R) (rcd : R) (enc : Bytes)
    (hkind : w.addrtype = "fct" ∨ w.addrtype = "ec") (hrcd : w.rcd = some rcd)
    (henc : F.rcdMarshalBinary rcd = .ok enc) (hname : w.name.length ≤ 65535)
    (hpub : w.pubKeys.length ≤ 255) (hpriv : w.privKeys.length ≤ 255) :
    ∃ kind hi lo P S : Byte,
      MarshalBinary F w = .ok (kind :: hi :: lo ::
        (w.name ++ enc ++ P :: (w.pubKeys.flatten ++ S :: w.privKeys.flatten))) ∧
      (kind = if w.addrtype = "fct" then 0 else 1) ∧
      hi.val * 256 + lo.val = w.name.length ∧
      P.val = w.pubKeys.length ∧ S.val = w.privKeys.length ∧
      (KeysAdded F w → List.Forall₂ (fun record key => ∃ scalar : Bytes,
        scalar.length = 32 ∧ key.length = ADDRESS_LENGTH ∧ record = scalar ++ key)
        w.privKeys w.pubKeys) := by
  refine ⟨if w.addrtype = "fct" then 0 else 1, Fin.ofNat ((w.name.length % 65536) / 256),
    Fin.ofNat ((w.name.length % 65536) % 256), byte w.pubKeys.length,
    byte w.privKeys.length, ?_, rfl, ?_, ?_, ?_, keysAdded_records F w⟩
  · unfold MarshalBinary
    rcases hkind with hk | hk
    · rw [if_pos hk, if_pos hk]
      simp [marshalBody, hrcd, henc, writeUint16]
    · have hne : ¬ w.addrtype = "fct" := by
        rw [hk]
        decide
      rw [if_neg hne, if_pos hk, if_neg hne]
      simp [marshalBody, hrcd, henc, writeUint16]
  · simp only [Fin.ofNat, Fin.val_mk]
    omega
  · simp only [byte, Fin.ofNat, Fin.val_mk]
    omega
  · simp only [byte, Fin.ofNat, Fin.val_mk]
    omega

/-- Witness of `C2_marshal_wire_layout`: the bytes of the one-key entry. -/
theorem C2_marshal_wire_layout_witness :
    MarshalBinary specFactoid oneKeyEntry = .ok (1 :: 0 :: 0 ::
      ([] ++ 1 :: pub1 ++ 1 :: ([pub1].flatten ++
        1 :: [List.replicate 32 2 ++ pub1].flatten))) := by
  obtain ⟨kind, hi, lo, P, S, hm, hkind, hlen, hP, hS, _⟩ :=
    C2_marshal_wire_layout specFactoid oneKeyEntry (RCD.RCD_1 pub1) (1 :: pub1)
      (by decide) (by decide) (by decide) (by decide) (by decide) (by decide)
  have hn : oneKeyEntry.name.length = 0 := by decide
  have hi0 : hi = 0 := Fin.ext (by rw [hn] at hlen; simp only [Fin.val_zero]; omega)
  have lo0 : lo = 0 := Fin.ext (by rw [hn] at hlen; simp only [Fin.val_zero]; omega)
  have hP1 : P = 1 := Fin.ext (hP.trans (by decide))
  have hS1 : S = 1 := Fin.ext (hS.trans (by decide))
  rw [hm, hkind, hi0, lo0, hP1, hS1]
  decide

/-- C3, at two failing inputs: for two entries of the same kind, the first
without public keys and the second with one, `IsEqual` reports equality (it
returns nil) although the public-key sequences differ; with the two entries
exchanged it panics on an index out of range instead of reporting a
difference. -/
theorem C3_isEqual_ignores_length :
    GetType ecEntry = GetType oneKeyEntry ∧
      ecEntry.pubKeys ≠ oneKeyEntry.pubKeys ∧
      IsEqual ecEntry (.walletEntry oneKeyEntry) = .ok [] ∧
      IsEqual oneKeyEntry (.walletEntry ecEntry) = .panic "index out of range" := by
  decide

/-- C4 fails as stated: an entry of kind entry_credit with a public key and no
spending condition set has no address, `GetAddress` returns an error. -/
theorem C4_counterexample :
    (SetRCD oneKeyEntry none).addrtype = "ec" ∧
      (SetRCD oneKeyEntry none).pubKeys = [pub1] ∧
      GetAddress specFactoid (SetRCD oneKeyEntry none) =
        .err "Should never happen. Missing the rcd block" := by
  decide

/-- C4, amended: for every entry of kind entry_credit, if a spending condition
is set and there is at least one public key, `GetAddress` succeeds and returns
the hash made from the first public key, whatever the condition, the other keys
and the name are; if there is no public key, or no condition is set, it returns
an error. -/
theorem C4_getAddress_entry_credit (F : Factoid R H) (w : WalletEntry R)
    (hkind : w.addrtype = "ec") :
    (∀ rcd key keys, w.rcd = some rcd → w.pubKeys = key :: keys →
        GetAddress F w = .ok (F.NewHash key)) ∧
      (w.pubKeys = [] → (GetAddress F w).isErr = true) ∧
      (w.rcd = none → (GetAddress F w).isErr = true) := by
  have hne : ¬ w.addrtype = "fct" := by
    rw [hkind]
    decide
  refine ⟨?_, ?_, ?_⟩
  · intro rcd key keys hr hk
    simp only [GetAddress, hr, hk, if_neg hne]
  · intro hk
    unfold GetAddress
    cases hr : w.rcd with
    | none => rfl
    | some rcd => simp only [hk, if_neg hne, Res.isErr]
  · intro hr
    simp only [GetAddress, hr, Res.isErr]

/-- Witness of `C4_getAddress_entry_credit`: the address of the one-key entry is
the hash made from its key. -/
theorem C4_getAddress_entry_credit_witness :
    GetAddress specFactoid oneKeyEntry = .ok (Hash.NewHash pub1) :=
  (C4_getAddress_entry_credit specFactoid oneKeyEntry (by decide)).1
    (RCD.RCD_1 pub1) pub1 [] (by decide) (by decide)

/-- C5: an accepted `AddKey(public, private)` appends `public` as the last public
key and, as the last private key, the record of `PRIVATE_LENGTH` bytes made of
the first 32 bytes of `private` followed by `public`; the earlier keys, the name
and the address kind are unchanged, and the spending condition becomes the
single-key condition over `public`, whatever it was. -/
theorem C5_addKey_appends (F : Factoid R H) (w : WalletEntry R) (pub priv : Bytes)
    (h : (AddKey F w pub priv).2 = .ok ()) :
    (AddKey F w pub priv).1.pubKeys = w.pubKeys ++ [pub] ∧
      (AddKey F w pub priv).1.privKeys = w.privKeys ++ [priv.take 32 ++ pub] ∧
      (priv.take 32).length = 32 ∧
      (priv.take 32 ++ pub).length = PRIVATE_LENGTH ∧
      (AddKey F w pub priv).1.name = w.name ∧
      (AddKey F w pub priv).1.addrtype = w.addrtype ∧
      (AddKey F w pub priv).1.rcd = some (F.NewRCD_1 pub) := by
  have hacc := (addKey_accepted_iff F w pub priv).1 h
  have hpub : pub.length = 32 := hacc.1
  have hpriv : 32 ≤ priv.length := by
    rcases hacc.2 with h1 | h1
    · simp [ADDRESS_LENGTH] at h1
      omega
    · simp [PRIVATE_LENGTH] at h1
      omega
  rw [addKey_accepted_eq F w pub priv h]
  refine ⟨rfl, rfl, ?_, ?_, rfl, rfl, rfl⟩
  · simp
    exact hpriv
  · simp [PRIVATE_LENGTH, hpub]
    omega

/-- Witness of `C5_addKey_appends`: a second key pair, given with the short
form of the private key, added to the one-key entry. -/
theorem C5_addKey_appends_witness :
    (AddKey specFactoid oneKeyEntry (List.replicate 32 3) (List.replicate 32 4)).1.pubKeys
        = [pub1, List.replicate 32 3] ∧
      (AddKey specFactoid oneKeyEntry (List.replicate 32 3) (List.replicate 32 4)).1.privKeys
        = [List.replicate 32 2 ++ pub1, List.replicate 32 4 ++ List.replicate 32 3] ∧
      (AddKey specFactoid oneKeyEntry (List.replicate 32 3) (List.replicate 32 4)).1.rcd
        = some (RCD.RCD_1 (List.replicate 32 3)) := by
  have h := C5_addKey_appends specFactoid oneKeyEntry (List.replicate 32 3)
    (List.replicate 32 4) (by decide)
  refine ⟨?_, ?_, h.2.2.2.2.2.2⟩
  · rw [h.1]
    decide
  · rw [h.2.1]
    decide

/-- C6 fails as stated: `AddKey` accepts a private key of 32 bytes, a length
that differs from the fixed private-key length of 64. -/
theorem C6_counterexample :
    (List.replicate 32 2 : Bytes).length ≠ PRIVATE_LENGTH ∧
      (AddKey specFactoid ecEntry pub1 (List.replicate 32 2)).2 = .ok () := by
  decide

/-- C6, amended: `AddKey` rejects, with a panic and without changing the entry,
every call in which the public key's length differs from the address length or
the private key's length is neither the address length nor the private-key
length, and accepts every other call. -/
theorem C6_addKey_length_check (F : Factoid R H) (w : WalletEntry R) (pub priv : Bytes) :
    ((pub.length ≠ ADDRESS_LENGTH ∨
        (priv.length ≠ ADDRESS_LENGTH ∧ priv.length ≠ PRIVATE_LENGTH)) →
      (AddKey F w pub priv).1 = w ∧ (AddKey F w pub priv).2.isPanic = true) ∧
    ((pub.length = ADDRESS_LENGTH ∧
        (priv.length = ADDRESS_LENGTH ∨ priv.length = PRIVATE_LENGTH)) →
      (AddKey F w pub priv).2 = .ok ()) := by
  constructor
  · intro h
    rw [addKey_rejected F w pub priv h]
    exact ⟨rfl, rfl⟩
  · intro h
    exact (addKey_accepted_iff F w pub priv).2 h

/-- Witness of `C6_addKey_length_check`: a private key of 31 bytes is rejected
and the entry is unchanged; a key pair of 32 and 64 bytes is accepted. -/
theorem C6_addKey_length_check_witness :
    ((AddKey specFactoid ecEntry pub1 (List.replicate 31 2)).1 = ecEntry ∧
        (AddKey specFactoid ecEntry pub1 (List.replicate 31 2)).2.isPanic = true) ∧
      (AddKey specFactoid ecEntry pub1 priv2).2 = .ok () :=
  ⟨(C6_addKey_length_check specFactoid ecEntry pub1 (List.replicate 31 2)).1 (by decide),
    (C6_addKey_length_check specFactoid ecEntry pub1 priv2).2 (by decide)⟩

/-- C7 fails as stated: `UnmarshalBinary` on a fresh entry accepts an input
whose public-key count byte is 1 and whose private-key count byte is 0, and
leaves an entry with one public key and no private key. -/
theorem C7_counterexample :
    ∃ w : WalletEntry RCD, Reachable specFactoid w ∧
      w.pubKeys.length = 1 ∧ w.privKeys.length = 0 ∧
      w.pubKeys.length ≠ w.privKeys.length :=
  ⟨(UnmarshalBinary specFactoid WalletEntry.New (1 :: 0 :: 0 :: 1 :: (pub1 ++ 1 :: pub1 ++ [0]))).1,
    Reachable.unmarshalBinary _ _ Reachable.new (by decide), by decide, by decide, by decide⟩

/-- C7, amended: the number of public keys equals the number of private keys
in every entry reachable from a new empty entry by `AddKey`, `SetName`, `SetRCD`
and `SetType`; and `UnmarshalBinaryData`, on an input it accepts, reads after
the condition a count byte `P`, `P` keys of `ADDRESS_LENGTH` bytes, a count byte
`S` and `S` keys of `ADDRESS_LENGTH` bytes, and leaves `P` public and `S`
private keys, so that the two numbers are equal exactly when the two count
bytes are. -/
theorem C7_key_counts (F : Factoid R H) :
    (∀ w, ReachableBySetters F w → w.pubKeys.length = w.privKeys.length) ∧
    (∀ w w' data rest, UnmarshalBinaryData F w data = (w', .ok rest) →
      ∃ (w1 : WalletEntry R) (P S : Byte) (pubs privs : Bytes),
        unmarshalHead F w data = (w1, .ok (P :: (pubs ++ S :: (privs ++ rest)))) ∧
        pubs.length = ADDRESS_LENGTH * P.val ∧ privs.length = ADDRESS_LENGTH * S.val ∧
        w'.pubKeys.length = P.val ∧ w'.privKeys.length = S.val ∧
        (w'.pubKeys.length = w'.privKeys.length ↔ P = S)) := by
  refine ⟨reachableBySetters_lengths F, ?_⟩
  intro w w' data rest h
  obtain ⟨w1, data1, hhead, hkeys⟩ := unmarshalBinaryData_ok F w w' data rest h
  obtain ⟨P, S, pubs, privs, hd, hP, hS, hallP, hallS, hw⟩ :=
    unmarshalKeys_ok w1 w' data1 rest hkeys
  refine ⟨w1, P, S, pubs.flatten, privs.flatten, ?_, ?_, ?_, ?_, ?_, ?_⟩
  · rw [hhead, hd]
  · rw [length_flatten_of_forall pubs hallP, hP]
  · rw [length_flatten_of_forall privs hallS, hS]
  · rw [hw]
    exact hP
  · rw [hw]
    exact hS
  · rw [hw]
    simp only [hP, hS]
    exact ⟨fun h => Fin.ext h, fun h => by rw [h]⟩

/-- Witness of `C7_key_counts`: the one-key entry, reached by `SetType` and
`AddKey`, has one public and one private key. -/
theorem C7_key_counts_witness :
    oneKeyEntry.pubKeys.length = oneKeyEntry.privKeys.length :=
  (C7_key_counts specFactoid).1 oneKeyEntry
    (ReachableBySetters.addKey _ _ _
      (ReachableBySetters.setType _ _ ReachableBySetters.new (by decide)) (by decide))

/-- C8: on an input whose first byte is neither 0 nor 1, `UnmarshalBinaryData`
returns the error for an invalid type byte and leaves the entry as it was; on an
input whose first byte is 0 the entry has kind factoid afterwards, and kind
entry_credit when it is 1. -/
theorem C8_unmarshal_kind_byte (F : Factoid R H) (w : WalletEntry R) (b0 : Byte)
    (data : Bytes) :
    (b0 ≠ 0 → b0 ≠ 1 →
      UnmarshalBinaryData F w (b0 :: data) = (w, .err "Invalid type byte")) ∧
    (b0 = 0 → (UnmarshalBinaryData F w (b0 :: data)).1.addrtype = "fct") ∧
    (b0 = 1 → (UnmarshalBinaryData F w (b0 :: data)).1.addrtype = "ec") := by
  refine ⟨?_, ?_, ?_⟩
  · intro h0 h1
    have hgt : b0.val > 1 := by
      have h0v : b0.val ≠ 0 := fun hc => h0 (Fin.ext hc)
      have h1v : b0.val ≠ 1 := fun hc => h1 (Fin.ext hc)
      omega
    have hhead : unmarshalHead F w (b0 :: data) = (w, .err "Invalid type byte") := by
      unfold unmarshalHead
      simp only [if_pos hgt]
    unfold UnmarshalBinaryData
    rw [hhead]
  · intro h0
    subst h0
    rw [unmarshalBinaryData_addrtype, unmarshalHead_addrtype F w 0 data (by decide)]
    rfl
  · intro h1
    subst h1
    rw [unmarshalBinaryData_addrtype, unmarshalHead_addrtype F w 1 data (by decide)]
    rfl

/-- Witness of `C8_unmarshal_kind_byte`: the first byte 7 is rejected and the
one-key entry is unchanged; the first bytes 0 and 1 set the kind. -/
theorem C8_unmarshal_kind_byte_witness :
    UnmarshalBinaryData specFactoid oneKeyEntry [7, 0, 0] =
        (oneKeyEntry, .err "Invalid type byte") ∧
      (UnmarshalBinaryData specFactoid oneKeyEntry [0, 0, 0]).1.addrtype = "fct" ∧
      (UnmarshalBinaryData specFactoid WalletEntry.New [1, 0, 0]).1.addrtype = "ec" :=
  ⟨(C8_unmarshal_kind_byte specFactoid oneKeyEntry 7 [0, 0]).1 (by decide) (by decide),
    (C8_unmarshal_kind_byte specFactoid oneKeyEntry 0 [0, 0]).2.1 rfl,
    (C8_unmarshal_kind_byte specFactoid WalletEntry.New 1 [0, 0]).2.2 rfl⟩

end claims


/-! ## Properties of the transaction commands -/

section commands

variable {T R H : Type}

theorem getRaw_putRaw_same (db : DB T R) (bucket : Bucket) (key : Bytes)
    (value : Option (Stored T R)) :
    GetRaw (PutRaw db bucket key value) bucket key = value := by
  simp [GetRaw, PutRaw]

theorem getRaw_putRaw_other (db : DB T R) (bucket b : Bucket) (key k : Bytes)
    (value : Option (Stored T R)) (h : ¬ (b = bucket ∧ k = key)) :
    GetRaw (PutRaw db bucket key value) b k = GetRaw db b k := by
  simp only [GetRaw, PutRaw, if_neg h]

theorem resolve_too_long (E : Fct T R H) (F : Factoid R H) (validate : String → Bool)
    (db : DB T R) (adr : String) (hv : validate adr = false) (h64 : len adr ≠ 64)
    (h32 : len adr > 32) :
    resolve E F validate db adr =
      .err ("Invalid Name.  Name is too long: " ++ toString (len adr) ++ " characters") := by
  unfold resolve
  simp only [hv, Bool.not_false, if_true, if_pos h64, if_pos h32]

theorem resolve_undefined (E : Fct T R H) (F : Factoid R H) (validate : String → Bool)
    (db : DB T R) (adr : String) (hv : validate adr = false) (h32 : len adr ≤ 32)
    (hn : GetRaw db .W_NAME (goBytes adr) = none) :
    resolve E F validate db adr = .err "Name is undefined." := by
  have h64 : len adr ≠ 64 := by omega
  have hle : ¬ len adr > 32 := by omega
  unfold resolve
  simp only [hv, Bool.not_false, if_true, if_pos h64, if_neg hle, hn]

theorem resolve_named (E : Fct T R H) (F : Factoid R H) (validate : String → Bool)
    (db : DB T R) (adr : String) (we : WalletEntry R) (addr : H)
    (hv : validate adr = false) (h32 : len adr ≤ 32)
    (hn : GetRaw db .W_NAME (goBytes adr) = some (.walletEntry we))
    (ha : GetAddress F we = .ok addr) :
    resolve E F validate db adr = .ok (some addr) := by
  have h64 : len adr ≠ 64 := by omega
  have hle : ¬ len adr > 32 := by omega
  unfold resolve
  simp only [hv, Bool.not_false, if_true, if_pos h64, if_neg hle, hn, ha]

theorem addExecute_absent (E : Fct T R H) (F : Factoid R H) (validate : String → Bool)
    (walletOp : DB T R → T → Option H → Nat → T × Res Unit)
    (toUserStr : Option H → Res String) (db : DB T R) (cmd key adr amt : String)
    (h : GetRaw db .DB_BUILD_TRANS (goBytes key) = none) :
    addExecute E F validate walletOp toUserStr db [cmd, key, adr, amt] =
      (db, .err "Unknown Transaction") := by
  simp only [addExecute, h]

theorem addExecute_unresolved (E : Fct T R H) (F : Factoid R H) (validate : String → Bool)
    (walletOp : DB T R → T → Option H → Nat → T × Res Unit)
    (toUserStr : Option H → Res String) (db : DB T R) (cmd key adr amt e : String)
    (h : resolve E F validate db adr = .err e) :
    (addExecute E F validate walletOp toUserStr db [cmd, key, adr, amt]).1 = db ∧
      (addExecute E F validate walletOp toUserStr db [cmd, key, adr, amt]).2.isErr = true := by
  have heq : ∃ e', addExecute E F validate walletOp toUserStr db [cmd, key, adr, amt] =
      (db, .err e') := by
    cases hk : GetRaw db .DB_BUILD_TRANS (goBytes key) with
    | none => exact ⟨_, addExecute_absent E F validate walletOp toUserStr db cmd key adr amt hk⟩
    | some staged =>
      cases staged with
      | transaction tr => exact ⟨e, by simp only [addExecute, hk, h]⟩
      | walletEntry we => exact ⟨"Unknown Transaction", by simp only [addExecute, hk]⟩
      | other => exact ⟨"Unknown Transaction", by simp only [addExecute, hk]⟩
  obtain ⟨e', he⟩ := heq
  rw [he]
  exact ⟨rfl, rfl⟩

theorem addExecute_named (E : Fct T R H) (F : Factoid R H) (validate : String → Bool)
    (walletOp : DB T R → T → Option H → Nat → T × Res Unit)
    (toUserStr : Option H → Res String) (db : DB T R) (cmd key adr amt : String)
    (tr : T) (addr : Option H)
    (hk : GetRaw db .DB_BUILD_TRANS (goBytes key) = some (.transaction tr))
    (h : resolve E F validate db adr = .ok addr) :
    (addExecute E F validate walletOp toUserStr db [cmd, key, adr, amt]).1 =
      PutRaw db .DB_BUILD_TRANS (goBytes key)
        (some (.transaction (walletOp db tr addr
          (uint64 (E.ParseInt (E.ConvertFixedPoint amt).1).1)).1)) := by
  unfold addExecute
  simp only [hk, h]
  split
  · rfl
  · rfl
  · split <;> rfl

theorem addExecute_rejectsUnresolved (E : Fct T R H) (F : Factoid R H)
    (validate : String → Bool) (walletOp : DB T R → T → Option H → Nat → T × Res Unit)
    (toUserStr : Option H → Res String) :
    RejectsUnresolved E F validate walletOp (addExecute E F validate walletOp toUserStr) := by
  intro db cmd key adr amt
  refine ⟨addExecute_absent E F validate walletOp toUserStr db cmd key adr amt, ?_, ?_, ?_⟩
  · intro hv h64 h32
    exact addExecute_unresolved E F validate walletOp toUserStr db cmd key adr amt _
      (resolve_too_long E F validate db adr hv h64 h32)
  · intro hv h32 hn
    exact addExecute_unresolved E F validate walletOp toUserStr db cmd key adr amt _
      (resolve_undefined E F validate db adr hv h32 hn)
  · intro tr we addr hk hv h32 hn ha
    exact addExecute_named E F validate walletOp toUserStr db cmd key adr amt tr (some addr) hk
      (resolve_named E F validate db adr we addr hv h32 hn ha)

/-- C9: `Start(k)` on a key without staged value returns normally, stores under
`k` the transaction the wallet creates for the current time and leaves every
other key as it was; on a key that holds a staged value it returns an error and
leaves the whole store as it was. -/
theorem C9_start (E : Fct T R H) (timeMilli : Nat) (db : DB T R) (cmd key : String) :
    (GetRaw db .DB_BUILD_TRANS (goBytes key) = none →
      (NewTransaction.Execute E timeMilli db [cmd, key]).2 = .ok () ∧
      GetRaw (NewTransaction.Execute E timeMilli db [cmd, key]).1 .DB_BUILD_TRANS (goBytes key)
        = some (.transaction (E.CreateTransaction timeMilli)) ∧
      ∀ (b : Bucket) (k : Bytes), ¬ (b = .DB_BUILD_TRANS ∧ k = goBytes key) →
        GetRaw (NewTransaction.Execute E timeMilli db [cmd, key]).1 b k = GetRaw db b k) ∧
    (∀ staged, GetRaw db .DB_BUILD_TRANS (goBytes key) = some staged →
      (NewTransaction.Execute E timeMilli db [cmd, key]).2.isErr = true ∧
      (NewTransaction.Execute E timeMilli db [cmd, key]).1 = db) := by
  constructor
  · intro h
    have heq : NewTransaction.Execute E timeMilli db [cmd, key] =
        (PutRaw db .DB_BUILD_TRANS (goBytes key)
          (some (.transaction (E.CreateTransaction timeMilli))), .ok ()) := by
      simp only [NewTransaction.Execute, h]
    rw [heq]
    refine ⟨rfl, getRaw_putRaw_same _ _ _ _, ?_⟩
    intro b k hne
    exact getRaw_putRaw_other _ _ _ _ _ _ hne
  · intro staged h
    have heq : NewTransaction.Execute E timeMilli db [cmd, key] =
        (db, .err ("Duplicate key: '" ++ key ++ "'")) := by
      simp only [NewTransaction.Execute, h]
    rw [heq]
    exact ⟨rfl, rfl⟩

/-- Witness of `C9_start`: starting "tx1" at time 1000 in the empty store stages
an empty transaction stamped 1000; starting "tx1" again at time 2000 is an error
and changes nothing. -/
theorem C9_start_witness :
    ((NewTransaction.Execute specFct 1000 emptyDB ["NewTransaction", "tx1"]).2 = .ok () ∧
      GetRaw startedDB .DB_BUILD_TRANS (goBytes "tx1") = some (.transaction
        { milliTimestamp := 1000, inputs := [], outputs := [], ecOutputs := [] })) ∧
    ((NewTransaction.Execute specFct 2000 startedDB ["NewTransaction", "tx1"]).2.isErr = true ∧
      (NewTransaction.Execute specFct 2000 startedDB ["NewTransaction", "tx1"]).1 = startedDB) :=
  ⟨⟨((C9_start specFct 1000 emptyDB "NewTransaction" "tx1").1 rfl).1,
      ((C9_start specFct 1000 emptyDB "NewTransaction" "tx1").1 rfl).2.1⟩,
    (C9_start specFct 2000 startedDB "NewTransaction" "tx1").2
      (.transaction { milliTimestamp := 1000, inputs := [], outputs := [], ecOutputs := [] })
      (by decide)⟩

/-- C10: each of `AddInput`, `AddOutput` and `AddECOutput` returns an error and
leaves the store unchanged when the key is ABSENT, when the reference is not a
well-formed address string, is not 64 bytes long and is longer than 32 bytes,
and when it is at most 32 bytes long and no credential is stored under that
name; when the key is OPEN and a credential is stored under the name, the
wallet operation is run on the staged transaction with the address that
credential's `GetAddress` yields. -/
theorem C10_add_rejects_unresolved (E : Fct T R H) (F : Factoid R H) :
    RejectsUnresolved E F E.ValidateFUserStr E.AddInput (AddInput.Execute E F) ∧
    RejectsUnresolved E F E.ValidateFUserStr E.AddOutput (AddOutput.Execute E F) ∧
    RejectsUnresolved E F E.ValidateECUserStr E.AddECOutput (AddECOutput.Execute E F) :=
  ⟨addExecute_rejectsUnresolved E F _ _ _, addExecute_rejectsUnresolved E F _ _ _,
    addExecute_rejectsUnresolved E F _ _ _⟩

/-- Witness of `C10_add_rejects_unresolved`: on "tx1", the undefined name "bob"
is an error and the store is unchanged; once a credential is stored under "bob",
the input appended carries the address of that credential. -/
theorem C10_add_rejects_unresolved_witness :
    ((AddInput.Execute specFct specFactoid startedDB ["AddInput", "tx1", "bob", "5"]).1
        = startedDB ∧
      (AddInput.Execute specFct specFactoid startedDB ["AddInput", "tx1", "bob", "5"]).2.isErr
        = true) ∧
    GetRaw (AddInput.Execute specFct specFactoid namedDB ["AddInput", "tx1", "bob", "5"]).1
        .DB_BUILD_TRANS (goBytes "tx1") = some (.transaction
      { milliTimestamp := 1000, inputs := [(some (Hash.NewHash pub1), 5)], outputs := [],
        ecOutputs := [] }) := by
  refine ⟨((C10_add_rejects_unresolved specFct specFactoid).1 startedDB
      "AddInput" "tx1" "bob" "5").2.2.1 rfl (by decide) (by decide), ?_⟩
  rw [((C10_add_rejects_unresolved specFct specFactoid).1 namedDB
      "AddInput" "tx1" "bob" "5").2.2.2
      { milliTimestamp := 1000, inputs := [], outputs := [], ecOutputs := [] }
      oneKeyEntry (Hash.NewHash pub1) (by decide) rfl (by decide) (by decide) (by decide)]
  decide

end commands

section amounts

variable {T R H : Type}

theorem resolve_hex (E : Fct T R H) (F : Factoid R H) (validate : String → Bool)
    (db : DB T R) (adr : String) (hv : validate adr = false) (h64 : len adr = 64)
    (hhex : badHexChar adr = false) :
    resolve E F validate db adr = .ok none := by
  have hne : ¬ len adr ≠ 64 := fun h => h h64
  unfold resolve
  simp only [hv, Bool.not_false, if_true, if_neg hne, hhex, Bool.false_eq_true, if_false]

theorem resolve_bad_hex (E : Fct T R H) (F : Factoid R H) (validate : String → Bool)
    (db : DB T R) (adr : String) (hv : validate adr = false) (h64 : len adr = 64)
    (hhex : badHexChar adr = true) :
    resolve E F validate db adr =
      .err ("Invalid Name.  Name is too long: " ++ toString (len adr) ++ " characters") := by
  have hne : ¬ len adr ≠ 64 := fun h => h h64
  unfold resolve
  simp only [hv, Bool.not_false, if_true, if_neg hne, hhex]

/-- What a command returns once the key is OPEN and the reference is resolved:
the outcome of the wallet operation, then of rendering the address. -/
theorem addExecute_resolved (E : Fct T R H) (F : Factoid R H) (validate : String → Bool)
    (walletOp : DB T R → T → Option H → Nat → T × Res Unit)
    (toUserStr : Option H → Res String) (db : DB T R) (cmd key adr amt : String)
    (tr : T) (addr : Option H)
    (hk : GetRaw db .DB_BUILD_TRANS (goBytes key) = some (.transaction tr))
    (h : resolve E F validate db adr = .ok addr) :
    (addExecute E F validate walletOp toUserStr db [cmd, key, adr, amt]).2 =
      addOutcome (walletOp db tr addr (uint64 (E.ParseInt (E.ConvertFixedPoint amt).1).1)).2
        (toUserStr addr) := by
  unfold addExecute addOutcome
  simp only [hk, h]
  cases hw : walletOp db tr addr (uint64 (E.ParseInt (E.ConvertFixedPoint amt).1).1) with
  | mk tr1 r =>
    cases r with
    | err e => rfl
    | panic p => rfl
    | ok u =>
      simp only
      cases toUserStr addr <;> rfl

/-- C11 fails on the code: on an OPEN key, for a reference that is not a
well-formed address string and is 64 hexadecimal characters, each of the three
commands runs the wallet operation with a nil address: the reference is never
hex-decoded, and what is staged does not depend on which 64 hexadecimal
characters were given. A 64-character reference with a character that is not a
hexadecimal digit returns an error and leaves the store unchanged. -/
theorem C11_hex_ref_leaves_address_nil (E : Fct T R H) (F : Factoid R H) (db : DB T R)
    (cmd key adr amt : String) (tr : T)
    (hk : GetRaw db .DB_BUILD_TRANS (goBytes key) = some (.transaction tr))
    (h64 : len adr = 64) :
    (badHexChar adr = false →
      (E.ValidateFUserStr adr = false →
        (AddInput.Execute E F db [cmd, key, adr, amt]).1 =
          PutRaw db .DB_BUILD_TRANS (goBytes key) (some (.transaction
            (E.AddInput db tr none (uint64 (E.ParseInt (E.ConvertFixedPoint amt).1).1)).1)) ∧
        (AddOutput.Execute E F db [cmd, key, adr, amt]).1 =
          PutRaw db .DB_BUILD_TRANS (goBytes key) (some (.transaction
            (E.AddOutput db tr none (uint64 (E.ParseInt (E.ConvertFixedPoint amt).1).1)).1))) ∧
      (E.ValidateECUserStr adr = false →
        (AddECOutput.Execute E F db [cmd, key, adr, amt]).1 =
          PutRaw db .DB_BUILD_TRANS (goBytes key) (some (.transaction
            (E.AddECOutput db tr none
              (uint64 (E.ParseInt (E.ConvertFixedPoint amt).1).1)).1)))) ∧
    (badHexChar adr = true →
      (E.ValidateFUserStr adr = false →
        ((AddInput.Execute E F db [cmd, key, adr, amt]).1 = db ∧
          (AddInput.Execute E F db [cmd, key, adr, amt]).2.isErr = true) ∧
        ((AddOutput.Execute E F db [cmd, key, adr, amt]).1 = db ∧
          (AddOutput.Execute E F db [cmd, key, adr, amt]).2.isErr = true)) ∧
      (E.ValidateECUserStr adr = false →
        (AddECOutput.Execute E F db [cmd, key, adr, amt]).1 = db ∧
          (AddECOutput.Execute E F db [cmd, key, adr, amt]).2.isErr = true)) := by
  refine ⟨fun hhex => ⟨fun hv => ⟨?_, ?_⟩, fun hv => ?_⟩,
    fun hhex => ⟨fun hv => ⟨?_, ?_⟩, fun hv => ?_⟩⟩
  · exact addExecute_named E F _ _ _ db cmd key adr amt tr none hk
      (resolve_hex E F _ db adr hv h64 hhex)
  · exact addExecute_named E F _ _ _ db cmd key adr amt tr none hk
      (resolve_hex E F _ db adr hv h64 hhex)
  · exact addExecute_named E F _ _ _ db cmd key adr amt tr none hk
      (resolve_hex E F _ db adr hv h64 hhex)
  · exact addExecute_unresolved E F _ _ _ db cmd key adr amt _
      (resolve_bad_hex E F _ db adr hv h64 hhex)
  · exact addExecute_unresolved E F _ _ _ db cmd key adr amt _
      (resolve_bad_hex E F _ db adr hv h64 hhex)
  · exact addExecute_unresolved E F _ _ _ db cmd key adr amt _
      (resolve_bad_hex E F _ db adr hv h64 hhex)

/-- Witness of `C11_hex_ref_leaves_address_nil`, the failing input: `AddInput`
on "tx1" with the reference of 64 digits 7 and the amount 5 stages an input
whose address is nil, not the 32 bytes 0x77, and the command then panics on the
nil address. -/
theorem C11_hex_ref_leaves_address_nil_witness :
    len hexRef = 64 ∧ badHexChar hexRef = false ∧
    GetRaw (AddInput.Execute specFct specFactoid startedDB ["AddInput", "tx1", hexRef, "5"]).1
        .DB_BUILD_TRANS (goBytes "tx1") = some (.transaction
      { milliTimestamp := 1000, inputs := [(none, 5)], outputs := [], ecOutputs := [] }) ∧
    (AddInput.Execute specFct specFactoid startedDB ["AddInput", "tx1", hexRef, "5"]).2 =
      .panic "nil pointer dereference" := by
  refine ⟨by decide, by decide, ?_, by decide⟩
  rw [((C11_hex_ref_leaves_address_nil specFct specFactoid startedDB "AddInput" "tx1" hexRef
    "5" { milliTimestamp := 1000, inputs := [], outputs := [], ecOutputs := [] }
    (by decide) (by decide)).1 (by decide)).1 rfl |>.1]
  decide

/-- C12 fails as stated: `AddInput` on "tx1" with the name "bob" and the amount
"abc", for which the integer parse reports an error, returns normally and
stages an input with the amount 0. -/
theorem C12_counterexample :
    (specFct.ParseInt (specFct.ConvertFixedPoint "abc").1).2 = some "invalid syntax" ∧
    (AddInput.Execute specFct specFactoid namedDB ["AddInput", "tx1", "bob", "abc"]).2
      = .ok () ∧
    GetRaw (AddInput.Execute specFct specFactoid namedDB ["AddInput", "tx1", "bob", "abc"]).1
        .DB_BUILD_TRANS (goBytes "tx1") = some (.transaction
      { milliTimestamp := 1000, inputs := [(some (Hash.NewHash pub1), 0)], outputs := [],
        ecOutputs := [] }) := by
  decide

/-- C12, amended: on an OPEN key and a reference that resolves, each of the
three commands discards the errors of the fixed-point conversion and of the
integer parse: it runs the wallet operation on the staged transaction with the
amount `uint64(v)`, `v` being the value the integer parse returns for the
converted string, and returns what the wallet operation and the rendering of
the address give; `uint64(v)` is `v` itself when `v` is not negative. -/
theorem C12_amount_errors_discarded (E : Fct T R H) (F : Factoid R H) (db : DB T R)
    (cmd key adr amt : String) (tr : T) (addr : Option H)
    (hk : GetRaw db .DB_BUILD_TRANS (goBytes key) = some (.transaction tr)) :
    (resolve E F E.ValidateFUserStr db adr = .ok addr →
      ((AddInput.Execute E F db [cmd, key, adr, amt]).1 =
          PutRaw db .DB_BUILD_TRANS (goBytes key) (some (.transaction
            (E.AddInput db tr addr (uint64 (E.ParseInt (E.ConvertFixedPoint amt).1).1)).1)) ∧
        (AddInput.Execute E F db [cmd, key, adr, amt]).2 = addOutcome
          (E.AddInput db tr addr (uint64 (E.ParseInt (E.ConvertFixedPoint amt).1).1)).2
          (E.ConvertFctAddressToUserStr addr)) ∧
      ((AddOutput.Execute E F db [cmd, key, adr, amt]).1 =
          PutRaw db .DB_BUILD_TRANS (goBytes key) (some (.transaction
            (E.AddOutput db tr addr (uint64 (E.ParseInt (E.ConvertFixedPoint amt).1).1)).1)) ∧
        (AddOutput.Execute E F db [cmd, key, adr, amt]).2 = addOutcome
          (E.AddOutput db tr addr (uint64 (E.ParseInt (E.ConvertFixedPoint amt).1).1)).2
          (E.ConvertFctAddressToUserStr addr))) ∧
    (resolve E F E.ValidateECUserStr db adr = .ok addr →
      (AddECOutput.Execute E F db [cmd, key, adr, amt]).1 =
          PutRaw db .DB_BUILD_TRANS (goBytes key) (some (.transaction
            (E.AddECOutput db tr addr (uint64 (E.ParseInt (E.ConvertFixedPoint amt).1).1)).1)) ∧
        (AddECOutput.Execute E F db [cmd, key, adr, amt]).2 = addOutcome
          (E.AddECOutput db tr addr (uint64 (E.ParseInt (E.ConvertFixedPoint amt).1).1)).2
          (E.ConvertECAddressToUserStr addr)) ∧
    (∀ v : Int, 0 ≤ v → v < 2 ^ 63 → (uint64 v : Int) = v) := by
  refine ⟨fun hres => ⟨⟨?_, ?_⟩, ⟨?_, ?_⟩⟩, fun hres => ⟨?_, ?_⟩, ?_⟩
  · exact addExecute_named E F _ _ _ db cmd key adr amt tr addr hk hres
  · exact addExecute_resolved E F _ _ _ db cmd key adr amt tr addr hk hres
  · exact addExecute_named E F _ _ _ db cmd key adr amt tr addr hk hres
  · exact addExecute_resolved E F _ _ _ db cmd key adr amt tr addr hk hres
  · exact addExecute_named E F _ _ _ db cmd key adr amt tr addr hk hres
  · exact addExecute_resolved E F _ _ _ db cmd key adr amt tr addr hk hres
  · intro v h0 h63
    unfold uint64
    rw [Int.emod_eq_of_lt h0 (by omega)]
    exact Int.toNat_of_nonneg h0

/-- Witness of `C12_amount_errors_discarded`: `AddInput` on "tx1" with the name
"bob" stages the amount 0 for the malformed amount "abc" and returns nil. -/
theorem C12_amount_errors_discarded_witness :
    GetRaw (AddInput.Execute specFct specFactoid namedDB ["AddInput", "tx1", "bob", "abc"]).1
        .DB_BUILD_TRANS (goBytes "tx1") = some (.transaction
      { milliTimestamp := 1000, inputs := [(some (Hash.NewHash pub1), 0)], outputs := [],
        ecOutputs := [] }) := by
  rw [((C12_amount_errors_discarded specFct specFactoid namedDB "AddInput" "tx1" "bob" "abc"
    { milliTimestamp := 1000, inputs := [], outputs := [], ecOutputs := [] }
    (some (Hash.NewHash pub1)) (by decide)).1 (by decide)).1.1]
  decide

end amounts

/-! ## Properties of `Sign` and `Submit` -/

section signing

variable {T R : Type}

theorem putRaw_putRaw (db : DB T R) (bucket : Bucket) (key : Bytes)
    (v w : Option (Stored T R)) :
    PutRaw (PutRaw db bucket key v) bucket key w = PutRaw db bucket key w := by
  unfold PutRaw
  congr 1
  funext b k
  by_cases h : b = bucket ∧ k = key
  · simp only [if_pos h]
  · simp only [if_neg h]

theorem putRaw_getRaw (db : DB T R) (bucket : Bucket) (key : Bytes)
    (v : Option (Stored T R)) (h : GetRaw db bucket key = v) :
    PutRaw db bucket key v = db := by
  cases db with
  | mk raw =>
    unfold PutRaw
    congr 1
    funext b k
    by_cases hk : b = bucket ∧ k = key
    · simp only [if_pos hk]
      rw [← h, hk.1, hk.2]
      rfl
    · simp only [if_neg hk]

/-- `Sign.Execute` on a key that holds no transaction. -/
theorem sign_absent (S : Signer T R) (db : DB T R) (cmd key : String)
    (h : ∀ tr, GetRaw db .DB_BUILD_TRANS (goBytes key) ≠ some (.transaction tr)) :
    Sign.Execute S db [cmd, key] = (db, .err "Invalid Parameters") := by
  cases hk : GetRaw db .DB_BUILD_TRANS (goBytes key) with
  | none => simp only [Sign.Execute, hk]
  | some staged =>
    cases staged with
    | transaction tr => exact absurd hk (h tr)
    | walletEntry we => simp only [Sign.Execute, hk]
    | other => simp only [Sign.Execute, hk]

/-- `Sign.Execute` on a key that holds a transaction which fails validation. -/
theorem sign_invalid (S : Signer T R) (db : DB T R) (cmd key : String) (tr : T) (e : String)
    (hk : GetRaw db .DB_BUILD_TRANS (goBytes key) = some (.transaction tr))
    (hv : S.Validate db 1 tr = .err e) :
    Sign.Execute S db [cmd, key] = (db, .err e) := by
  simp only [Sign.Execute, hk, hv]

/-- `Sign.Execute` on a key that holds a transaction which passes validation. -/
theorem sign_valid (S : Signer T R) (db : DB T R) (cmd key : String) (tr : T) (u : Unit)
    (hk : GetRaw db .DB_BUILD_TRANS (goBytes key) = some (.transaction tr))
    (hv : S.Validate db 1 tr = .ok u) :
    (Sign.Execute S db [cmd, key]).1 =
        PutRaw db .DB_BUILD_TRANS (goBytes key) (some (.transaction (S.SignInputs db tr).1)) ∧
      (Sign.Execute S db [cmd, key]).2 =
        match (S.SignInputs db tr).2 with
        | .err e => .err e
        | .panic p => .panic p
        | .ok false => .err "Error signing the transaction"
        | .ok true => .ok () := by
  cases hs : S.SignInputs db tr with
  | mk tr1 r =>
    cases r with
    | err e =>
      simp only [Sign.Execute, hk, hv, hs]
      exact ⟨trivial, trivial⟩
    | panic p =>
      simp only [Sign.Execute, hk, hv, hs]
      exact ⟨trivial, trivial⟩
    | ok b =>
      cases b with
      | false =>
        simp only [Sign.Execute, hk, hv, hs]
        exact ⟨trivial, trivial⟩
      | true =>
        simp only [Sign.Execute, hk, hv, hs]
        exact ⟨putRaw_putRaw _ _ _ _ _, trivial⟩

/-- The store after `Sign.Execute` is the store before, but for the transaction
under the key, which may have changed in place. -/
theorem sign_store (S : Signer T R) (db : DB T R) (cmd key : String) :
    (Sign.Execute S db [cmd, key]).1 = db ∨
      ∃ tr tr1, GetRaw db .DB_BUILD_TRANS (goBytes key) = some (.transaction tr) ∧
        (Sign.Execute S db [cmd, key]).1 =
          PutRaw db .DB_BUILD_TRANS (goBytes key) (some (.transaction tr1)) := by
  cases hk : GetRaw db .DB_BUILD_TRANS (goBytes key) with
  | none =>
    left
    rw [sign_absent S db cmd key (fun tr hc => by rw [hk] at hc; cases hc)]
  | some staged =>
    cases staged with
    | walletEntry we =>
      left
      rw [sign_absent S db cmd key (fun tr hc => by rw [hk] at hc; cases hc)]
    | other =>
      left
      rw [sign_absent S db cmd key (fun tr hc => by rw [hk] at hc; cases hc)]
    | transaction tr =>
      cases hv : S.Validate db 1 tr with
      | err e =>
        left
        rw [sign_invalid S db cmd key tr e hk hv]
      | panic p =>
        left
        simp only [Sign.Execute, hk, hv]
      | ok u =>
        right
        exact ⟨tr, (S.SignInputs db tr).1, rfl, (sign_valid S db cmd key tr u hk hv).1⟩

/-- C13: `Sign(k)` leaves as they were every key other than `k` and which keys
hold a staged value. On a key without transaction it returns an error and the
store is unchanged. On an OPEN key, a failed validation returns its error with
the store unchanged; once validation has passed, the store holds under `k` the
transaction as `SignInputs` left it and nothing else has changed, and the
command returns the error of `SignInputs`, an error when `SignInputs` reports
not-ok, and nil when it reports ok; when the command returns an error and
`SignInputs` has left the transaction as it was, the store is unchanged. -/
theorem C13_sign_keeps_open_keys (S : Signer T R) (db : DB T R) (cmd key : String) :
    (∀ (b : Bucket) (k : Bytes),
      (GetRaw (Sign.Execute S db [cmd, key]).1 b k).isSome = (GetRaw db b k).isSome) ∧
    (∀ (b : Bucket) (k : Bytes), ¬ (b = .DB_BUILD_TRANS ∧ k = goBytes key) →
      GetRaw (Sign.Execute S db [cmd, key]).1 b k = GetRaw db b k) ∧
    (GetRaw db .DB_BUILD_TRANS (goBytes key) = none →
      Sign.Execute S db [cmd, key] = (db, .err "Invalid Parameters")) ∧
    (∀ tr, GetRaw db .DB_BUILD_TRANS (goBytes key) = some (.transaction tr) →
      (∀ e, S.Validate db 1 tr = .err e → Sign.Execute S db [cmd, key] = (db, .err e)) ∧
      (S.Validate db 1 tr = .ok () →
        (Sign.Execute S db [cmd, key]).1 = PutRaw db .DB_BUILD_TRANS (goBytes key)
          (some (.transaction (S.SignInputs db tr).1)) ∧
        (∀ e, (S.SignInputs db tr).2 = .err e → (Sign.Execute S db [cmd, key]).2 = .err e) ∧
        ((S.SignInputs db tr).2 = .ok false →
          (Sign.Execute S db [cmd, key]).2 = .err "Error signing the transaction") ∧
        ((S.SignInputs db tr).2 = .ok true → (Sign.Execute S db [cmd, key]).2 = .ok ()) ∧
        ((S.SignInputs db tr).1 = tr → (Sign.Execute S db [cmd, key]).1 = db))) := by
  refine ⟨?_, ?_, ?_, ?_⟩
  · intro b k
    rcases sign_store S db cmd key with h | ⟨tr, tr1, hk, h⟩
    · rw [h]
    · rw [h]
      by_cases hbk : b = .DB_BUILD_TRANS ∧ k = goBytes key
      · rw [hbk.1, hbk.2, getRaw_putRaw_same, hk]
        rfl
      · rw [getRaw_putRaw_other _ _ _ _ _ _ hbk]
  · intro b k hbk
    rcases sign_store S db cmd key with h | ⟨tr, tr1, _, h⟩
    · rw [h]
    · rw [h, getRaw_putRaw_other _ _ _ _ _ _ hbk]
  · intro hk
    exact sign_absent S db cmd key (fun tr hc => by rw [hk] at hc; cases hc)
  · intro tr hk
    refine ⟨fun e hv => sign_invalid S db cmd key tr e hk hv, fun hv => ?_⟩
    obtain ⟨h1, h2⟩ := sign_valid S db cmd key tr () hk hv
    refine ⟨h1, ?_, ?_, ?_, ?_⟩
    · intro e he
      rw [h2, he]
    · intro he
      rw [h2, he]
    · intro he
      rw [h2, he]
    · intro he
      rw [h1, he]
      exact putRaw_getRaw db _ _ _ hk

/-- Witness of `C13_sign_keeps_open_keys`: `Sign` on "tx1" returns nil and
leaves under "tx1" the transaction with its inputs signed. -/
theorem C13_sign_keeps_open_keys_witness :
    (Sign.Execute (specSigner (.response 200)) payingDB ["Sign", "tx1"]).2 = .ok () ∧
      GetRaw signedDB .DB_BUILD_TRANS (goBytes "tx1") =
        some (.transaction { tx := paying.tx, signed := true }) := by
  have h := ((C13_sign_keeps_open_keys (specSigner (.response 200)) payingDB "Sign" "tx1").2.2.2
    paying (by decide)).2 (by decide)
  refine ⟨h.2.2.2.1 (by decide), ?_⟩
  unfold signedDB
  rw [h.1]
  decide

theorem submit_absent (S : Signer T R) (server : String) (db : DB T R) (cmd key : String)
    (h : ∀ tr, GetRaw db .DB_BUILD_TRANS (goBytes key) ≠ some (.transaction tr)) :
    Submit.Execute S server db [cmd, key] = (db, [], .err "Invalid Parameters") := by
  cases hk : GetRaw db .DB_BUILD_TRANS (goBytes key) with
  | none => simp only [Submit.Execute, hk]
  | some staged =>
    cases staged with
    | transaction tr => exact absurd hk (h tr)
    | walletEntry we => simp only [Submit.Execute, hk]
    | other => simp only [Submit.Execute, hk]

/-- `Submit.Execute` once both validations have passed and the transaction has
been serialized: one post, and the key is cleared exactly when the post
returns a response. -/
theorem submit_valid (S : Signer T R) (server : String) (db : DB T R) (cmd key : String)
    (tr : T) (data : Bytes)
    (hk : GetRaw db .DB_BUILD_TRANS (goBytes key) = some (.transaction tr))
    (hv : S.Validate db 1 tr = .ok ()) (hs : S.ValidateSignatures db tr = .ok ())
    (hm : S.MarshalBinary tr = .ok data) :
    Submit.Execute S server db [cmd, key] =
      match S.Post ("http://" ++ server ++ "/v1/factoid-submit/")
          ("\x7b\"Transaction\":\"" ++ hexEncode data ++ "\"\x7d") with
      | .failed _ =>
        (db, [("http://" ++ server ++ "/v1/factoid-submit/",
          "\x7b\"Transaction\":\"" ++ hexEncode data ++ "\"\x7d")],
          .err "Error coming back from server ")
      | .response _ =>
        (PutRaw db .DB_BUILD_TRANS (goBytes key) none,
          [("http://" ++ server ++ "/v1/factoid-submit/",
            "\x7b\"Transaction\":\"" ++ hexEncode data ++ "\"\x7d")], .ok ()) := by
  simp only [Submit.Execute, hk, hv, hs, hm]

/-- C14 fails as stated: on "tx1", whose signed transaction passes both
validations, `Submit` with a post that fails returns an error and leaves "tx1"
OPEN. -/
theorem C14_counterexample :
    (specSigner (.failed "connection refused")).Validate signedDB 1
        { tx := paying.tx, signed := true } = .ok () ∧
    (specSigner (.failed "connection refused")).ValidateSignatures signedDB
        { tx := paying.tx, signed := true } = .ok () ∧
    (Submit.Execute (specSigner (.failed "connection refused")) "localhost:8088" signedDB
        ["Submit", "tx1"]).2.2 = .err "Error coming back from server " ∧
    GetRaw (Submit.Execute (specSigner (.failed "connection refused")) "localhost:8088" signedDB
        ["Submit", "tx1"]).1 .DB_BUILD_TRANS (goBytes "tx1") =
      some (.transaction { tx := paying.tx, signed := true }) := by
  decide

/-- C14, amended: for every OPEN key `k` whose staged transaction passes
structural validation and signature validation and is serialized, `Submit(k)`
makes one post; when the post returns a response, whatever its status, the
command returns nil, `k` is ABSENT afterwards and every other key is unchanged;
when the post itself fails, the command returns an error and the store is
unchanged, `k` still OPEN. -/
theorem C14_submit_clears_on_response (S : Signer T R) (server : String) (db : DB T R)
    (cmd key : String) (tr : T) (data : Bytes)
    (hk : GetRaw db .DB_BUILD_TRANS (goBytes key) = some (.transaction tr))
    (hv : S.Validate db 1 tr = .ok ()) (hs : S.ValidateSignatures db tr = .ok ())
    (hm : S.MarshalBinary tr = .ok data) :
    (Submit.Execute S server db [cmd, key]).2.1 =
      [("http://" ++ server ++ "/v1/factoid-submit/",
        "\x7b\"Transaction\":\"" ++ hexEncode data ++ "\"\x7d")] ∧
    (∀ status, S.Post ("http://" ++ server ++ "/v1/factoid-submit/")
        ("\x7b\"Transaction\":\"" ++ hexEncode data ++ "\"\x7d") = .response status →
      (Submit.Execute S server db [cmd, key]).2.2 = .ok () ∧
      GetRaw (Submit.Execute S server db [cmd, key]).1 .DB_BUILD_TRANS (goBytes key) = none ∧
      ∀ (b : Bucket) (k : Bytes), ¬ (b = .DB_BUILD_TRANS ∧ k = goBytes key) →
        GetRaw (Submit.Execute S server db [cmd, key]).1 b k = GetRaw db b k) ∧
    (∀ e, S.Post ("http://" ++ server ++ "/v1/factoid-submit/")
        ("\x7b\"Transaction\":\"" ++ hexEncode data ++ "\"\x7d") = .failed e →
      (Submit.Execute S server db [cmd, key]).2.2 = .err "Error coming back from server " ∧
      (Submit.Execute S server db [cmd, key]).1 = db) := by
  have h := submit_valid S server db cmd key tr data hk hv hs hm
  refine ⟨?_, ?_, ?_⟩
  · rw [h]
    cases S.Post ("http://" ++ server ++ "/v1/factoid-submit/")
      ("\x7b\"Transaction\":\"" ++ hexEncode data ++ "\"\x7d") <;> rfl
  · intro status hp
    rw [h, hp]
    refine ⟨rfl, getRaw_putRaw_same _ _ _ _, ?_⟩
    intro b k hbk
    exact getRaw_putRaw_other _ _ _ _ _ _ hbk
  · intro e hp
    rw [h, hp]
    exact ⟨rfl, rfl⟩

/-- Witness of `C14_submit_clears_on_response`: with a node answering status
500, `Submit` on the signed "tx1" returns nil and leaves "tx1" ABSENT. -/
theorem C14_submit_clears_on_response_witness :
    (Submit.Execute (specSigner (.response 500)) "localhost:8088" signedDB
        ["Submit", "tx1"]).2.2 = .ok () ∧
    GetRaw (Submit.Execute (specSigner (.response 500)) "localhost:8088" signedDB
        ["Submit", "tx1"]).1 .DB_BUILD_TRANS (goBytes "tx1") = none :=
  ⟨((C14_submit_clears_on_response (specSigner (.response 500)) "localhost:8088" signedDB
      "Submit" "tx1" { tx := paying.tx, signed := true } [7]
      (by decide) (by decide) (by decide) (by decide)).2.1 500 rfl).1,
    ((C14_submit_clears_on_response (specSigner (.response 500)) "localhost:8088" signedDB
      "Submit" "tx1" { tx := paying.tx, signed := true } [7]
      (by decide) (by decide) (by decide) (by decide)).2.1 500 rfl).2.1⟩

/-- C15: `Submit(k)` returns an error, makes no post and leaves the store
unchanged when `k` is ABSENT, when the staged transaction fails structural
validation, and when it passes it but fails the validation of its
signatures. -/
theorem C15_submit_rejects (S : Signer T R) (server : String) (db : DB T R)
    (cmd key : String) :
    (GetRaw db .DB_BUILD_TRANS (goBytes key) = none →
      Submit.Execute S server db [cmd, key] = (db, [], .err "Invalid Parameters")) ∧
    (∀ tr, GetRaw db .DB_BUILD_TRANS (goBytes key) = some (.transaction tr) →
      (∀ e, S.Validate db 1 tr = .err e →
        Submit.Execute S server db [cmd, key] = (db, [], .err e)) ∧
      (∀ e, S.Validate db 1 tr = .ok () → S.ValidateSignatures db tr = .err e →
        Submit.Execute S server db [cmd, key] = (db, [], .err e))) := by
  refine ⟨?_, ?_⟩
  · intro hk
    exact submit_absent S server db cmd key (fun tr hc => by rw [hk] at hc; cases hc)
  · intro tr hk
    refine ⟨?_, ?_⟩
    · intro e hv
      simp only [Submit.Execute, hk, hv]
    · intro e hv hs
      simp only [Submit.Execute, hk, hv, hs]

/-- Witness of `C15_submit_rejects`: `Submit` on "tx1" before it is signed
returns the error of the signature validation, posts nothing and leaves the
store as it was; `Submit` on the unknown key "tx2" is an error as well. -/
theorem C15_submit_rejects_witness :
    Submit.Execute (specSigner (.response 200)) "localhost:8088" payingDB ["Submit", "tx1"] =
        (payingDB, [], .err "An input is not signed") ∧
    Submit.Execute (specSigner (.response 200)) "localhost:8088" payingDB ["Submit", "tx2"] =
        (payingDB, [], .err "Invalid Parameters") :=
  ⟨((C15_submit_rejects (specSigner (.response 200)) "localhost:8088" payingDB
      "Submit" "tx1").2 paying (by decide)).2 _ (by decide) (by decide),
    (C15_submit_rejects (specSigner (.response 200)) "localhost:8088" payingDB
      "Submit" "tx2").1 (by decide)⟩

end signing

/-! ## Properties of the transaction listing -/

section listing

variable {D FB T : Type}

theorem filtertransaction_iff (V : TransView T) (t : T) (addresses : List Bytes) :
    filtertransaction V t addresses = true ↔
      addresses = [] ∨ ∃ a ∈ addresses,
        a ∈ V.GetInputs t ∨ a ∈ V.GetOutputs t ∨ a ∈ V.GetECOutputs t := by
  unfold filtertransaction
  cases addresses with
  | nil => simp
  | cons a rest =>
    have hlen : ¬ (a :: rest).length = 0 := by simp
    rw [if_neg hlen]
    simp only [List.any_eq_true, Bool.or_eq_true, decide_eq_true_eq]
    constructor
    · rintro ⟨adr, hmem, h⟩
      right
      refine ⟨adr, hmem, ?_⟩
      rcases h with (⟨x, hx, rfl⟩ | ⟨x, hx, rfl⟩) | ⟨x, hx, rfl⟩
      · exact Or.inl hx
      · exact Or.inr (Or.inl hx)
      · exact Or.inr (Or.inr hx)
    · rintro (h | ⟨adr, hmem, h⟩)
      · cases h
      · refine ⟨adr, hmem, ?_⟩
        rcases h with h | h | h
        · exact Or.inl (Or.inl ⟨adr, h, rfl⟩)
        · exact Or.inl (Or.inr ⟨adr, h, rfl⟩)
        · exact Or.inr ⟨adr, h, rfl⟩

/-- C16: the filter returns true exactly when the address list is empty or one
of its addresses is byte-equal to the address of an input, of an output or of
an entry-credit output of the transaction; with a single address that is none
of these, it returns false. -/
theorem C16_filter (V : TransView T) (t : T) (addresses : List Bytes) :
    (filtertransaction V t addresses = true ↔
      addresses = [] ∨ ∃ a ∈ addresses,
        a ∈ V.GetInputs t ∨ a ∈ V.GetOutputs t ∨ a ∈ V.GetECOutputs t) ∧
    (∀ a : Bytes, a ∉ V.GetInputs t → a ∉ V.GetOutputs t → a ∉ V.GetECOutputs t →
      filtertransaction V t [a] = false) := by
  refine ⟨filtertransaction_iff V t addresses, ?_⟩
  intro a hi ho he
  cases hf : filtertransaction V t [a] with
  | false => rfl
  | true =>
    rcases (filtertransaction_iff V t [a]).1 hf with h | ⟨x, hx, h⟩
    · cases h
    · rw [List.mem_singleton] at hx
      subst hx
      rcases h with h | h | h
      · exact absurd h hi
      · exact absurd h ho
      · exact absurd h he

/-- Witness of `C16_filter`: a transaction paying from the address 1 to the
address 6 does not match the address 5, and matches the addresses 5 and 6. -/
theorem C16_filter_witness :
    filtertransaction specView (payTo 21 [6]) [[5]] = false ∧
      filtertransaction specView (payTo 21 [6]) [[5], [6]] = true :=
  ⟨(C16_filter specView (payTo 21 [6]) []).2 [5] (by decide) (by decide) (by decide),
    (C16_filter specView (payTo 21 [6]) [[5], [6]]).1.2
      (Or.inr ⟨[6], by decide, Or.inr (Or.inl (by decide))⟩)⟩

/-- C17: when the head the node returns equals the recorded one, `refresh`
fetches no block, leaves every variable as it was and returns nil; when it
differs and is the hexadecimal form of `head`, the reference and `head` are
recorded and `refresh` is the walk `getAll` from there. -/
theorem C17_refresh_unchanged_head (N : Node) (B : Blocks D FB T) (s : Scanner D FB)
    (tip : String) (htip : N.GetDBlockHead = .ok tip) (fuel : Nat) :
    (tip = s.DBHeadStr → refresh N B fuel s = some (s, [], .ok ())) ∧
    (tip ≠ s.DBHeadStr → ∀ head, hexDecode tip = (head, none) →
      getDBHead N s = ({ s with DBHeadStr := tip, DBHead := head }, .ok true) ∧
      refresh N B fuel s = getAll N B fuel { s with DBHeadStr := tip, DBHead := head }) := by
  constructor
  · intro heq
    have h : getDBHead N s = (s, .ok false) := by
      unfold getDBHead
      rw [htip]
      simp only [heq, ne_eq, not_true_eq_false, if_false]
    unfold refresh
    rw [h]
  · intro hne head hdec
    have h : getDBHead N s = ({ s with DBHeadStr := tip, DBHead := head }, .ok true) := by
      unfold getDBHead
      rw [htip]
      simp only [ne_eq, hne, not_false_eq_true, if_true, hdec]
    refine ⟨h, ?_⟩
    unfold refresh
    rw [h]

/-- Witness of `C17_refresh_unchanged_head`: once the head "a2" is recorded, a
refresh against a node whose head is "a2" fetches nothing and changes nothing. -/
theorem C17_refresh_unchanged_head_witness :
    refresh (exNode "a2") exBlocks 5
        { Scanner.init exBlocks with DBHeadStr := "a2", DBHead := [0xa2] } =
      some ({ Scanner.init exBlocks with DBHeadStr := "a2", DBHead := [0xa2] }, [], .ok ()) :=
  (C17_refresh_unchanged_head (exNode "a2") exBlocks
    { Scanner.init exBlocks with DBHeadStr := "a2", DBHead := [0xa2] } "a2" rfl 5).1 rfl

theorem findFactoid_none (N : Node) (B : Blocks D FB T) (entries : List (Bytes × Bytes))
    (fb : Option FB) (fcnt : Nat) (fbs : List FB)
    (h : ∀ dbe ∈ entries, dbe.1 ≠ B.FACTOID_CHAINID) :
    findFactoid N B entries fb fcnt fbs = (fb, fcnt, fbs, [], .ok ()) := by
  induction entries with
  | nil => rfl
  | cons dbe rest ih =>
    unfold findFactoid
    rw [if_neg (h dbe (List.mem_cons_self dbe rest))]
    exact ih (fun x hx => h x (List.mem_cons_of_mem dbe hx))

theorem findFactoid_first (N : Node) (B : Blocks D FB T)
    (before after : List (Bytes × Bytes)) (keyMR fdata : Bytes) (decoded : FB)
    (fb : Option FB) (fcnt : Nat) (fbs : List FB)
    (h : ∀ dbe ∈ before, dbe.1 ≠ B.FACTOID_CHAINID)
    (hraw : N.GetRaw (hexEncode keyMR) = .ok fdata)
    (hdec : B.UnmarshalFBlock fdata = .ok decoded) :
    findFactoid N B (before ++ (B.FACTOID_CHAINID, keyMR) :: after) fb fcnt fbs =
      (some decoded, fcnt + 1, fbs ++ [decoded], [hexEncode keyMR], .ok ()) := by
  induction before with
  | nil =>
    simp only [List.nil_append, findFactoid, if_true, hraw, hdec]
  | cons dbe rest ih =>
    rw [List.cons_append]
    unfold findFactoid
    rw [if_neg (h dbe (List.mem_cons_self dbe rest))]
    exact ih (fun x hx => h x (List.mem_cons_of_mem dbe hx))

/-- One turn of the second loop of `getAll` on a directory block without entry
of the Factoid chain: nothing is fetched, nothing is appended to
`FactoidBlocks`, and the loop goes on. -/
theorem replay_none (N : Node) (B : Blocks D FB T) (db : D) (rest : List D)
    (s : Scanner D FB) (fetched : List String)
    (h : ∀ dbe ∈ B.DBEntries db, dbe.1 ≠ B.FACTOID_CHAINID) :
    replay N B (db :: rest) s fetched =
      replay N B rest { s with DirectoryBlocks := s.DirectoryBlocks ++ [db] } fetched := by
  rw [replay]
  simp only [findFactoid_none N B _ _ _ _ h, ProcessFB, List.append_nil, gt_iff_lt,
    Nat.not_lt_zero, if_false]

/-- One turn of the second loop of `getAll` on a directory block whose first
entry of the Factoid chain is served: that block is fetched and appended, and
the loop goes on, whatever entries follow. -/
theorem replay_served (N : Node) (B : Blocks D FB T) (db : D) (rest : List D)
    (s : Scanner D FB) (fetched : List String) (ref : String) (fb : FB)
    (h : ServesFactoid N B db ref fb) :
    replay N B (db :: rest) s fetched =
      replay N B rest { s with DirectoryBlocks := s.DirectoryBlocks ++ [db],
                               FactoidBlocks := s.FactoidBlocks ++ [fb] }
        (fetched ++ [ref]) := by
  obtain ⟨before, after, keyMR, fdata, hentries, hbefore, href, hraw, hdec⟩ := h
  subst href
  rw [replay, hentries]
  simp only [findFactoid_first N B before after keyMR fdata fb _ _ _ hbefore hraw hdec,
    ProcessFB, Nat.zero_add, gt_iff_lt, Nat.lt_irrefl, if_false]

theorem walkBack_path (N : Node) (B : Blocks D FB T) (last : Bytes) (ref : String)
    (path : List (String × D)) (h : ServesPath N B last ref path) :
    ∀ (fuel : Nat) (dbs : List D) (fetched : List String), path.length ≤ fuel →
      walkBack N B last fuel ref dbs fetched =
        some (dbs ++ path.map Prod.snd, fetched ++ path.map Prod.fst, .ok ()) := by
  induction h with
  | tip ref blk db hraw hdec hprev =>
    intro fuel dbs fetched hfuel
    cases fuel with
    | zero => simp at hfuel
    | succ fuel =>
      simp only [walkBack, hraw, hdec, hprev, if_true, List.map_cons, List.map_nil]
  | step ref blk db rest hraw hdec hprev _ ih =>
    intro fuel dbs fetched hfuel
    cases fuel with
    | zero => simp at hfuel
    | succ fuel =>
      have hrest : rest.length ≤ fuel := by
        simp only [List.length_cons] at hfuel
        omega
      simp only [walkBack, hraw, hdec, hprev, if_false, List.map_cons]
      rw [ih fuel _ _ hrest, List.append_assoc, List.append_assoc]
      rfl

theorem replay_all (N : Node) (B : Blocks D FB T) (dbs : List D) (fbs : List (String × FB))
    (h : List.Forall₂ (fun db (q : String × FB) => ServesFactoid N B db q.1 q.2) dbs fbs) :
    ∀ (s : Scanner D FB) (fetched : List String),
      replay N B dbs s fetched =
        ({ s with DirectoryBlocks := s.DirectoryBlocks ++ dbs,
                  FactoidBlocks := s.FactoidBlocks ++ fbs.map Prod.snd },
          fetched ++ fbs.map Prod.fst, .ok ()) := by
  induction h with
  | nil =>
    intro s fetched
    simp only [replay, List.append_nil, List.map_nil]
  | cons hd _ ih =>
    intro s fetched
    rw [replay_served N B _ _ s fetched _ _ hd, ih]
    simp only [List.append_assoc, List.singleton_append, List.map_cons]

/-- C18 fails as stated: from the initial variables with the head "b1"
recorded, the recorded tip being the zero genesis reference, the node serves the
one directory block of the path, which has no entry of the Factoid chain; the
walk returns nil after fetching that directory block and no factoid block, and
appends the directory block while `FactoidBlocks` stays empty. -/
theorem C18_counterexample :
    ServesPath (exNode "b1") exBlocks (Scanner.init exBlocks).DBHeadLast "b1"
        [("b1", dblockNone)] ∧
      getAll (exNode "b1") exBlocks 1
          { Scanner.init exBlocks with DBHeadStr := "b1", DBHead := [0xb1] } =
        some ({ DirectoryBlocks := [dblockNone], FactoidBlocks := [],
                DBHead := [0xb1], DBHeadStr := "b1", DBHeadLast := [0xb1] },
          ["b1"], .ok ()) :=
  ⟨ServesPath.tip "b1" [0xb1] dblockNone (by decide) (by decide) (by decide), by decide⟩

/-- C18, amended: when, following the previous-block references from the
recorded head, the node serves the directory blocks of `path` down to the first
one whose previous key is the last processed head, and serves for each of them
the factoid block of its first entry of the Factoid chain, then `getAll`, given
enough turns, returns nil after fetching exactly these directory blocks, newest
first, and then exactly their factoid blocks, oldest first, one for each; it
appends the directory blocks oldest first to `DirectoryBlocks` and their factoid
blocks in the same order to `FactoidBlocks`, keeps what the two lists held, and
sets `DBHeadLast` to `DBHead`. -/
theorem C18_walk_appends_path (N : Node) (B : Blocks D FB T) (s : Scanner D FB)
    (path : List (String × D)) (fblocks : List (String × FB))
    (hpath : ServesPath N B s.DBHeadLast s.DBHeadStr path)
    (hfact : List.Forall₂ (fun (p : String × D) (q : String × FB) =>
      ServesFactoid N B p.2 q.1 q.2) path fblocks)
    (fuel : Nat) (hfuel : path.length ≤ fuel) :
    getAll N B fuel s =
        some ({ DirectoryBlocks := s.DirectoryBlocks ++ (path.map Prod.snd).reverse,
                FactoidBlocks := s.FactoidBlocks ++ (fblocks.map Prod.snd).reverse,
                DBHead := s.DBHead, DBHeadStr := s.DBHeadStr, DBHeadLast := s.DBHead },
          path.map Prod.fst ++ (fblocks.map Prod.fst).reverse, .ok ()) ∧
      List.Forall₂ (fun db fb => ∃ ref, ServesFactoid N B db ref fb)
        (path.map Prod.snd).reverse (fblocks.map Prod.snd).reverse ∧
      (path.map Prod.snd).reverse.length = path.length ∧
      (fblocks.map Prod.snd).reverse.length = path.length := by
  have hwalk := walkBack_path N B s.DBHeadLast s.DBHeadStr path hpath fuel [] [] hfuel
  have hrev : List.Forall₂ (fun db (q : String × FB) => ServesFactoid N B db q.1 q.2)
      (path.map Prod.snd).reverse fblocks.reverse := by
    rw [← List.map_reverse, List.forall₂_map_left_iff, List.forall₂_reverse_iff]
    exact hfact
  refine ⟨?_, ?_, ?_, ?_⟩
  · unfold getAll
    rw [hwalk]
    simp only [List.nil_append]
    rw [replay_all N B _ _ hrev]
    simp only [List.map_reverse]
  · rw [← List.map_reverse, ← List.map_reverse, List.forall₂_map_left_iff,
      List.forall₂_map_right_iff, List.forall₂_reverse_iff]
    exact hfact.imp (fun _ _ h => ⟨_, h⟩)
  · simp
  · simp [hfact.length_eq]

/-- Witness of `C18_walk_appends_path`: from the initial variables with the head
"a2" recorded, against the node serving the two example blocks, the walk fetches
"a2", "a1", then "f1", "f2", and appends the blocks oldest first. -/
theorem C18_walk_appends_path_witness :
    getAll (exNode "a2") exBlocks 2
        { Scanner.init exBlocks with DBHeadStr := "a2", DBHead := [0xa2] } =
      some ({ DirectoryBlocks := [dblock1, dblock2], FactoidBlocks := [fblock1, fblock2],
              DBHead := [0xa2], DBHeadStr := "a2", DBHeadLast := [0xa2] },
        ["a2", "a1", "f1", "f2"], .ok ()) :=
  (C18_walk_appends_path (exNode "a2") exBlocks
    { Scanner.init exBlocks with DBHeadStr := "a2", DBHead := [0xa2] }
    [("a2", dblock2), ("a1", dblock1)] [("f2", fblock2), ("f1", fblock1)]
    (ServesPath.step "a2" [0xa2] dblock2 [("a1", dblock1)] (by decide) (by decide) (by decide)
      (ServesPath.tip "a1" [0xa1] dblock1 (by decide) (by decide) (by decide)))
    (List.Forall₂.cons
      ⟨[([7], [0xee])], [], [0xf2], [0xf2], by decide, by decide, by decide, by decide,
        by decide⟩
      (List.Forall₂.cons
        ⟨[], [], [0xf1], [0xf1], by decide, by decide, by decide, by decide, by decide⟩
        List.Forall₂.nil))
    2 (by decide)).1

/-- C19 fails on the code: the two checks after the loop over the entries
never fire. On a directory block without entry of the Factoid chain the replay
goes on without a failure and appends no factoid block; on a directory block
whose first entry of the Factoid chain is served it appends that block and goes
on, however many entries of the Factoid chain follow. -/
theorem C19_cardinality_checks_dead (N : Node) (B : Blocks D FB T) (db : D) (rest : List D)
    (s : Scanner D FB) (fetched : List String) :
    ((∀ dbe ∈ B.DBEntries db, dbe.1 ≠ B.FACTOID_CHAINID) →
      replay N B (db :: rest) s fetched =
        replay N B rest { s with DirectoryBlocks := s.DirectoryBlocks ++ [db] } fetched) ∧
    (∀ ref fb, ServesFactoid N B db ref fb →
      replay N B (db :: rest) s fetched =
        replay N B rest { s with DirectoryBlocks := s.DirectoryBlocks ++ [db],
                                 FactoidBlocks := s.FactoidBlocks ++ [fb] }
          (fetched ++ [ref])) :=
  ⟨replay_none N B db rest s fetched, fun ref fb h => replay_served N B db rest s fetched ref fb h⟩

/-- Witness of `C19_cardinality_checks_dead`, the failing inputs: the replay of
the directory block without entry of the Factoid chain returns nil with no
factoid block appended, and the replay of the directory block with two entries
of the Factoid chain returns nil with the block of the first entry appended. -/
theorem C19_cardinality_checks_dead_witness :
    replay (exNode "b1") exBlocks [dblockNone] (Scanner.init exBlocks) [] =
        ({ Scanner.init exBlocks with DirectoryBlocks := [dblockNone] }, [], .ok ()) ∧
    replay (exNode "c1") exBlocks [dblockTwo] (Scanner.init exBlocks) [] =
        ({ Scanner.init exBlocks with DirectoryBlocks := [dblockTwo],
                                      FactoidBlocks := [fblock1] }, ["f1"], .ok ()) :=
  ⟨(C19_cardinality_checks_dead (exNode "b1") exBlocks dblockNone []
      (Scanner.init exBlocks) []).1 (by decide),
    (C19_cardinality_checks_dead (exNode "c1") exBlocks dblockTwo []
      (Scanner.init exBlocks) []).2 "f1" fblock1
      ⟨[], [(factoidChain, [0xf2])], [0xf1], [0xf1], by decide, by decide, by decide,
        by decide, by decide⟩⟩

theorem mem_numberFrom (l : List T) :
    ∀ (n k : Nat) (t : T), (k, t) ∈ numberFrom n l ↔ ∃ j, l[j]? = some t ∧ k = n + j := by
  induction l with
  | nil =>
    intro n k t
    simp [numberFrom]
  | cons a rest ih =>
    intro n k t
    simp only [numberFrom, List.mem_cons, Prod.mk.injEq, ih]
    constructor
    · rintro (⟨hk, ht⟩ | ⟨j, hj, hk⟩)
      · exact ⟨0, by simp [ht], by omega⟩
      · exact ⟨j + 1, by simpa using hj, by omega⟩
    · rintro ⟨j, hj, hk⟩
      cases j with
      | zero =>
        left
        simp only [List.getElem?_cons_zero, Option.some.injEq] at hj
        exact ⟨by omega, hj.symm⟩
      | succ j =>
        right
        exact ⟨j, by simpa using hj, by omega⟩

theorem numberFrom_pairwise (l : List T) :
    ∀ n : Nat, (numberFrom n l).Pairwise (fun p q => p.1 < q.1) := by
  induction l with
  | nil =>
    intro n
    exact List.Pairwise.nil
  | cons a rest ih =>
    intro n
    rw [numberFrom, List.pairwise_cons]
    refine ⟨?_, ih (n + 1)⟩
    intro q hq
    obtain ⟨j, _, hk⟩ := (mem_numberFrom rest (n + 1) q.1 q.2).1 hq
    show n < q.1
    omega

/-- The transactions shown for a block are those at an index `j` of 1 or more
that pass the filter, each with the number `n + j - 1`. -/
theorem mem_shown (V : TransView T) (addresses : List Bytes) (txs : List T) (n k : Nat)
    (t : T) :
    (k, t) ∈ shown V addresses txs n ↔
      ∃ j, 1 ≤ j ∧ txs[j]? = some t ∧ k + 1 = n + j ∧
        filtertransaction V t addresses = true := by
  unfold shown
  rw [List.mem_filter, mem_numberFrom]
  constructor
  · rintro ⟨⟨j, hj, hk⟩, hf⟩
    refine ⟨j + 1, by omega, ?_, by omega, hf⟩
    rw [List.getElem?_drop] at hj
    rw [Nat.add_comm]
    exact hj
  · rintro ⟨j, h1, hj, hk, hf⟩
    refine ⟨⟨j - 1, ?_, by omega⟩, hf⟩
    rw [List.getElem?_drop]
    have : 1 + (j - 1) = j := by omega
    rw [this]
    exact hj

theorem shown_pairwise (V : TransView T) (addresses : List Bytes) (txs : List T) (n : Nat) :
    (shown V addresses txs n).Pairwise (fun p q => p.1 < q.1) :=
  (numberFrom_pairwise (txs.drop 1) n).sublist (List.filter_sublist _)

theorem shown_bounds (V : TransView T) (addresses : List Bytes) (txs : List T) (n : Nat)
    (p : Nat × T) (h : p ∈ shown V addresses txs n) :
    n ≤ p.1 ∧ p.1 < n + (txs.drop 1).length := by
  unfold shown at h
  obtain ⟨j, hj, hk⟩ := (mem_numberFrom (txs.drop 1) n p.1 p.2).1 (List.mem_filter.1 h).1
  have hlt : j < (txs.drop 1).length := by
    by_contra hc
    rw [List.getElem?_eq_none (by omega)] at hj
    cases hj
  omega

theorem shownInReport_lower (B : Blocks D FB T) (V : TransView T) (addresses : List Bytes)
    (history : List FB) :
    ∀ (n : Nat) (p : Nat × T), p ∈ shownInReport B V addresses n history → n ≤ p.1 := by
  induction history with
  | nil =>
    intro n p h
    cases h
  | cons fb rest ih =>
    intro n p h
    rw [shownInReport, List.mem_append] at h
    rcases h with h | h
    · exact (shown_bounds V addresses _ n p h).1
    · have := ih _ p h
      omega

theorem shownInReport_pairwise (B : Blocks D FB T) (V : TransView T) (addresses : List Bytes)
    (history : List FB) :
    ∀ n : Nat, (shownInReport B V addresses n history).Pairwise (fun p q => p.1 < q.1) := by
  induction history with
  | nil =>
    intro n
    exact List.Pairwise.nil
  | cons fb rest ih =>
    intro n
    rw [shownInReport, List.pairwise_append]
    refine ⟨shown_pairwise V addresses _ n, ih _, ?_⟩
    intro p hp q hq
    have h1 := (shown_bounds V addresses _ n p hp).2
    have h2 := shownInReport_lower B V addresses rest _ q hq
    omega

/-- The loop over the transactions of a block from an index that is not 0:
each transaction that passes the filter is written with the running number. -/
theorem dumpBlock_tail (V : TransView T) (addresses : List Bytes) (txs : List T) :
    ∀ (j : Nat) (out : String) (wrt : Bool) (n : Nat), j ≠ 0 →
      dumpBlock V addresses j txs out wrt n =
        (out ++ concat (((numberFrom n txs).filter
            fun p => filtertransaction V p.2 addresses).map fun p =>
            ("Transaction " ++ toString p.1 ++ "\n") ++ (V.String p.2 ++ "\n")),
          wrt || !((numberFrom n txs).filter
            fun p => filtertransaction V p.2 addresses).isEmpty,
          n + txs.length) := by
  induction txs with
  | nil =>
    intro j out wrt n _
    simp [dumpBlock, numberFrom, concat]
  | cons t rest ih =>
    intro j out wrt n hj
    rw [dumpBlock, if_pos hj]
    by_cases hf : filtertransaction V t addresses = true
    · rw [if_pos hf, ih (j + 1) _ true (n + 1) (by omega)]
      simp only [numberFrom, List.filter_cons, hf, if_true, List.map_cons, concat,
        List.isEmpty_cons, Bool.not_false, Bool.or_true, Bool.true_or, List.length_cons,
        String.append_assoc]
      refine Prod.ext rfl (Prod.ext rfl ?_)
      show n + 1 + rest.length = n + (rest.length + 1)
      omega
    · rw [if_neg hf, ih (j + 1) out wrt (n + 1) (by omega)]
      simp only [numberFrom, List.filter_cons, hf, Bool.false_eq_true, if_false,
        List.length_cons]
      refine Prod.ext rfl (Prod.ext rfl ?_)
      show n + 1 + rest.length = n + (rest.length + 1)
      omega

/-- The loop over the blocks writes the report the specification describes. -/
theorem dumpBlocks_eq (B : Blocks D FB T) (V : TransView T) (addresses : List Bytes)
    (history : List FB) :
    ∀ (i n : Nat) (ret : String),
      dumpBlocks B V addresses i history ret n =
        ret ++ specReport B V addresses i n history := by
  induction history with
  | nil =>
    intro i n ret
    simp [dumpBlocks, specReport]
  | cons fb rest ih =>
    intro i n ret
    rw [dumpBlocks, specReport]
    cases htx : B.GetTransactions fb with
    | nil =>
      simp only [List.length_nil, gt_iff_lt, Nat.not_lt_zero, if_false, List.drop_nil,
        Nat.add_zero]
      rw [ih]
      simp [blockText, shown, numberFrom]
    | cons t0 tail =>
      cases tail with
      | nil =>
        simp only [List.length_singleton, gt_iff_lt, Nat.lt_irrefl, if_false]
        rw [ih]
        simp [blockText, shown, numberFrom]
      | cons t1 tail =>
        have hlen : (t0 :: t1 :: tail).length > 1 := by simp
        rw [if_pos hlen]
        have h0 : dumpBlock V addresses 0 (t0 :: t1 :: tail)
            ("Transactions at block height " ++ toString i ++ "\n") false n =
            dumpBlock V addresses 1 (t1 :: tail)
              ("Transactions at block height " ++ toString i ++ "\n") false n := by
          rw [dumpBlock]
          simp
        dsimp only
        rw [h0, dumpBlock_tail V addresses (t1 :: tail) 1 _ false n (by omega)]
        simp only [Bool.false_or]
        rw [ih]
        simp only [blockText, shown, List.drop_succ_cons, List.drop_zero]
        by_cases hs : ((numberFrom n (t1 :: tail)).filter
            fun p => filtertransaction V p.2 addresses).isEmpty = true
        · simp only [hs, Bool.not_true, Bool.false_eq_true, if_false, if_true,
            String.empty_append]
        · simp only [hs, Bool.not_false, if_true, if_false, Bool.false_eq_true,
            String.append_assoc]

/-- C20: the report `DumpTransactions` builds from a history of factoid blocks
is the one the specification describes: block after block in history order, for
each block with a transaction shown the header with its index, then each
transaction at index 1 or more that passes the filter, once, with its number
and text; a transaction is shown with the number `k` exactly when it is at an
index `j` of 1 or more of its block, passes the filter, and `k` is `j - 1` more
than the number the block starts with; the numbers of the transactions shown
increase strictly over the whole report; and `DumpTransactions` returns this
report for the history a successful refresh leaves. -/
theorem C20_report (B : Blocks D FB T) (V : TransView T) (addresses : List Bytes)
    (history : List FB) :
    dumpBlocks B V addresses 0 history "" 1 = specReport B V addresses 0 1 history ∧
    (∀ (txs : List T) (n k : Nat) (t : T), (k, t) ∈ shown V addresses txs n ↔
      ∃ j, 1 ≤ j ∧ txs[j]? = some t ∧ k + 1 = n + j ∧
        filtertransaction V t addresses = true) ∧
    (shownInReport B V addresses 1 history).Pairwise (fun p q => p.1 < q.1) ∧
    (∀ (N : Node) (fuel : Nat) (s s' : Scanner D FB) (fetched : List String),
      refresh N B fuel s = some (s', fetched, .ok ()) →
      DumpTransactions N B V fuel addresses s =
        some (s', fetched, .ok (dumpBlocks B V addresses 0 s'.FactoidBlocks "" 1))) := by
  refine ⟨?_, mem_shown V addresses, shownInReport_pairwise B V addresses history 1, ?_⟩
  · rw [dumpBlocks_eq]
    exact String.empty_append _
  · intro N fuel s s' fetched h
    simp only [DumpTransactions, h]

/-- Witness of `C20_report`: against the node serving the two example blocks,
the dump for the address 5 shows the payment of each block to that address,
numbered 1 and 3, and neither the administrative transactions nor the payment
numbered 2 to the address 6. -/
theorem C20_report_witness :
    DumpTransactions (exNode "a2") exBlocks specView 2 [[5]] (Scanner.init exBlocks) =
      some ({ DirectoryBlocks := [dblock1, dblock2], FactoidBlocks := [fblock1, fblock2],
              DBHead := [0xa2], DBHeadStr := "a2", DBHeadLast := [0xa2] },
        ["a2", "a1", "f1", "f2"],
        .ok ("Transactions at block height 0\nTransaction 1\ntx 11\n" ++
          "Transactions at block height 1\nTransaction 3\ntx 22\n")) := by
  rw [(C20_report exBlocks specView [[5]] [fblock1, fblock2]).2.2.2 (exNode "a2") 2
    (Scanner.init exBlocks)
    { DirectoryBlocks := [dblock1, dblock2], FactoidBlocks := [fblock1, fblock2],
      DBHead := [0xa2], DBHeadStr := "a2", DBHeadLast := [0xa2] }
    ["a2", "a1", "f1", "f2"] (by decide)]
  decide

end listing

/-! ## Properties of the commits -/

section commit

variable {T R : Type}

theorem signAndPost_frame (C : Committer R) (url field : String) (db : DB T R)
    (lookups : List (Bucket × Bytes)) (we : Option (Stored T R)) (msg : Bytes) :
    (signAndPost C url field db lookups we msg).db = db ∧
      (signAndPost C url field db lookups we msg).lookups = lookups := by
  unfold signAndPost
  split
  · split
    · exact ⟨rfl, rfl⟩
    · exact ⟨rfl, rfl⟩
    · dsimp only
      split <;> exact ⟨rfl, rfl⟩
  · exact ⟨rfl, rfl⟩
  · exact ⟨rfl, rfl⟩

/-- The lookup `CommitChain` makes once the message is decoded, and what it
finds. -/
theorem commitChain_found (C : Committer R) (db : DB T R) (name : String)
    (hhex : C.IsValidHexAddress name = true → (hexDecode name).2 = none) :
    (if C.IsValidAddress name && startsWith name "EC" then
        ([(Bucket.W_ADDRESS_PUB_KEY, C.ConvertUserStrToAddress name)],
          GetRaw db .W_ADDRESS_PUB_KEY (C.ConvertUserStrToAddress name))
      else if C.IsValidHexAddress name then
        match hexDecode name with
        | (addr, none) => ([(Bucket.W_ADDRESS_PUB_KEY, addr)], GetRaw db .W_ADDRESS_PUB_KEY addr)
        | (_, some _) => ([], none)
      else
        ([(Bucket.W_NAME, goBytes name)], GetRaw db .W_NAME (goBytes name))) =
      ([chainLookup C name], GetRaw db (chainLookup C name).1 (chainLookup C name).2) := by
  unfold chainLookup
  by_cases h1 : (C.IsValidAddress name && startsWith name "EC") = true
  · simp only [h1, if_true]
  · simp only [h1, Bool.false_eq_true, if_false]
    by_cases h2 : C.IsValidHexAddress name = true
    · simp only [h2, if_true]
      have hd := hhex h2
      cases hdec : hexDecode name with
      | mk addr e =>
        rw [hdec] at hd
        simp only at hd
        subst hd
        rfl
    · simp only [h2, Bool.false_eq_true, if_false]

/-- C21: once the message is decoded, `CommitChain` makes exactly one lookup in
the store, chosen by the shape of the text: a valid address string with the EC
prefix is looked up under its decoded address bytes, else a valid hexadecimal
address under its decoded bytes, else the text is looked up as a name; when the
lookup finds nothing, it returns the unknown-address error, calls `SignCommit`
not at all, posts nothing and leaves the store as it was. -/
theorem C21_commitChain_lookup (C : Committer R) (server : String) (db : DB T R)
    (name : String) (data msg : Bytes) (hmsg : hexDecode (C.Message data) = (msg, none))
    (hhex : C.IsValidHexAddress name = true → (hexDecode name).2 = none) :
    (CommitChain C server db name data).lookups =
      [if C.IsValidAddress name && startsWith name "EC" then
          (Bucket.W_ADDRESS_PUB_KEY, C.ConvertUserStrToAddress name)
        else if C.IsValidHexAddress name then (Bucket.W_ADDRESS_PUB_KEY, (hexDecode name).1)
        else (Bucket.W_NAME, goBytes name)] ∧
    (CommitChain C server db name data).db = db ∧
    (GetRaw db (chainLookup C name).1 (chainLookup C name).2 = none →
      (CommitChain C server db name data).result = .err "Unknown address" ∧
      (CommitChain C server db name data).signed = [] ∧
      (CommitChain C server db name data).posts = []) := by
  have hfound := commitChain_found C db name hhex
  have hlook : [if C.IsValidAddress name && startsWith name "EC" then
          (Bucket.W_ADDRESS_PUB_KEY, C.ConvertUserStrToAddress name)
        else if C.IsValidHexAddress name then (Bucket.W_ADDRESS_PUB_KEY, (hexDecode name).1)
        else (Bucket.W_NAME, goBytes name)] = [chainLookup C name] := rfl
  rw [hlook]
  unfold CommitChain
  simp only [hmsg]
  rw [hfound]
  cases hget : GetRaw db (chainLookup C name).1 (chainLookup C name).2 with
  | none =>
    simp only
    exact ⟨trivial, trivial, fun _ => ⟨trivial, trivial, trivial⟩⟩
  | some we =>
    simp only
    refine ⟨(signAndPost_frame C _ _ db _ _ msg).2, (signAndPost_frame C _ _ db _ _ msg).1, ?_⟩
    intro hc
    cases hc

/-- Witness of `C21_commitChain_lookup`: for the name "alice", under which
nothing is stored, `CommitChain` looks up the name, returns the unknown-address
error and neither signs nor posts; for the text of 64 digits 7 it looks up the
32 bytes 0x77 among the addresses. -/
theorem C21_commitChain_lookup_witness :
    ((CommitChain (specCommitter (.response 200)) "localhost:8088" namedDB "alice"
          commitData).lookups = [(Bucket.W_NAME, goBytes "alice")] ∧
      (CommitChain (specCommitter (.response 200)) "localhost:8088" namedDB "alice"
          commitData).result = .err "Unknown address" ∧
      (CommitChain (specCommitter (.response 200)) "localhost:8088" namedDB "alice"
          commitData).signed = [] ∧
      (CommitChain (specCommitter (.response 200)) "localhost:8088" namedDB "alice"
          commitData).posts = []) ∧
    (CommitChain (specCommitter (.response 200)) "localhost:8088" namedDB hexRef
        commitData).lookups = [(Bucket.W_ADDRESS_PUB_KEY, List.replicate 32 0x77)] := by
  have h1 := C21_commitChain_lookup (specCommitter (.response 200)) "localhost:8088" namedDB
    "alice" commitData [7] (by decide) (by decide)
  have h2 := C21_commitChain_lookup (specCommitter (.response 200)) "localhost:8088" namedDB
    hexRef commitData [7] (by decide) (by decide)
  refine ⟨⟨?_, h1.2.2 (by decide)⟩, ?_⟩
  · rw [h1.1]
    decide
  · rw [h2.1]
    decide

/-- C22 fails on the code: for a message that decodes and a name under which
nothing is stored, `CommitEntry` looks the name up and then panics on the type
assertion of the nil value found, without signing or posting; a message that is
not valid hexadecimal returns an error before any lookup. -/
theorem C22_commitEntry_panics_on_unknown_name (C : Committer R) (server : String)
    (db : DB T R) (name : String) (data : Bytes) :
    (∀ msg, hexDecode (C.Message data) = (msg, none) →
      GetRaw db .W_NAME (goBytes name) = none →
      (CommitEntry C server db name data).lookups = [(Bucket.W_NAME, goBytes name)] ∧
      (CommitEntry C server db name data).result =
        .panic "interface conversion: interface is nil, not wallet.IWalletEntry" ∧
      (CommitEntry C server db name data).signed = [] ∧
      (CommitEntry C server db name data).posts = []) ∧
    (∀ part e, hexDecode (C.Message data) = (part, some e) →
      (CommitEntry C server db name data).result = .err "Could not decode message:" ∧
      (CommitEntry C server db name data).lookups = [] ∧
      (CommitEntry C server db name data).signed = [] ∧
      (CommitEntry C server db name data).posts = [] ∧
      (CommitEntry C server db name data).db = db) := by
  constructor
  · intro msg hmsg hget
    unfold CommitEntry
    simp only [hmsg, hget, signAndPost]
    exact ⟨trivial, trivial, trivial, trivial⟩
  · intro part e hmsg
    unfold CommitEntry
    simp only [hmsg]
    exact ⟨trivial, trivial, trivial, trivial, trivial⟩

/-- Witness of `C22_commitEntry_panics_on_unknown_name`, the failing input:
`CommitEntry` for the name "alice", under which nothing is stored, with the
message "07", panics; with the message "zz" it returns an error. -/
theorem C22_commitEntry_panics_on_unknown_name_witness :
    (CommitEntry (specCommitter (.response 200)) "localhost:8088" namedDB "alice"
        commitData).result =
      .panic "interface conversion: interface is nil, not wallet.IWalletEntry" ∧
    (CommitEntry (specCommitter (.response 200)) "localhost:8088" namedDB "alice"
        badCommitData).result = .err "Could not decode message:" :=
  ⟨((C22_commitEntry_panics_on_unknown_name (specCommitter (.response 200)) "localhost:8088"
      namedDB "alice" commitData).1 [7] (by decide) (by decide)).2.1,
    ((C22_commitEntry_panics_on_unknown_name (specCommitter (.response 200)) "localhost:8088"
      namedDB "alice" badCommitData).2 [] "encoding/hex: invalid byte" (by decide)).1⟩

end commit

/-! ## Termination of the backward walk -/

section walk

variable {D FB T : Type}

/-- One turn of the first loop of `getAll` on a served block whose previous key
is not the last processed head: the loop goes on with the reference of that
previous key. -/
theorem walkBack_step (N : Node) (B : Blocks D FB T) (last : Bytes) (fuel : Nat)
    (ref : String) (dbs : List D) (fetched : List String) (blk : Bytes) (db : D)
    (hraw : N.GetRaw ref = .ok blk) (hdec : B.UnmarshalDBlock blk = .ok db)
    (hprev : B.PrevKeyMR db ≠ last) :
    walkBack N B last (fuel + 1) ref dbs fetched =
      walkBack N B last fuel (hexEncode (B.PrevKeyMR db)) (dbs ++ [db]) (fetched ++ [ref]) := by
  simp only [walkBack, hraw, hdec, hprev, if_false]

/-- C23 fails on the code: the loop stops only at a block whose previous key
equals the last processed head. When that head is not the zero hash, the walk
does not stop at the genesis block, whose previous key is the zero hash: it
fetches the reference of the zero hash, and when the node does not serve it the
walk ends in a panic. -/
theorem C23_walk_runs_past_genesis (N : Node) (B : Blocks D FB T) (last : Bytes)
    (fuel : Nat) (ref : String) (dbs : List D) (fetched : List String) (blk : Bytes)
    (genesis : D) (e : String)
    (hraw : N.GetRaw ref = .ok blk) (hdec : B.UnmarshalDBlock blk = .ok genesis)
    (hgen : B.PrevKeyMR genesis = B.ZERO_HASH) (hlast : last ≠ B.ZERO_HASH)
    (hzero : N.GetRaw (hexEncode B.ZERO_HASH) = .err e) :
    walkBack N B last (fuel + 2) ref dbs fetched =
      some (dbs ++ [genesis], fetched ++ [ref, hexEncode B.ZERO_HASH], .panic e) := by
  have hprev : B.PrevKeyMR genesis ≠ last := by
    rw [hgen]
    exact fun h => hlast h.symm
  rw [walkBack_step N B last (fuel + 1) ref dbs fetched blk genesis hraw hdec hprev, hgen]
  simp only [walkBack, hzero, List.append_assoc, List.singleton_append]

/-- Witness of `C23_walk_runs_past_genesis`, the failing input: with the last
processed head 0x99, which is no block of the chain, the walk from the head
"a2" fetches "a2", the genesis block "a1" and then the reference of 64 zeros,
and panics. -/
theorem C23_walk_runs_past_genesis_witness :
    walkBack (exNode "a2") exBlocks [0x99] 2 "a1" [dblock2] ["a2"] =
        some ([dblock2, dblock1], ["a2", "a1", hexEncode (List.replicate 32 0)],
          .panic "block not found") ∧
      walkBack (exNode "a2") exBlocks [0x99] 3 "a2" [] [] =
        some ([dblock2, dblock1], ["a2", "a1", hexEncode (List.replicate 32 0)],
          .panic "block not found") ∧
      getAll (exNode "a2") exBlocks 3
          { Scanner.init exBlocks with DBHeadStr := "a2", DBHead := [0xa2],
                                       DBHeadLast := [0x99] } =
        some ({ Scanner.init exBlocks with DBHeadStr := "a2", DBHead := [0xa2],
                                           DBHeadLast := [0x99] },
          ["a2", "a1", hexEncode (List.replicate 32 0)], .panic "block not found") :=
  ⟨C23_walk_runs_past_genesis (exNode "a2") exBlocks [0x99] 0 "a1" [dblock2] ["a2"] [0xa1]
      dblock1 "block not found" (by decide) (by decide) (by decide) (by decide) (by decide),
    by decide, by decide⟩

end walk

/-! ## Decoding what `MarshalBinary` wrote -/

section roundtrip

variable {R H : Type}

/-- The bytes `MarshalBinary` returns. -/
theorem marshalBinary_bytes (F : Factoid R H) (w : WalletEntry R) (rcd : R) (enc : Bytes)
    (hkind : w.addrtype = "fct" ∨ w.addrtype = "ec") (hrcd : w.rcd = some rcd)
    (henc : F.rcdMarshalBinary rcd = .ok enc) :
    MarshalBinary F w = .ok ((if w.addrtype = "fct" then 0 else 1) ::
      Fin.ofNat ((w.name.length % 65536) / 256) :: Fin.ofNat ((w.name.length % 65536) % 256) ::
      (w.name ++ (enc ++ byte w.pubKeys.length ::
        (w.pubKeys.flatten ++ byte w.privKeys.length :: w.privKeys.flatten)))) := by
  unfold MarshalBinary
  rcases hkind with hk | hk
  · rw [if_pos hk, if_pos hk]
    simp [marshalBody, hrcd, henc, writeUint16]
  · have hne : ¬ w.addrtype = "fct" := by
      rw [hk]
      decide
    rw [if_neg hne, if_pos hk, if_neg hne]
    simp [marshalBody, hrcd, henc, writeUint16]

/-- A key loop reads back the keys of `ADDRESS_LENGTH` bytes written one after
the other. -/
theorem readKeys_flatten (keys : List Bytes) (h : ∀ k ∈ keys, k.length = ADDRESS_LENGTH) :
    ∀ (filled : List Bytes) (rest : Bytes),
      readKeys keys.length filled (keys.flatten ++ rest) = (filled ++ keys, .ok rest) := by
  induction keys with
  | nil =>
    intro filled rest
    simp [readKeys]
  | cons k ks ih =>
    intro filled rest
    have hk : k.length = ADDRESS_LENGTH := h k (List.mem_cons_self k ks)
    have hlen : ADDRESS_LENGTH ≤ ((k :: ks).flatten ++ rest).length := by
      simp only [List.flatten_cons, List.length_append]
      omega
    have htake : List.take ADDRESS_LENGTH ((k :: ks).flatten ++ rest) = k := by
      rw [List.flatten_cons, List.append_assoc, ← hk, List.take_left]
    have hdrop : List.drop ADDRESS_LENGTH ((k :: ks).flatten ++ rest) = ks.flatten ++ rest := by
      rw [List.flatten_cons, List.append_assoc, ← hk, List.drop_left]
    rw [List.length_cons, readKeys, if_pos hlen, htake, hdrop,
      copy_make_of_length hk, ih (fun x hx => h x (List.mem_cons_of_mem k hx))]
    simp

/-- A key loop succeeds when the data holds `ADDRESS_LENGTH` bytes for each of
the keys to read. -/
theorem readKeys_enough (n : Nat) :
    ∀ (filled : List Bytes) (data : Bytes), ADDRESS_LENGTH * n ≤ data.length →
      ∃ (keys : List Bytes) (rest : Bytes),
        readKeys n filled data = (filled ++ keys, .ok rest) ∧ keys.length = n := by
  induction n with
  | zero =>
    intro filled data _
    exact ⟨[], data, by simp [readKeys], rfl⟩
  | succ n ih =>
    intro filled data hlen
    have h1 : ADDRESS_LENGTH ≤ data.length := by
      rw [Nat.mul_succ] at hlen
      omega
    have h2 : ADDRESS_LENGTH * n ≤ (data.drop ADDRESS_LENGTH).length := by
      rw [List.length_drop, Nat.mul_succ] at *
      omega
    obtain ⟨keys, rest, hr, hk⟩ := ih (filled ++
      [copy (make ADDRESS_LENGTH) (data.take ADDRESS_LENGTH)]) (data.drop ADDRESS_LENGTH) h2
    refine ⟨copy (make ADDRESS_LENGTH) (data.take ADDRESS_LENGTH) :: keys, rest, ?_, ?_⟩
    · rw [readKeys, if_pos h1, hr]
      simp
    · simp [hk]

theorem length_flatten_ge (keys : List Bytes) (h : ∀ k ∈ keys, ADDRESS_LENGTH ≤ k.length) :
    ADDRESS_LENGTH * keys.length ≤ keys.flatten.length := by
  induction keys with
  | nil => simp
  | cons k ks ih =>
    have h1 := h k (List.mem_cons_self k ks)
    have h2 := ih (fun x hx => h x (List.mem_cons_of_mem k hx))
    rw [List.flatten_cons, List.length_append, List.length_cons, Nat.mul_succ]
    omega

/-- Lines 145-160 on the two key lists as `MarshalBinary` wrote them, followed by
any bytes: the public keys are read back, and as many private keys as were
written. -/
theorem unmarshalKeys_marshalled (w : WalletEntry R) (pubs privs : List Bytes)
    (trailing : Bytes) (hP : pubs.length ≤ 255) (hS : privs.length ≤ 255)
    (hpub : ∀ k ∈ pubs, k.length = ADDRESS_LENGTH)
    (hpriv : ∀ k ∈ privs, ADDRESS_LENGTH ≤ k.length) :
    ∃ (read : List Bytes) (rest : Bytes),
      unmarshalKeys w (byte pubs.length ::
          (pubs.flatten ++ byte privs.length :: (privs.flatten ++ trailing))) =
        ({ w with pubKeys := pubs, privKeys := read }, .ok rest) ∧
      read.length = privs.length := by
  have hPv : (byte pubs.length).val = pubs.length := by
    simp only [byte, Fin.ofNat, Fin.val_mk]
    omega
  have hSv : (byte privs.length).val = privs.length := by
    simp only [byte, Fin.ofNat, Fin.val_mk]
    omega
  have henough : ADDRESS_LENGTH * privs.length ≤ (privs.flatten ++ trailing).length := by
    have := length_flatten_ge privs hpriv
    rw [List.length_append]
    omega
  obtain ⟨read, rest, hr, hlen⟩ := readKeys_enough privs.length [] _ henough
  refine ⟨read, rest, ?_, hlen⟩
  unfold unmarshalKeys
  simp only [hPv, hSv, readKeys_flatten pubs hpub, hr, List.nil_append]

/-- Lines 120-143 on a fresh entry, for data that starts with a kind byte, the
length of a name in two bytes, the name and the encoding of a condition that
decodes itself. -/
theorem unmarshalHead_marshalled (F : Factoid R H) (kind hi lo : Byte) (name enc rest : Bytes)
    (r0 rcd : R) (hkind : ¬ kind.val > 1) (hlen : Uint16 hi lo = name.length)
    (hcreate : F.CreateRCD (enc ++ rest) = .ok r0)
    (hdecode : F.rcdUnmarshalBinaryData r0 (enc ++ rest) = (rcd, .ok rest)) :
    unmarshalHead F WalletEntry.New (kind :: hi :: lo :: (name ++ (enc ++ rest))) =
      ({ addrtype := if kind = 0 then "fct" else "ec", name := name, rcd := some rcd,
         pubKeys := [], privKeys := [] }, .ok rest) := by
  have hsiz : name.length ≤ (name ++ (enc ++ rest)).length := by
    rw [List.length_append]
    omega
  unfold unmarshalHead
  simp only [if_neg hkind, hlen, if_pos hsiz, List.take_left, List.drop_left, copy_make,
    unmarshalRCD, WalletEntry.New, hcreate, hdecode]

/-- In every reachable entry the public keys are `ADDRESS_LENGTH` bytes long and
the private keys at least as long. -/
theorem reachable_key_lengths (F : Factoid R H) (w : WalletEntry R) (h : Reachable F w) :
    (∀ k ∈ w.pubKeys, k.length = ADDRESS_LENGTH) ∧
      (∀ k ∈ w.privKeys, ADDRESS_LENGTH ≤ k.length) := by
  induction h with
  | new =>
    constructor <;> intro k hk <;> cases hk
  | addKey w pub priv _ hacc ih =>
    have hlen := (addKey_accepted_iff F w pub priv).1 hacc
    have hrec := addKey_private_length F w pub priv hacc
    rw [addKey_accepted_eq F w pub priv hacc]
    constructor
    · intro k hk
      rcases List.mem_append.1 hk with h1 | h1
      · exact ih.1 k h1
      · rw [List.mem_singleton] at h1
        rw [h1]
        exact hlen.1
    · intro k hk
      rcases List.mem_append.1 hk with h1 | h1
      · exact ih.2 k h1
      · rw [List.mem_singleton] at h1
        rw [h1, hrec.2]
        decide
  | setName w name _ ih => exact ih
  | setRCD w rcd _ ih => exact ih
  | setType w addrtype _ _ ih =>
    rw [(setType_keys w addrtype).1, (setType_keys w addrtype).2]
    exact ih
  | unmarshalBinary w data _ hacc _ =>
    obtain ⟨rest, hd⟩ := unmarshalBinary_ok F w data hacc
    obtain ⟨w1, data1, _, hkeys⟩ := unmarshalBinaryData_ok F w _ data rest hd
    obtain ⟨P, S, pubs, privs, _, _, _, hallP, hallS, hw⟩ :=
      unmarshalKeys_ok w1 _ data1 rest hkeys
    rw [hw]
    exact ⟨hallP, fun k hk => Nat.le_of_eq (hallS k hk).symm⟩

/-- The single-key condition of `specFactoid` decodes itself from its encoding,
whatever bytes follow. -/
theorem specFactoid_codec (key : Bytes) (hkey : key.length = ADDRESS_LENGTH) (rest : Bytes) :
    ∃ r0, specFactoid.CreateRCD ((1 :: key) ++ rest) = .ok r0 ∧
      specFactoid.rcdUnmarshalBinaryData r0 ((1 :: key) ++ rest) = (RCD.RCD_1 key, .ok rest) := by
  refine ⟨RCD.RCD_1 (make ADDRESS_LENGTH), rfl, ?_⟩
  have hlen : ¬ (key ++ rest).length < ADDRESS_LENGTH := by
    rw [List.length_append]
    omega
  simp only [specFactoid, List.cons_append, ne_eq, not_true_eq_false, if_false, if_neg hlen]
  rw [← hkey, List.take_left, List.drop_left]

/-- C24: for every reachable entry with a set address kind, a name of at most
65535 bytes, a spending condition that encodes itself and decodes itself from
its encoding whatever follows, and at most 255 public and 255 private keys,
`MarshalBinary` returns bytes, and `UnmarshalBinaryData` on a fresh entry, given
these bytes followed by any trailing bytes, returns normally and leaves an entry
with the same address kind, name, spending condition and public-key list, and
with as many private keys. -/
theorem C24_unmarshal_marshalled (F : Factoid R H) (w : WalletEntry R) (rcd : R)
    (enc trailing : Bytes) (hreach : Reachable F w)
    (hkind : w.addrtype = "fct" ∨ w.addrtype = "ec") (hname : w.name.length ≤ 65535)
    (hrcd : w.rcd = some rcd) (henc : F.rcdMarshalBinary rcd = .ok enc)
    (hcodec : ∀ rest, ∃ r0, F.CreateRCD (enc ++ rest) = .ok r0 ∧
      F.rcdUnmarshalBinaryData r0 (enc ++ rest) = (rcd, .ok rest))
    (hpub : w.pubKeys.length ≤ 255) (hpriv : w.privKeys.length ≤ 255) :
    ∃ (data : Bytes) (w' : WalletEntry R) (rest : Bytes),
      MarshalBinary F w = .ok data ∧
      UnmarshalBinaryData F WalletEntry.New (data ++ trailing) = (w', .ok rest) ∧
      w'.addrtype = w.addrtype ∧ w'.name = w.name ∧ w'.rcd = w.rcd ∧
      w'.pubKeys = w.pubKeys ∧ w'.privKeys.length = w.privKeys.length := by
  obtain ⟨hallP, hallS⟩ := reachable_key_lengths F w hreach
  obtain ⟨r0, hcreate, hdecode⟩ := hcodec (byte w.pubKeys.length ::
    (w.pubKeys.flatten ++ byte w.privKeys.length :: (w.privKeys.flatten ++ trailing)))
  have hkindByte : ¬ (if w.addrtype = "fct" then (0 : Byte) else 1).val > 1 := by
    split <;> decide
  have hlen : Uint16 (Fin.ofNat ((w.name.length % 65536) / 256))
      (Fin.ofNat ((w.name.length % 65536) % 256)) = w.name.length := by
    simp only [Uint16, Fin.ofNat, Fin.val_mk]
    omega
  have hhead := unmarshalHead_marshalled F _ _ _ w.name enc _ r0 rcd hkindByte hlen
    hcreate hdecode
  obtain ⟨read, rest, hkeys, hread⟩ := unmarshalKeys_marshalled
    ({ addrtype := if (if w.addrtype = "fct" then (0 : Byte) else 1) = 0 then "fct" else "ec",
       name := w.name, rcd := some rcd, pubKeys := [], privKeys := [] } : WalletEntry R)
    w.pubKeys w.privKeys trailing hpub hpriv hallP hallS
  refine ⟨_, { addrtype := if (if w.addrtype = "fct" then (0 : Byte) else 1) = 0 then "fct"
                 else "ec",
               name := w.name, rcd := some rcd, pubKeys := w.pubKeys, privKeys := read },
    rest, marshalBinary_bytes F w rcd enc hkind hrcd henc, ?_, ?_, rfl, hrcd.symm, rfl, hread⟩
  · unfold UnmarshalBinaryData
    simp only [List.cons_append, List.append_assoc]
    rw [hhead]
    simp only
    exact hkeys
  · rcases hkind with hk | hk
    · simp [hk]
    · simp only [hk]
      decide

/-- Witness of `C24_unmarshal_marshalled`: the bytes of the one-key entry
followed by the two bytes 9, 9 decode on a fresh entry to an entry with the same
kind, name, condition and public key, and with one private key. -/
theorem C24_unmarshal_marshalled_witness :
    ∃ (data : Bytes) (w' : WalletEntry RCD) (rest : Bytes),
      MarshalBinary specFactoid oneKeyEntry = .ok data ∧
      UnmarshalBinaryData specFactoid WalletEntry.New (data ++ [9, 9]) = (w', .ok rest) ∧
      w'.addrtype = oneKeyEntry.addrtype ∧ w'.name = oneKeyEntry.name ∧
      w'.rcd = oneKeyEntry.rcd ∧ w'.pubKeys = oneKeyEntry.pubKeys ∧
      w'.privKeys.length = oneKeyEntry.privKeys.length :=
  C24_unmarshal_marshalled specFactoid oneKeyEntry (RCD.RCD_1 pub1) (1 :: pub1) [9, 9]
    (Reachable.addKey _ _ _ (Reachable.setType _ _ Reachable.new (by decide)) (by decide))
    (by decide) (by decide) (by decide) (by decide)
    (specFactoid_codec pub1 (by decide)) (by decide) (by decide)

end roundtrip

/-! ## The sequence numbers of the report -/

section numbering

variable {D FB T : Type}

theorem countBefore_append (B : Blocks D FB T) (before : List FB) (fb : FB) :
    countBefore B (before ++ [fb]) =
      countBefore B before + ((B.GetTransactions fb).drop 1).length := by
  simp [countBefore]

/-- The report of a history in two parts: the numbering of the second part
starts after all the transactions at index 1 and above of the first. -/
theorem specReport_append (B : Blocks D FB T) (V : TransView T) (addresses : List Bytes)
    (before : List FB) :
    ∀ (i n : Nat) (after : List FB),
      specReport B V addresses i n (before ++ after) =
        specReport B V addresses i n before ++
          specReport B V addresses (i + before.length) (n + countBefore B before) after := by
  induction before with
  | nil =>
    intro i n after
    simp [specReport, countBefore]
  | cons fb rest ih =>
    intro i n after
    rw [List.cons_append, specReport, specReport, ih, String.append_assoc]
    have h1 : i + 1 + rest.length = i + (fb :: rest).length := by
      simp only [List.length_cons]
      omega
    have h2 : n + ((B.GetTransactions fb).drop 1).length + countBefore B rest =
        n + countBefore B (fb :: rest) := by
      simp only [countBefore, List.map_cons, List.sum_cons]
      omega
    rw [h1, h2]

/-- C25: for every address list, the report of a history is the report of the
blocks before a block, then the text of that block with its transactions at
index 1 and above numbered from 1 plus the number of such transactions in the
blocks before, whatever the filter does with them, then the later blocks. The
transaction at index `j` of the block is shown, when it passes the filter, under
the sequence number of the specification, every number shown for the block is
such a number, and two address lists that both let the transaction pass show it
under the same number. -/
theorem C25_sequence_number_independent (B : Blocks D FB T) (V : TransView T)
    (before : List FB) (fb : FB) (after : List FB) :
    (∀ addresses : List Bytes,
      dumpBlocks B V addresses 0 (before ++ fb :: after) "" 1 =
        specReport B V addresses 0 1 before ++
          (blockText V addresses before.length (B.GetTransactions fb)
              (1 + countBefore B before) ++
            specReport B V addresses (before.length + 1)
              (1 + countBefore B (before ++ [fb])) after)) ∧
    (∀ (addresses : List Bytes) (j : Nat) (t : T), 1 ≤ j →
      (B.GetTransactions fb)[j]? = some t → filtertransaction V t addresses = true →
      (seqNumber B before j, t) ∈
        shown V addresses (B.GetTransactions fb) (1 + countBefore B before)) ∧
    (∀ (addresses : List Bytes) (k : Nat) (t : T),
      (k, t) ∈ shown V addresses (B.GetTransactions fb) (1 + countBefore B before) →
      ∃ j, 1 ≤ j ∧ (B.GetTransactions fb)[j]? = some t ∧ k = seqNumber B before j) ∧
    (∀ (a1 a2 : List Bytes) (j : Nat) (t : T), 1 ≤ j →
      (B.GetTransactions fb)[j]? = some t →
      filtertransaction V t a1 = true → filtertransaction V t a2 = true →
      (seqNumber B before j, t) ∈
          shown V a1 (B.GetTransactions fb) (1 + countBefore B before) ∧
        (seqNumber B before j, t) ∈
          shown V a2 (B.GetTransactions fb) (1 + countBefore B before)) := by
  have hshown : ∀ (addresses : List Bytes) (j : Nat) (t : T), 1 ≤ j →
      (B.GetTransactions fb)[j]? = some t → filtertransaction V t addresses = true →
      (seqNumber B before j, t) ∈
        shown V addresses (B.GetTransactions fb) (1 + countBefore B before) := by
    intro addresses j t hj ht hf
    rw [mem_shown]
    refine ⟨j, hj, ht, ?_, hf⟩
    unfold seqNumber
    omega
  refine ⟨?_, hshown, ?_, ?_⟩
  · intro addresses
    rw [dumpBlocks_eq, String.empty_append, specReport_append, specReport,
      countBefore_append]
    simp only [Nat.zero_add, Nat.add_assoc]
  · intro addresses k t hk
    obtain ⟨j, hj, ht, hkj, _⟩ := (mem_shown V addresses _ _ k t).1 hk
    refine ⟨j, hj, ht, ?_⟩
    unfold seqNumber
    omega
  · intro a1 a2 j t hj ht h1 h2
    exact ⟨hshown a1 j t hj ht h1, hshown a2 j t hj ht h2⟩

/-- Witness of `C25_sequence_number_independent`: the payment at index 2 of the
second example block is shown under the number 3 both for the address 5, which
hides the payment numbered 2, and for the empty address list. -/
theorem C25_sequence_number_independent_witness :
    seqNumber exBlocks [fblock1] 2 = 3 ∧
      (3, payTo 22 [5]) ∈ shown specView [[5]] fblock2.transactions
        (1 + countBefore exBlocks [fblock1]) ∧
      (3, payTo 22 [5]) ∈ shown specView [] fblock2.transactions
        (1 + countBefore exBlocks [fblock1]) :=
  ⟨by decide,
    (C25_sequence_number_independent exBlocks specView [fblock1] fblock2 []).2.2.2
      [[5]] [] 2 (payTo 22 [5]) (by decide) (by decide) (by decide) (by decide)⟩

end numbering

end FctWallet
